import Mathlib

/-!
# Telu-Coin back end: event normalisation, pagination, the balance ledger and the wallet services

A shallow embedding of the parts of `telkom_coin_back_end` that the
specification's testable properties talk about:

* `internal/services/blockchain_explorer_service.go`
  (`GetAllTransactions`, `GetTransactionsByAddress`, `GetTransactionByHash`,
  `GetBlockchainStats`, `parseLogToTransaction` and the six event decoders) and
  the statistics loop of `internal/handler/blockchain_explorer_handler.go`;
* `internal/repository/balance_repository.go`
  (`SubtractBalance`, `LockBalance`, `UnlockBalance`, `DeductLockedBalance`);
* the wei / TLC conversions used by the explorer, balance and wallet services,
  and the string conversions `ConvertToWei` / `ConvertFromWei` of
  `internal/blockchain/blockchain_service.go`;
* `internal/services/tlc_wallet_service.go` (`ValidateTransfer`, `TransferTLC`),
  `internal/services/topup_service.go` (`RequestTopup`, `GetTopupHistory`),
  `internal/services/withdraw_service.go` (`CreateWithdrawal`) and
  `internal/web3/contract_service.go` (`WaitForReceipt`);
* the input checks of `pkg/helpers/validation.go`, of the explorer and top-up
  handlers (`TopupHandler.RequestTopup` among them) and of
  `BlockchainService.ValidateTransactionHash`.

Go values are embedded as follows.  `*big.Int` is `Int`, `uint64` and
`uint256` are `Nat`, Go `int` is `Int` with explicit 64-bit wrap-around
(`wrapInt`), `common.Hash` and `common.Address` are represented by their
`Hex()` rendering (the only way the code ever looks at them).  A Go call that
may return an `error` or panic returns a `Res`.  The services that talk to the
store and to the node return, next to their result, the list of `Effect`s they
performed, in order; the answers of the store and of the node are the fields of
`Backend` and `ContractService`.
-/

namespace TeluCoin

/-! ## Go outcomes -/

/-- Outcome of a Go call: a value, a returned `error`, or a run-time panic. -/
inductive Res (α : Type) where
  | ok (val : α)
  | err (msg : String)
  | panic (msg : String)
deriving Repr, DecidableEq

/-- Go `int` on a 64-bit platform: the two's-complement value of `x`. -/
def wrapInt (x : Int) : Int := (x + 2 ^ 63) % 2 ^ 64 - 2 ^ 63

/-- Conversion `int64(n)` of a `uint64`. -/
def toInt64 (n : Nat) : Int := wrapInt (n : Int)

/-! ## Data model (`types.Log`, `response.TLCTransactionItem`) -/

/-- `types.Log` of go-ethereum.  `Address`, `Topics` and `TxHash` hold the
`Hex()` rendering of the corresponding address / hashes. -/
structure Log where
  Address : String
  Topics : List String
  Data : List UInt8
  BlockNumber : Nat
  TxHash : String
deriving Repr, DecidableEq

/-- `response.TLCTransactionItem`.  The Go field `Type` is spelled `Type_`;
`Timestamp` is the Unix time in seconds. -/
structure TLCTransactionItem where
  TxHash : String
  BlockNumber : Nat
  FromAddress : String
  ToAddress : String
  Amount : String
  AmountWei : String
  Type_ : String
  Status : String
  GasUsed : Nat
  GasPrice : String
  Memo : String
  Timestamp : Int
  Direction : String
deriving Repr, DecidableEq

/-- `response.TLCTransactionHistoryResponse`. -/
structure TLCTransactionHistoryResponse where
  Transactions : List TLCTransactionItem
  TotalCount : Int
  Page : Int
  Limit : Int
deriving Repr, DecidableEq

/-- The six values `s.contractABI.Events[name].ID.Hex()`. -/
structure ContractABI where
  TokensMinted : String
  TokensBurned : String
  PaymentProcessed : String
  TopupRequested : String
  WithdrawRequested : String
  Transfer : String

/-- The non-indexed fields that `contractABI.UnpackIntoInterface` copies into
the event struct: the `uint256` amount and, for the events that have one, the
string field (`note`, `paymentProof`, `bankAccount`). -/
structure UnpackedEvent where
  Amount : Nat
  Text : String
deriving Repr, DecidableEq

/-- `BlockchainExplorerService` together with the collaborators its methods call.

* `FilterLogs fromBlock toBlock`, `BlockByNumber n` (the block's `Time()`),
  `TransactionReceipt hash` (the receipt's logs) and `BlockNumber` are the RPC
  calls on `s.client`;
* `UnpackIntoInterface name data` is the go-ethereum ABI decoder;
* `HexToAddress h` is `common.HexToAddress(h).Hex()`;
* `mapRange` is the order in which a Go `range` visits the entries of the
  `txLogs` map (unspecified by the language; it visits every entry once). -/
structure BlockchainExplorerService where
  contractAddress : String
  contractABI : ContractABI
  FilterLogs : Int → Option Int → Except String (List Log)
  BlockByNumber : Int → Except String Nat
  TransactionReceipt : String → Except String (List Log)
  BlockNumber : Except String Nat
  UnpackIntoInterface : String → List UInt8 → Except String UnpackedEvent
  HexToAddress : String → String
  mapRange : List (String × List Log) → List (String × List Log)

/-! ## Unit conversion -/

/-- `divisor := new(big.Int).Exp(big.NewInt(10), big.NewInt(18), nil)`. -/
def divisor : Int := 10 ^ 18

/-- `multiplier := new(big.Int).Exp(big.NewInt(10), big.NewInt(18), nil)`. -/
def multiplier : Int := 10 ^ 18

/-- `amountTLC := new(big.Int).Div(amount, divisor)` (explorer, balance and
wallet services).  `big.Int.Div` is Euclidean division, as is `/` on `Int`. -/
def amountTLC (amount : Int) : Int := amount / divisor

/-- `amountWei := new(big.Int).Mul(amountToken, multiplier)` (wallet, top-up,
withdraw and balance services). -/
def amountWei (amountToken : Int) : Int := amountToken * multiplier

/-! ## Event decoders -/

/-- The reserved zero address as rendered by `Address.Hex()`. -/
def zeroAddress : String := "0x0000000000000000000000000000000000000000"

/-- `fmt.Sprintf("%x", event.RequestId)`: the request id is an indexed field,
which `UnpackIntoInterface` never fills, so it is the zero `[32]byte`. -/
def requestIdHex : String := String.mk (List.replicate 64 '0')

/-- `new(big.Int).SetBytes(data)`: the big-endian value of the bytes. -/
def SetBytes (data : List UInt8) : Int :=
  ((data.foldl (fun acc b => acc * 256 + b.toNat) 0 : Nat) : Int)

/-- The address taken from topic `i` when the log has more than `i` topics,
and the zero value of `common.Address` otherwise. -/
def topicAddress (s : BlockchainExplorerService) (vLog : Log) (i : Nat) : String :=
  match vLog.Topics.get? i with
  | some t => s.HexToAddress t
  | none => zeroAddress

/-- `parseTokensMinted`. -/
def parseTokensMinted (s : BlockchainExplorerService) (vLog : Log) (timestamp : Int) :
    Res TLCTransactionItem :=
  match s.UnpackIntoInterface "TokensMinted" vLog.Data with
  | .error e => .err e
  | .ok event =>
    .ok {
      TxHash := vLog.TxHash
      BlockNumber := vLog.BlockNumber
      FromAddress := zeroAddress
      ToAddress := topicAddress s vLog 1
      Amount := toString (amountTLC event.Amount)
      AmountWei := toString (event.Amount : Int)
      Type_ := "topup"
      Status := "confirmed"
      GasUsed := 0
      GasPrice := "0"
      Memo := "Tokens minted - Request ID: " ++ requestIdHex
      Timestamp := timestamp
      Direction := "" }

/-- `parseTokensBurned`. -/
def parseTokensBurned (s : BlockchainExplorerService) (vLog : Log) (timestamp : Int) :
    Res TLCTransactionItem :=
  match s.UnpackIntoInterface "TokensBurned" vLog.Data with
  | .error e => .err e
  | .ok event =>
    .ok {
      TxHash := vLog.TxHash
      BlockNumber := vLog.BlockNumber
      FromAddress := topicAddress s vLog 1
      ToAddress := zeroAddress
      Amount := toString (amountTLC event.Amount)
      AmountWei := toString (event.Amount : Int)
      Type_ := "withdraw"
      Status := "confirmed"
      GasUsed := 0
      GasPrice := "0"
      Memo := "Tokens burned - Request ID: " ++ requestIdHex
      Timestamp := timestamp
      Direction := "" }

/-- `parsePaymentProcessed`. -/
def parsePaymentProcessed (s : BlockchainExplorerService) (vLog : Log) (timestamp : Int) :
    Res TLCTransactionItem :=
  match s.UnpackIntoInterface "PaymentProcessed" vLog.Data with
  | .error e => .err e
  | .ok event =>
    .ok {
      TxHash := vLog.TxHash
      BlockNumber := vLog.BlockNumber
      FromAddress := topicAddress s vLog 1
      ToAddress := topicAddress s vLog 2
      Amount := toString (amountTLC event.Amount)
      AmountWei := toString (event.Amount : Int)
      Type_ := "transfer"
      Status := "confirmed"
      GasUsed := 0
      GasPrice := "0"
      Memo := event.Text
      Timestamp := timestamp
      Direction := "" }

/-- `parseTopupRequested`. -/
def parseTopupRequested (s : BlockchainExplorerService) (vLog : Log) (timestamp : Int) :
    Res TLCTransactionItem :=
  match s.UnpackIntoInterface "TopupRequested" vLog.Data with
  | .error e => .err e
  | .ok event =>
    .ok {
      TxHash := vLog.TxHash
      BlockNumber := vLog.BlockNumber
      FromAddress := zeroAddress
      ToAddress := topicAddress s vLog 1
      Amount := toString (amountTLC event.Amount)
      AmountWei := toString (event.Amount : Int)
      Type_ := "topup"
      Status := "pending"
      GasUsed := 0
      GasPrice := "0"
      Memo := "Topup request - Proof: " ++ event.Text
      Timestamp := timestamp
      Direction := "" }

/-- `parseWithdrawRequested`. -/
def parseWithdrawRequested (s : BlockchainExplorerService) (vLog : Log) (timestamp : Int) :
    Res TLCTransactionItem :=
  match s.UnpackIntoInterface "WithdrawRequested" vLog.Data with
  | .error e => .err e
  | .ok event =>
    .ok {
      TxHash := vLog.TxHash
      BlockNumber := vLog.BlockNumber
      FromAddress := topicAddress s vLog 1
      ToAddress := zeroAddress
      Amount := toString (amountTLC event.Amount)
      AmountWei := toString (event.Amount : Int)
      Type_ := "withdraw"
      Status := "confirmed"
      GasUsed := 0
      GasPrice := "0"
      Memo := "Withdrawal to: " ++ event.Text
      Timestamp := timestamp
      Direction := "" }

/-- `parseTransfer` (standard ERC20 `Transfer`). -/
def parseTransfer (s : BlockchainExplorerService) (vLog : Log) (timestamp : Int) :
    Res TLCTransactionItem :=
  if vLog.Topics.length < 3 then .err "invalid transfer event"
  else
    let fromAddr := topicAddress s vLog 1
    let toAddr := topicAddress s vLog 2
    let amount := SetBytes vLog.Data
    if amount = 0 then .err "zero transfer"
    else
      let txType :=
        if fromAddr = zeroAddress then "mint"
        else if toAddr = zeroAddress then "burn"
        else "transfer"
      .ok {
        TxHash := vLog.TxHash
        BlockNumber := vLog.BlockNumber
        FromAddress := fromAddr
        ToAddress := toAddr
        Amount := toString (amountTLC amount)
        AmountWei := toString amount
        Type_ := txType
        Status := "confirmed"
        GasUsed := 0
        GasPrice := "0"
        Memo := "Standard transfer"
        Timestamp := timestamp
        Direction := "" }

/-- `parseLogToTransaction`: fetch the block for the timestamp, then switch on
`vLog.Topics[0].Hex()` (which panics on a log without topics). -/
def parseLogToTransaction (s : BlockchainExplorerService) (vLog : Log) :
    Res TLCTransactionItem :=
  match s.BlockByNumber (toInt64 vLog.BlockNumber) with
  | .error e => .err e
  | .ok blockTime =>
    let timestamp := toInt64 blockTime
    match vLog.Topics with
    | [] => .panic "index out of range"
    | eventSig :: _ =>
      if eventSig = s.contractABI.TokensMinted then parseTokensMinted s vLog timestamp
      else if eventSig = s.contractABI.TokensBurned then parseTokensBurned s vLog timestamp
      else if eventSig = s.contractABI.PaymentProcessed then
        parsePaymentProcessed s vLog timestamp
      else if eventSig = s.contractABI.TopupRequested then parseTopupRequested s vLog timestamp
      else if eventSig = s.contractABI.WithdrawRequested then
        parseWithdrawRequested s vLog timestamp
      else if eventSig = s.contractABI.Transfer then parseTransfer s vLog timestamp
      else .err "unknown event type"

/-! ## `GetAllTransactions` -/

/-- The test of the first selection loop: the signature is one of the five
custom (domain) events. -/
def isCustomEvent (abi : ContractABI) (eventSig : String) : Bool :=
  eventSig == abi.TokensMinted ||
  eventSig == abi.TokensBurned ||
  eventSig == abi.PaymentProcessed ||
  eventSig == abi.TopupRequested ||
  eventSig == abi.WithdrawRequested

/-- First loop over `logsInTx`: the first log whose `Topics[0]` is a custom
event, if any (`hasCustomEvent` is whether the result is `some`).  Reading
`Topics[0]` of a log without topics panics. -/
def findCustomEvent (abi : ContractABI) : List Log → Res (Option Log)
  | [] => .ok none
  | vLog :: rest =>
    match vLog.Topics with
    | [] => .panic "index out of range"
    | eventSig :: _ =>
      if isCustomEvent abi eventSig then .ok (some vLog) else findCustomEvent abi rest

/-- Second loop over `logsInTx`: the first `Transfer` log, if any. -/
def findTransferEvent (abi : ContractABI) : List Log → Res (Option Log)
  | [] => .ok none
  | vLog :: rest =>
    match vLog.Topics with
    | [] => .panic "index out of range"
    | eventSig :: _ =>
      if eventSig = abi.Transfer then .ok (some vLog) else findTransferEvent abi rest

/-- The value of `selectedLog` after both loops. -/
def selectLog (abi : ContractABI) (logsInTx : List Log) : Res (Option Log) :=
  match findCustomEvent abi logsInTx with
  | .ok (some vLog) => .ok (some vLog)
  | .ok none => findTransferEvent abi logsInTx
  | .err e => .err e
  | .panic e => .panic e

/-- `txLogs[txHash] = append(txLogs[txHash], vLog)` on the map kept as an
association list (one entry per key, in order of first insertion). -/
def appendLog (txLogs : List (String × List Log)) (txHash : String) (vLog : Log) :
    List (String × List Log) :=
  match txLogs with
  | [] => [(txHash, [vLog])]
  | (k, ls) :: rest =>
    if k = txHash then (k, ls ++ [vLog]) :: rest
    else (k, ls) :: appendLog rest txHash vLog

/-- The map `txLogs` after the grouping loop. -/
def groupLogs (logs : List Log) : List (String × List Log) :=
  logs.foldl (fun txLogs vLog => appendLog txLogs vLog.TxHash vLog) []

/-- The two variables the processing loop updates. -/
structure LoopState where
  allTransactions : List TLCTransactionItem
  processedTx : List String
deriving Repr, DecidableEq

/-- One iteration of `for txHash, logsInTx := range txLogs`. -/
def processTx (s : BlockchainExplorerService) (st : LoopState)
    (entry : String × List Log) : Res LoopState :=
  if entry.1 ∈ st.processedTx then .ok st
  else
    match selectLog s.contractABI entry.2 with
    | .err e => .err e
    | .panic e => .panic e
    | .ok none => .ok st
    | .ok (some selectedLog) =>
      match parseLogToTransaction s selectedLog with
      | .ok tx =>
        .ok { allTransactions := st.allTransactions ++ [tx]
              processedTx := entry.1 :: st.processedTx }
      | .err _ => .ok st
      | .panic e => .panic e

/-- The record decoded from the selected log of one group, if a log is selected
and decodes without error. -/
def decodedRecord (s : BlockchainExplorerService) (logsInTx : List Log) :
    Option TLCTransactionItem :=
  match selectLog s.contractABI logsInTx with
  | .ok (some selectedLog) =>
    match parseLogToTransaction s selectedLog with
    | .ok tx => some tx
    | _ => none
  | _ => none

/-- The processing loop over the entries in the order the `range` visits them. -/
def processAll (s : BlockchainExplorerService) :
    LoopState → List (String × List Log) → Res LoopState
  | st, [] => .ok st
  | st, entry :: rest =>
    match processTx s st entry with
    | .ok st1 => processAll s st1 rest
    | .err e => .err e
    | .panic e => .panic e

/-- The slice `allTransactions` when the processing loop ends (before the sort). -/
def materialize (s : BlockchainExplorerService) (logs : List Log) :
    Res (List TLCTransactionItem) :=
  match processAll s { allTransactions := [], processedTx := [] }
      (s.mapRange (groupLogs logs)) with
  | .ok st => .ok st.allTransactions
  | .err e => .err e
  | .panic e => .panic e

/-- The `less` function handed to `sort.Slice`: block number descending, then
transaction hash descending (Go compares strings bytewise). -/
def txLess (a b : TLCTransactionItem) : Bool :=
  if a.BlockNumber = b.BlockNumber then decide (b.TxHash < a.TxHash)
  else decide (b.BlockNumber < a.BlockNumber)

/-- The relation "`b` does not have to come before `a`". -/
def txBefore (a b : TLCTransactionItem) : Prop := txLess b a = false

instance : DecidableRel txBefore := fun a b => by
  unfold txBefore; exact inferInstance

/-- `sort.Slice(allTransactions, less)`, modelled by insertion sort.
`sort.Slice` is not stable, but the order of elements that compare equal is the
only freedom a sorting algorithm has, and the items of `allTransactions` have
pairwise distinct `TxHash`, so none compare equal. -/
def sortTransactions (all : List TLCTransactionItem) : List TLCTransactionItem :=
  List.insertionSort txBefore all

/-- The pagination block shared verbatim by `GetAllTransactions` and
`GetTransactionsByAddress`.  `startIdx` and `endIdx` are Go `int`s; the slice
expression panics when `startIdx < 0` or `endIdx < startIdx`. -/
def paginate (all : List TLCTransactionItem) (page limit : Int) :
    Res TLCTransactionHistoryResponse :=
  let totalCount : Int := all.length
  let startIdx := wrapInt (wrapInt (page - 1) * limit)
  let endIdx := wrapInt (startIdx + limit)
  if startIdx ≥ totalCount then
    .ok { Transactions := [], TotalCount := totalCount, Page := page, Limit := limit }
  else
    let endIdx := if endIdx > totalCount then totalCount else endIdx
    if startIdx < 0 ∨ endIdx < startIdx then .panic "slice bounds out of range"
    else
      .ok { Transactions := (all.drop startIdx.toNat).take (endIdx - startIdx).toNat
            TotalCount := totalCount, Page := page, Limit := limit }

/-- `GetAllTransactions(fromBlock, toBlock, page, limit)`; `none` is a `nil`
block bound. -/
def GetAllTransactions (s : BlockchainExplorerService) (fromBlock toBlock : Option Int)
    (page limit : Int) : Res TLCTransactionHistoryResponse :=
  let fromBlock := fromBlock.getD 0
  let page := if page ≤ 0 then 1 else page
  let limit := if limit ≤ 0 then 10 else limit
  match s.FilterLogs fromBlock toBlock with
  | .error e => .err ("failed to filter logs: " ++ e)
  | .ok logs =>
    match materialize s logs with
    | .ok allTransactions => paginate (sortTransactions allTransactions) page limit
    | .err e => .err e
    | .panic e => .panic e

/-- `strings.EqualFold` on the strings this code compares.  One side is always
an `Address.Hex()` rendering (characters `0-9a-fA-FxX`), for which Unicode
simple case folding coincides with ASCII case folding. -/
def EqualFold (a b : String) : Bool :=
  a.data.map Char.toLower == b.data.map Char.toLower

/-- `GetTransactionsByAddress(address, page, limit)`. -/
def GetTransactionsByAddress (s : BlockchainExplorerService) (address : String)
    (page limit : Int) : Res TLCTransactionHistoryResponse :=
  let page := if page ≤ 0 then 1 else page
  let limit := if limit ≤ 0 then 10 else limit
  match GetAllTransactions s none none 1 999999 with
  | .err e => .err e
  | .panic e => .panic e
  | .ok allTx =>
    let userTransactions := allTx.Transactions.filter
      (fun tx => EqualFold tx.FromAddress address || EqualFold tx.ToAddress address)
    paginate userTransactions page limit

/-! ## Balance ledger (`BalanceRepository`) -/

/-- The digit scan of `big.Int.SetString(s, 10)`: the value of the longest
prefix of decimal digits, continuing from `acc`. -/
def scanDigits : List Char → Nat → Nat
  | [], acc => acc
  | c :: cs, acc => if c.isDigit then scanDigits cs (acc * 10 + (c.toNat - 48)) else acc

/-- The value a fresh `big.Int` holds after `z.SetString(s, 10)`.  The
repository ignores the `ok` flag, so this is the number it computes with: an
optional sign followed by the longest run of decimal digits (zero when there is
none), whatever follows.  For a well-formed signed decimal string it is the
number the string denotes. -/
def SetString (s : String) : Int :=
  match s.data with
  | [] => 0
  | c :: cs =>
    if c = '-' then -((scanDigits cs 0 : Nat) : Int)
    else if c = '+' then ((scanDigits cs 0 : Nat) : Int)
    else ((scanDigits (c :: cs) 0 : Nat) : Int)

set_option linter.dupNamespace false in
/-- The two ledger columns of `models.Balance` (the remaining columns are never
touched by the ledger operations). -/
structure Balance where
  Balance : String
  LockedBalance : String
deriving Repr, DecidableEq

/-- The errors of the two store calls an operation makes: `GetByUserID`
(`readErr`) and the `Update` that follows (`writeErr`); `none` is success. -/
structure StoreOutcome where
  readErr : Option String
  writeErr : Option String
deriving Repr, DecidableEq

/-- `SetBalance`: one `UPDATE` of the `balance` column.  The result is the
returned `error` (`none` for `nil`) and the row afterwards. -/
def SetBalance (row : Balance) (newBalance : String) (writeErr : Option String) :
    Option String × Balance :=
  match writeErr with
  | some e => (some e, row)
  | none => (none, { row with Balance := newBalance })

/-- The `UPDATE` of the `locked_balance` column at the end of `LockBalance` and
`UnlockBalance`. -/
def updateLockedBalance (row : Balance) (newLockedBalance : String)
    (writeErr : Option String) : Option String × Balance :=
  match writeErr with
  | some e => (some e, row)
  | none => (none, { row with LockedBalance := newLockedBalance })

/-- `SubtractBalance`. -/
def SubtractBalance (row : Balance) (amount : String) (o : StoreOutcome) :
    Option String × Balance :=
  match o.readErr with
  | some e => (some e, row)
  | none =>
    let currentBalance := SetString row.Balance
    let subAmount := SetString amount
    if currentBalance < subAmount then (some "insufficient balance", row)
    else
      let newBalance := currentBalance - subAmount
      SetBalance row (toString newBalance) o.writeErr

/-- `LockBalance`. -/
def LockBalance (row : Balance) (amount : String) (o : StoreOutcome) :
    Option String × Balance :=
  match o.readErr with
  | some e => (some e, row)
  | none =>
    let currentBalance := SetString row.Balance
    let lockedBalance := SetString row.LockedBalance
    let lockAmount := SetString amount
    let availableBalance := currentBalance - lockedBalance
    if availableBalance < lockAmount then (some "insufficient available balance", row)
    else
      let newLockedBalance := lockedBalance + lockAmount
      updateLockedBalance row (toString newLockedBalance) o.writeErr

/-- `UnlockBalance`. -/
def UnlockBalance (row : Balance) (amount : String) (o : StoreOutcome) :
    Option String × Balance :=
  match o.readErr with
  | some e => (some e, row)
  | none =>
    let lockedBalance := SetString row.LockedBalance
    let unlockAmount := SetString amount
    let newLockedBalance := lockedBalance - unlockAmount
    let newLockedBalance := if newLockedBalance < 0 then 0 else newLockedBalance
    updateLockedBalance row (toString newLockedBalance) o.writeErr

/-- `DeductLockedBalance`: `SubtractBalance`, then `UnlockBalance` on the row as
the first call left it; `o1` and `o2` are the store outcomes of the two calls. -/
def DeductLockedBalance (row : Balance) (amount : String) (o1 o2 : StoreOutcome) :
    Option String × Balance :=
  match SubtractBalance row amount o1 with
  | (some e, row1) => (some e, row1)
  | (none, row1) => UnlockBalance row1 amount o2

/-- A ledger call on one row: which method, with which amount, and how the
store answered. -/
inductive LedgerOp where
  | lock (amount : String) (o : StoreOutcome)
  | unlock (amount : String) (o : StoreOutcome)
  | subtract (amount : String) (o : StoreOutcome)
deriving Repr, DecidableEq

/-- The amount string of a ledger call. -/
def LedgerOp.amount : LedgerOp → String
  | .lock a _ => a
  | .unlock a _ => a
  | .subtract a _ => a

/-- The row after one ledger call. -/
def applyOp (row : Balance) : LedgerOp → Balance
  | .lock a o => (LockBalance row a o).2
  | .unlock a o => (UnlockBalance row a o).2
  | .subtract a o => (SubtractBalance row a o).2

/-- The rows after each call of a sequence, in order. -/
def runOps : Balance → List LedgerOp → List Balance
  | _, [] => []
  | row, op :: ops => applyOp row op :: runOps (applyOp row op) ops

/-- The ledger invariant `0 ≤ locked_balance ≤ balance` on the stored strings. -/
def ledgerInvariant (row : Balance) : Prop :=
  0 ≤ SetString row.LockedBalance ∧ SetString row.LockedBalance ≤ SetString row.Balance

instance (row : Balance) : Decidable (ledgerInvariant row) := by
  unfold ledgerInvariant; exact inferInstance

/-- Every `subtract` of the sequence asks for no more than the available
balance `balance - locked_balance` of the row it is applied to. -/
def subtractsWithinAvailable : Balance → List LedgerOp → Prop
  | _, [] => True
  | row, .subtract a o :: ops =>
    SetString a ≤ SetString row.Balance - SetString row.LockedBalance ∧
      subtractsWithinAvailable (applyOp row (.subtract a o)) ops
  | row, op :: ops => subtractsWithinAvailable (applyOp row op) ops

/-- A store that answers every call. -/
def storeOk : StoreOutcome := { readErr := none, writeErr := none }

/-! ## A concrete service for examples -/

/-- A contract ABI with six distinct event ids. -/
def demoABI : ContractABI where
  TokensMinted := "0x01"
  TokensBurned := "0x02"
  PaymentProcessed := "0x03"
  TopupRequested := "0x04"
  WithdrawRequested := "0x05"
  Transfer := "0x06"

/-- A service whose node holds `logs`, whose blocks carry their number as time,
whose decoder reads the data bytes as the amount, and whose `range` visits the
groups in reverse insertion order. -/
def demoService (logs : List Log) : BlockchainExplorerService where
  contractAddress := "0xc0"
  contractABI := demoABI
  FilterLogs := fun _ _ => .ok logs
  BlockByNumber := fun n => .ok n.toNat
  TransactionReceipt := fun h => .ok (logs.filter (fun l => l.TxHash = h))
  BlockNumber := .ok 0
  UnpackIntoInterface := fun _ data => .ok { Amount := (SetBytes data).toNat, Text := "" }
  HexToAddress := fun h => h
  mapRange := List.reverse

/-- A `TopupRequested` log of transaction `0xa1` in block 5. -/
def demoTopup : Log :=
  { Address := "0xc0", Topics := ["0x04", "0xaa"], Data := [1], BlockNumber := 5,
    TxHash := "0xa1" }

/-- The `Transfer` log from the zero address that the same transaction emits. -/
def demoTransfer : Log :=
  { Address := "0xc0", Topics := ["0x06", zeroAddress, "0xaa"], Data := [1], BlockNumber := 5,
    TxHash := "0xa1" }

/-- A `PaymentProcessed` log of transaction `0xb2` in block 7. -/
def demoPayment : Log :=
  { Address := "0xc0", Topics := ["0x03", "0xaa", "0xBB"], Data := [2], BlockNumber := 7,
    TxHash := "0xb2" }

/-- The logs of a small chain. -/
def demoLogs : List Log := [demoTransfer, demoTopup, demoPayment]

/-- Log number `i` of a chain on which every transaction is a payment sent by
address `0xaa`, one transaction per block. -/
def paymentLog (i : Nat) : Log :=
  { Address := "0xc0", Topics := ["0x03", "0xaa", "0xbb"], Data := [1], BlockNumber := i,
    TxHash := "0x" ++ toString i }

/-- The record `demoService` decodes from `paymentLog i`. -/
def paymentItem (i : Nat) : TLCTransactionItem :=
  { TxHash := "0x" ++ toString i, BlockNumber := i, FromAddress := "0xaa",
    ToAddress := "0xbb", Amount := "0", AmountWei := "1", Type_ := "transfer",
    Status := "confirmed", GasUsed := 0, GasPrice := "0", Memo := "",
    Timestamp := toInt64 (toInt64 i).toNat, Direction := "" }

/-- A chain of `n` such transactions. -/
def paymentLogs (n : Nat) : List Log := (List.range n).map paymentLog

/-- The record `demoService` decodes from `demoTopup`. -/
def demoTopupItem : TLCTransactionItem :=
  { TxHash := "0xa1", BlockNumber := 5, FromAddress := zeroAddress, ToAddress := "0xaa",
    Amount := "0", AmountWei := "1", Type_ := "topup", Status := "pending", GasUsed := 0,
    GasPrice := "0", Memo := "Topup request - Proof: ", Timestamp := 5, Direction := "" }

/-- The record `demoService` decodes from `demoPayment`. -/
def demoPaymentItem : TLCTransactionItem :=
  { TxHash := "0xb2", BlockNumber := 7, FromAddress := "0xaa", ToAddress := "0xBB",
    Amount := "0", AmountWei := "2", Type_ := "transfer", Status := "confirmed", GasUsed := 0,
    GasPrice := "0", Memo := "", Timestamp := 7, Direction := "" }


/-! ## Users, the local mirror and the contract gateway -/

/-- The columns of `models.User` the services read. -/
structure User where
  ID : Int
  Username : String
  WalletAddress : String
  PrivateKeyEncrypted : String
  PinHash : String
  Status : String
deriving Repr, DecidableEq

/-- A gorm error: `gorm.ErrRecordNotFound`, or any other error with its text. -/
inductive StoreError where
  | recordNotFound
  | other (msg : String)
deriving Repr, DecidableEq

/-- The columns of `models.Transaction` the services set.  Times are Unix
seconds; `Metadata` keeps the map entries as strings. -/
structure Transaction where
  ID : Int
  TxHash : String
  FromAddress : String
  ToAddress : String
  Amount : String
  TxType : String
  Status : String
  BlockNumber : Option Int
  Metadata : List (String × String)
  CreatedAt : Int
  ConfirmedAt : Option Int
deriving Repr, DecidableEq

/-- The fields of `types.Receipt` the code reads. -/
structure Receipt where
  Status : Nat
  BlockNumber : Nat
deriving Repr, DecidableEq

/-- `types.ReceiptStatusFailed`. -/
def ReceiptStatusFailed : Nat := 0

/-- `web3.ContractService`: the answers of the node to the calls the service
makes.  `GetBalance`, `Transfer`, `InstantTopup` and `RequestWithdraw` are the
methods of that name (each is a chain of RPC calls); addresses are passed as
the strings given to `common.HexToAddress`.  `TransactionReceipt txHash i` is
what `cs.client.client.TransactionReceipt` answers at poll number `i`.
`tieToTicker` says which case Go's `select` takes when a tick and the deadline
are ready together. -/
structure ContractService where
  GetBalance : String → Except String Int
  Transfer : String → String → Int → Except String String
  InstantTopup : String → Int → String → Except String String
  RequestWithdraw : String → Int → String → Except String String
  TransactionReceipt : String → Nat → Except String Receipt
  tieToTicker : Bool

/-- What the wallet, top-up and withdraw services are wired to.

* `GetByID`, `GetByWalletAddress`: `userRepo`;
* `Create tx`: `txRepo.Create`, which answers with the id the store assigned
  or with an error; `FindTopupHistoryByWalletAddress wallet page limit`:
  the rows and the total count;
* `balanceRow`, `balanceStore`: the user's `balances` row and how the store
  answers `balanceRepo.AddBalance`;
* `contractService` (`nil` is `none`) and `IsWeb3Enabled`: the fields set when
  the service was constructed;
* `NewBlockchainServiceEnabled`, `NewWeb3Client`, `NewContractService`: the
  outcome of the connections `RequestTopup` opens itself;
* `sha256Hex` is `hex.EncodeToString(sha256.Sum256(...))`;
  `DecryptPrivateKey` is `crypto.DecryptPrivateKey`;
* `Now` is the reading of `time.Now()` (Unix seconds). -/
structure Backend where
  GetByID : Int → Except StoreError User
  GetByWalletAddress : String → Except StoreError User
  Create : Transaction → Except String Int
  FindTopupHistoryByWalletAddress : String → Int → Int → Except String (List Transaction × Int)
  balanceRow : Balance
  balanceStore : StoreOutcome
  contractService : Option ContractService
  IsWeb3Enabled : Bool
  NewBlockchainServiceEnabled : Bool
  NewWeb3Client : Except String Unit
  NewContractService : Except String ContractService
  sha256Hex : String → String
  DecryptPrivateKey : String → Except String String
  Now : Int

/-- What a service call does to the outside, in order.  All but `AddBalance`,
`Create` and `Log` touch the chain node or the signing key. -/
inductive Effect where
  | NewBlockchainService
  | NewWeb3Client
  | NewContractService
  | GetBalance (address : String)
  | DecryptPrivateKey (encryptedKey : String)
  | Transfer (privateKey toAddress : String) (amount : Int)
  | InstantTopup (privateKey : String) (amount : Int) (paymentProof : String)
  | RequestWithdraw (privateKey : String) (amount : Int) (bankAccount : String)
  | TransactionReceipt (txHash : String) (poll : Nat)
  | AddBalance (userID : Int) (amount : String)
  | Create (tx : Transaction)
  | Log (line : String)
deriving Repr, DecidableEq

/-- Whether an effect is a transaction submission. -/
def Effect.isSubmission : Effect → Bool
  | .Transfer _ _ _ => true
  | .InstantTopup _ _ _ => true
  | .RequestWithdraw _ _ _ => true
  | _ => false

/-- Whether an effect is an insert into the `transactions` table. -/
def Effect.isCreate : Effect → Bool
  | .Create _ => true
  | _ => false

/-- Whether an effect is a receipt poll. -/
def Effect.isReceiptPoll : Effect → Bool
  | .TransactionReceipt _ _ => true
  | _ => false

/-! ## Input checks -/

/-- `crypto.HashPin`. -/
def HashPin (b : Backend) (pin : String) : String := b.sha256Hex pin

/-- `crypto.VerifyPin`. -/
def VerifyPin (b : Backend) (pin hash : String) : Bool := HashPin b pin == hash

/-- `isHexCharacter` of go-ethereum. -/
def isHexCharacter (c : Char) : Bool :=
  ('0' ≤ c && c ≤ '9') || ('a' ≤ c && c ≤ 'f') || ('A' ≤ c && c ≤ 'F')

/-- `common.IsHexAddress`: forty hex characters, after an optional `0x` or `0X`. -/
def IsHexAddress (s : String) : Bool :=
  let body :=
    match s.data with
    | '0' :: 'x' :: rest => rest
    | '0' :: 'X' :: rest => rest
    | cs => cs
  body.length == 40 && body.all isHexCharacter

/-- The `ok` flag of `big.Int.SetString(s, 10)`: an optional sign followed by
one or more decimal digits and nothing else. -/
def SetStringOk (s : String) : Bool :=
  match s.data with
  | [] => false
  | c :: cs =>
    let digits := if c = '-' ∨ c = '+' then cs else c :: cs
    !digits.isEmpty && digits.all Char.isDigit

/-- `strconv.Atoi`: an optional sign and one or more decimal digits, within the
range of a 64-bit `int`; `none` is an error. -/
def Atoi (s : String) : Option Int :=
  if SetStringOk s ∧ -2 ^ 63 ≤ SetString s ∧ SetString s < 2 ^ 63 then some (SetString s)
  else none

/-- `helpers.ValidatePagination`; the third component is the returned `error`. -/
def ValidatePagination (page limit : String) : Int × Int × Option String :=
  let pageInt : Int :=
    if page ≠ "" then
      match Atoi page with
      | none => 1
      | some p => if p < 1 then 1 else p
    else 1
  let limitInt : Int :=
    if limit ≠ "" then
      match Atoi limit with
      | none => 10
      | some l => if l < 1 ∨ l > 100 then 10 else l
    else 10
  (pageInt, limitInt, none)

/-- `helpers.ValidateAmount`: not empty, accepted by
`big.Int.SetString(amount, 10)`, and positive. -/
def ValidateAmount (amount : String) : Bool :=
  if amount = "" then false
  else if SetStringOk amount = false then false
  else decide (0 < SetString amount)

/-- `helpers.ValidateIDRAmount`: a valid amount between 1,000 and
1,000,000,000. -/
def ValidateIDRAmount (amount : String) : Bool :=
  if ValidateAmount amount = false then false
  else decide (1000 ≤ SetString amount) && decide (SetString amount ≤ 1000000000)

/-- `BlockchainService.ValidateTransactionHash`: 66 bytes, starting with `0x`,
the rest accepted by `hex.DecodeString`. -/
def ValidateTransactionHash (hash : String) : Bool :=
  if hash.utf8ByteSize ≠ 66 ∨ hash.data.take 2 ≠ ['0', 'x'] then false
  else (hash.data.drop 2).all isHexCharacter

/-! ## Waiting for a receipt -/

/-- `time.Duration(timeoutSeconds) * time.Second`: the timeout in nanoseconds,
a 64-bit integer. -/
def timeoutDuration (timeoutSeconds : Int) : Int := wrapInt (timeoutSeconds * 1000000000)

/-- The number of ticks the `select` of `WaitForReceipt` takes before
`ctx.Done()`: the ticker fires every 2,000,000,000 ns, the deadline is
`timeoutDuration timeoutSeconds` after the start (it has already passed when
that is not positive), and a tick that coincides with the deadline is taken
only if the `select` picks it. -/
def ticksBeforeDeadline (timeoutSeconds : Int) (tieToTicker : Bool) : Nat :=
  let timeout := timeoutDuration timeoutSeconds
  if timeout ≤ 0 then 0
  else if timeout % 2000000000 = 0 ∧ tieToTicker = false then
    (timeout / 2000000000 - 1).toNat
  else (timeout / 2000000000).toNat

/-- The `for`/`select` loop of `WaitForReceipt` from poll number `i` on, with
`ticks` ticks left before the deadline.  The result comes with the polls made.
The log line of a poll that finds nothing slices `txHash[:10]`. -/
def pollReceipt (cs : ContractService) (txHash : String) :
    Nat → Nat → Res Receipt × List Effect
  | 0, _ => (.err "timeout waiting for transaction confirmation", [])
  | ticks + 1, i =>
    match cs.TransactionReceipt txHash i with
    | .ok receipt =>
      if receipt.Status = ReceiptStatusFailed then
        (.err "transaction reverted on blockchain", [Effect.TransactionReceipt txHash i])
      else (.ok receipt, [Effect.TransactionReceipt txHash i])
    | .error _ =>
      if txHash.utf8ByteSize < 10 then
        (.panic "slice bounds out of range", [Effect.TransactionReceipt txHash i])
      else
        let rest := pollReceipt cs txHash ticks (i + 1)
        (rest.1, Effect.TransactionReceipt txHash i :: rest.2)

/-- `ContractService.WaitForReceipt`. -/
def WaitForReceipt (cs : ContractService) (txHash : String) (timeoutSeconds : Int) :
    Res Receipt × List Effect :=
  pollReceipt cs txHash (ticksBeforeDeadline timeoutSeconds cs.tieToTicker) 0

/-! ## Wallet, top-up and withdraw services -/

/-- `response.ValidateTransferResponse`. -/
structure ValidateTransferResponse where
  FromAddress : String
  FromUsername : String
  ToAddress : String
  ToUsername : String
  Amount : String
  AmountWei : String
  SenderBalance : String
  IsValid : Bool
deriving Repr, DecidableEq

/-- `response.TLCTransferResponse`. -/
structure TLCTransferResponse where
  TxHash : String
  FromAddress : String
  ToAddress : String
  Amount : String
  AmountWei : String
  Memo : String
  Status : String
  Timestamp : Int
deriving Repr, DecidableEq

/-- `request.TopupRequest`. -/
structure TopupRequest where
  Amount : String
  PaymentMethod : String
  Pin : String
deriving Repr, DecidableEq

/-- `response.TopupResponse` (`ExpiredAt` is never set). -/
structure TopupResponse where
  ID : Int
  Amount : String
  Currency : String
  PaymentMethod : String
  PaymentDetails : List (String × String)
  Status : String
  TxHash : String
  CreatedAt : Int
deriving Repr, DecidableEq

/-- `response.TopupHistoryResponse`. -/
structure TopupHistoryResponse where
  Topups : List TopupResponse
  TotalCount : Int
  Page : Int
  Limit : Int
  TotalPages : Int
deriving Repr, DecidableEq

/-- `response.TLCWithdrawResponse`. -/
structure TLCWithdrawResponse where
  RequestID : String
  Amount : String
  AmountWei : String
  BankAccount : String
  Status : String
  TxHash : String
  WalletAddress : String
  CreatedAt : Int
deriving Repr, DecidableEq

/-- `AddBalance` of the balance repository. -/
def AddBalance (row : Balance) (amount : String) (o : StoreOutcome) :
    Option String × Balance :=
  match o.readErr with
  | some e => (some e, row)
  | none =>
    let currentBalance := SetString row.Balance
    let addAmount := SetString amount
    let newBalance := currentBalance + addAmount
    SetBalance row (toString newBalance) o.writeErr

/-- `TLCWalletService.ValidateTransfer`. -/
def ValidateTransfer (b : Backend) (userID : Int) (toAddress amount : String) :
    Res ValidateTransferResponse × List Effect :=
  match b.GetByID userID with
  | .error .recordNotFound => (.err "user not found", [])
  | .error (.other e) => (.err e, [])
  | .ok user =>
    if user.Status ≠ "active" then (.err "account is not active", [])
    else if IsHexAddress toAddress = false then (.err "invalid recipient address format", [])
    else if toAddress = user.WalletAddress then (.err "cannot transfer to yourself", [])
    else if SetStringOk amount = false then (.err "invalid amount format", [])
    else if SetString amount ≤ 0 then (.err "amount must be greater than 0", [])
    else
      let amountWei := amountWei (SetString amount)
      match b.contractService, b.IsWeb3Enabled with
      | some cs, true =>
        let t1 := [Effect.GetBalance user.WalletAddress]
        match cs.GetBalance user.WalletAddress with
        | .error e => (.err ("failed to check on-chain balance: " ++ e), t1)
        | .ok senderOnChainWei =>
          if senderOnChainWei < amountWei then (.err "insufficient on-chain balance", t1)
          else
            match b.GetByWalletAddress toAddress with
            | .error .recordNotFound => (.err "recipient address not found in system", t1)
            | .error (.other e) => (.err e, t1)
            | .ok recipientUser =>
              (.ok { FromAddress := user.WalletAddress
                     FromUsername := user.Username
                     ToAddress := toAddress
                     ToUsername := recipientUser.Username
                     Amount := amount
                     AmountWei := toString amountWei
                     SenderBalance := toString senderOnChainWei
                     IsValid := true }, t1)
      | _, _ => (.err "blockchain not available", [])

/-- `TLCWalletService.TransferTLC`.  The insert's error is only logged. -/
def TransferTLC (b : Backend) (userID : Int) (toAddress amount memo pin : String) :
    Res TLCTransferResponse × List Effect :=
  match b.GetByID userID with
  | .error .recordNotFound => (.err "user not found", [])
  | .error (.other e) => (.err e, [])
  | .ok user =>
    if user.Status ≠ "active" then (.err "account is not active", [])
    else if VerifyPin b pin user.PinHash = false then (.err "invalid PIN", [])
    else if IsHexAddress toAddress = false then (.err "invalid recipient address format", [])
    else if toAddress = user.WalletAddress then (.err "cannot transfer to yourself", [])
    else if SetStringOk amount = false then (.err "invalid amount format", [])
    else if SetString amount ≤ 0 then (.err "amount must be greater than 0", [])
    else
      let amountWei := amountWei (SetString amount)
      match b.contractService, b.IsWeb3Enabled with
      | some cs, true =>
        let t1 := [Effect.GetBalance user.WalletAddress]
        match cs.GetBalance user.WalletAddress with
        | .error e => (.err ("failed to check on-chain balance: " ++ e), t1)
        | .ok senderOnChainWei =>
          if senderOnChainWei < amountWei then (.err "insufficient on-chain balance", t1)
          else
            let t2 := t1 ++ [Effect.DecryptPrivateKey user.PrivateKeyEncrypted]
            match b.DecryptPrivateKey user.PrivateKeyEncrypted with
            | .error _ => (.err "failed to decrypt private key", t2)
            | .ok privateKey =>
              let t3 := t2 ++ [Effect.Transfer privateKey toAddress amountWei]
              match cs.Transfer privateKey toAddress amountWei with
              | .error e => (.err ("blockchain transfer failed: " ++ e), t3)
              | .ok txHash =>
                let waited := WaitForReceipt cs txHash 60
                let t4 := t3 ++ waited.2
                match waited.1 with
                | .panic e => (.panic e, t4)
                | .err e => (.err ("transaction not confirmed or failed: " ++ e), t4)
                | .ok receipt =>
                  let blockNum := toInt64 (receipt.BlockNumber % 2 ^ 64)
                  let txRecord : Transaction :=
                    { ID := 0
                      TxHash := txHash
                      FromAddress := user.WalletAddress
                      ToAddress := toAddress
                      Amount := amount
                      TxType := "transfer"
                      Status := "confirmed"
                      BlockNumber := some blockNum
                      Metadata := []
                      CreatedAt := b.Now
                      ConfirmedAt := some b.Now }
                  let t5 := t4 ++ [Effect.Create txRecord] ++
                    (match b.Create txRecord with
                     | .error e => [Effect.Log ("[ERROR] Failed to save transaction record: " ++ e)]
                     | .ok _ => [])
                  (.ok { TxHash := txHash
                         FromAddress := user.WalletAddress
                         ToAddress := toAddress
                         Amount := amount
                         AmountWei := toString amountWei
                         Memo := memo
                         Status := "confirmed"
                         Timestamp := b.Now }, t5)
      | _, _ => (.err "blockchain not available", [])

/-- `TopupService.RequestTopup`.  `blockchain.NewBlockchainService` never
returns an error; the errors of `AddBalance` and of the insert are only logged,
and the response carries the id the insert assigned (`tx.ID`, zero when the
insert failed). -/
def RequestTopup (b : Backend) (userID : Int) (req : TopupRequest) :
    Res TopupResponse × List Effect :=
  match b.GetByID userID with
  | .error .recordNotFound => (.err "user not found", [])
  | .error (.other e) => (.err e, [])
  | .ok user =>
    if user.Status ≠ "active" then (.err "account is not active", [])
    else if VerifyPin b req.Pin user.PinHash = false then (.err "invalid PIN", [])
    else if SetString req.Amount < 10000 then (.err "minimum topup amount is 10,000", [])
    else
      let amountWei := amountWei (SetString req.Amount)
      let t1 := [Effect.NewBlockchainService]
      if b.NewBlockchainServiceEnabled = false then (.err "blockchain not available", t1)
      else
        let t2 := t1 ++ [Effect.DecryptPrivateKey user.PrivateKeyEncrypted]
        match b.DecryptPrivateKey user.PrivateKeyEncrypted with
        | .error _ => (.err "failed to decrypt private key", t2)
        | .ok privateKey =>
          let t3 := t2 ++ [Effect.NewWeb3Client]
          match b.NewWeb3Client with
          | .error _ => (.err "failed to connect to blockchain", t3)
          | .ok _ =>
            let t4 := t3 ++ [Effect.NewContractService]
            match b.NewContractService with
            | .error _ => (.err "failed to initialize contract service", t4)
            | .ok contractService =>
              let paymentProof := "AUTO_TOPUP_" ++ req.PaymentMethod ++ "_" ++ req.Amount
              let t5 := t4 ++ [Effect.InstantTopup privateKey amountWei paymentProof]
              match contractService.InstantTopup privateKey amountWei paymentProof with
              | .error e => (.err ("blockchain topup failed: " ++ e), t5)
              | .ok txHash =>
                let t6 := t5 ++ [Effect.AddBalance user.ID req.Amount] ++
                  (match (AddBalance b.balanceRow req.Amount b.balanceStore).1 with
                   | some e => [Effect.Log ("failed to update balance after topup: " ++ e)]
                   | none => [])
                let tx : Transaction :=
                  { ID := 0
                    TxHash := txHash
                    FromAddress := zeroAddress
                    ToAddress := user.WalletAddress
                    Amount := req.Amount
                    TxType := "topup"
                    Status := "confirmed"
                    BlockNumber := none
                    Metadata := [("payment_method", req.PaymentMethod),
                      ("note", "Blockchain topup synced to DB"), ("auto_confirmed", "true")]
                    CreatedAt := b.Now
                    ConfirmedAt := some b.Now }
                let created := b.Create tx
                let t7 := t6 ++ [Effect.Create tx] ++
                  (match created with
                   | .error e => [Effect.Log ("failed to save transaction: " ++ e)]
                   | .ok _ => [])
                let txID : Int :=
                  match created with
                  | .error _ => tx.ID
                  | .ok id => id
                (.ok { ID := txID
                       Amount := req.Amount
                       Currency := "TLC"
                       PaymentMethod := req.PaymentMethod
                       PaymentDetails := [("method", req.PaymentMethod),
                         ("blockchain_only", "false"), ("synced_to_db", "true"),
                         ("note", "Topup confirmed & recorded")]
                       Status := "confirmed"
                       TxHash := txHash
                       CreatedAt := b.Now }, t7)

/-- `WithdrawService.CreateWithdrawal`.  The insert's error is only logged. -/
def CreateWithdrawal (b : Backend) (userID : Int) (amount bankAccount pin : String) :
    Res TLCWithdrawResponse × List Effect :=
  match b.GetByID userID with
  | .error .recordNotFound => (.err "user not found", [])
  | .error (.other e) => (.err e, [])
  | .ok user =>
    if user.Status ≠ "active" then (.err "account is not active", [])
    else if VerifyPin b pin user.PinHash = false then (.err "invalid PIN", [])
    else if SetStringOk amount = false then (.err "invalid amount format", [])
    else if SetString amount < 1000 then (.err "minimum withdrawal amount is 1,000 TLC", [])
    else
      match b.contractService with
      | none => (.err "blockchain service not available", [])
      | some cs =>
        let amountWei := amountWei (SetString amount)
        let t1 := [Effect.GetBalance user.WalletAddress]
        match cs.GetBalance user.WalletAddress with
        | .error _ => (.err "failed to check on-chain balance", t1)
        | .ok currentBalance =>
          if currentBalance < amountWei then (.err "insufficient on-chain balance", t1)
          else
            let t2 := t1 ++ [Effect.DecryptPrivateKey user.PrivateKeyEncrypted]
            match b.DecryptPrivateKey user.PrivateKeyEncrypted with
            | .error _ => (.err "failed to decrypt private key", t2)
            | .ok privateKey =>
              let t3 := t2 ++ [Effect.RequestWithdraw privateKey amountWei bankAccount]
              match cs.RequestWithdraw privateKey amountWei bankAccount with
              | .error e => (.err ("blockchain withdrawal request failed: " ++ e), t3)
              | .ok txHash =>
                let txRecord : Transaction :=
                  { ID := 0
                    TxHash := txHash
                    FromAddress := user.WalletAddress
                    ToAddress := ""
                    Amount := amount
                    TxType := "withdraw"
                    Status := "processing"
                    BlockNumber := none
                    Metadata := []
                    CreatedAt := b.Now
                    ConfirmedAt := none }
                let t4 := t3 ++ [Effect.Create txRecord] ++
                  (match b.Create txRecord with
                   | .error e => [Effect.Log ("[ERROR] Failed to save withdraw record: " ++ e)]
                   | .ok _ => [])
                (.ok { RequestID := ""
                       Amount := amount
                       AmountWei := toString amountWei
                       BankAccount := bankAccount
                       Status := "processing"
                       TxHash := txHash
                       WalletAddress := user.WalletAddress
                       CreatedAt := b.Now }, t4)

/-- `TopupService.GetTopupHistory`.  The page count is an integer division by
`limit`, which panics when `limit` is zero. -/
def GetTopupHistory (b : Backend) (userID : Int) (page limit : Int) :
    Res TopupHistoryResponse :=
  match b.GetByID userID with
  | .error _ => .err "user not found"
  | .ok user =>
    match b.FindTopupHistoryByWalletAddress user.WalletAddress page limit with
    | .error _ => .err "failed to retrieve topup history"
    | .ok (transactions, totalCount) =>
      let topupResponses := transactions.map (fun tx =>
        ({ ID := tx.ID
           Amount := tx.Amount
           Currency := ""
           PaymentMethod := (tx.Metadata.lookup "payment_method").getD ""
           PaymentDetails := []
           Status := tx.Status
           TxHash := tx.TxHash
           CreatedAt := tx.CreatedAt } : TopupResponse))
      if limit = 0 then .panic "integer divide by zero"
      else
        let totalPages := wrapInt (Int.tdiv (wrapInt (wrapInt (totalCount + limit) - 1)) limit)
        .ok { Topups := topupResponses
              TotalCount := totalCount
              Page := page
              Limit := limit
              TotalPages := totalPages }

/-! ## Handlers -/

/-- The response a gin handler writes: one of the `helpers.*Response` calls, or
the panic gin recovers from. -/
inductive HandlerResponse (α : Type) where
  | Success (message : String) (data : α)
  | BadRequest (message : String)
  | NotFound (message : String)
  | InternalServerError (message : String)
  | Panic (message : String)
deriving Repr, DecidableEq

/-- Selection loop of `GetTransactionByHash`: as `findCustomEvent`, over the
logs whose `Address` is the contract's. -/
def findCustomEventOfContract (s : BlockchainExplorerService) : List Log → Res (Option Log)
  | [] => .ok none
  | vLog :: rest =>
    if vLog.Address = s.contractAddress then
      match vLog.Topics with
      | [] => .panic "index out of range"
      | eventSig :: _ =>
        if isCustomEvent s.contractABI eventSig then .ok (some vLog)
        else findCustomEventOfContract s rest
    else findCustomEventOfContract s rest

/-- Second loop of `GetTransactionByHash`: the first `Transfer` log of the
contract. -/
def findTransferEventOfContract (s : BlockchainExplorerService) : List Log → Res (Option Log)
  | [] => .ok none
  | vLog :: rest =>
    if vLog.Address = s.contractAddress then
      match vLog.Topics with
      | [] => .panic "index out of range"
      | eventSig :: _ =>
        if eventSig = s.contractABI.Transfer then .ok (some vLog)
        else findTransferEventOfContract s rest
    else findTransferEventOfContract s rest

/-- `BlockchainExplorerService.GetTransactionByHash`; `s.TransactionReceipt` is
asked for the hash `common.HexToHash(txHash)`. -/
def GetTransactionByHash (s : BlockchainExplorerService) (txHash : String) :
    Res TLCTransactionItem :=
  match s.TransactionReceipt txHash with
  | .error e => .err ("transaction not found: " ++ e)
  | .ok logs =>
    let selected :=
      match findCustomEventOfContract s logs with
      | .ok none => findTransferEventOfContract s logs
      | found => found
    match selected with
    | .panic e => .panic e
    | .err e => .err e
    | .ok none => .err ("no TLC transaction found in hash " ++ txHash)
    | .ok (some selectedLog) =>
      match parseLogToTransaction s selectedLog with
      | .ok tx => .ok tx
      | .panic e => .panic e
      | .err _ => .err ("no TLC transaction found in hash " ++ txHash)

/-- The query parsing shared by the explorer handlers: `page` falls back to 1,
`limit` to 10 (and is capped at 100). -/
def parsePageLimit (pageStr limitStr : String) : Int × Int :=
  let page : Int :=
    match Atoi pageStr with
    | some num => if num > 0 then num else 1
    | none => 1
  let limit : Int :=
    match Atoi limitStr with
    | some num => if num > 0 ∧ num ≤ 100 then num else 10
    | none => 10
  (page, limit)

/-- `BlockchainExplorerHandler.GetTransactionsByAddress`; `pageStr` and
`limitStr` are the query values after `DefaultQuery`. -/
def BlockchainExplorerHandler.GetTransactionsByAddress (s : BlockchainExplorerService)
    (address pageStr limitStr : String) : HandlerResponse TLCTransactionHistoryResponse :=
  if address = "" then .BadRequest "Address parameter is required"
  else if address.utf8ByteSize ≠ 42 ∨ address.data.take 2 ≠ ['0', 'x'] then
    .BadRequest "Invalid address format"
  else
    let pl := parsePageLimit pageStr limitStr
    match TeluCoin.GetTransactionsByAddress s address pl.1 pl.2 with
    | .err _ => .InternalServerError "Failed to get transactions"
    | .panic e => .Panic e
    | .ok transactions => .Success "Address transactions retrieved" transactions

/-- `BlockchainExplorerHandler.GetTransactionByHash`. -/
def BlockchainExplorerHandler.GetTransactionByHash (s : BlockchainExplorerService)
    (txHash : String) : HandlerResponse TLCTransactionItem :=
  if txHash = "" then .BadRequest "Transaction hash parameter is required"
  else if txHash.utf8ByteSize ≠ 66 ∨ txHash.data.take 2 ≠ ['0', 'x'] then
    .BadRequest "Invalid transaction hash format"
  else
    match TeluCoin.GetTransactionByHash s txHash with
    | .err _ => .NotFound "Transaction not found"
    | .panic e => .Panic e
    | .ok transaction => .Success "Transaction details retrieved" transaction

/-- `TopupHandler.GetTopupHistory`; `page` and `limit` are the raw query values. -/
def TopupHandler.GetTopupHistory (b : Backend) (userID : Int) (page limit : String) :
    HandlerResponse TopupHistoryResponse :=
  match ValidatePagination page limit with
  | (_, _, some _) => .BadRequest "Invalid pagination parameters"
  | (pageInt, limitInt, none) =>
    match TeluCoin.GetTopupHistory b userID pageInt limitInt with
    | .err e => .BadRequest e
    | .panic e => .Panic e
    | .ok history => .Success "Topup history retrieved" history

/-- `TopupHandler.RequestTopup`, the only caller of `TopupService.RequestTopup`.
`req` is the JSON body as `ShouldBindJSON` decodes it; the binding tags refuse
an empty `amount` or `pin` and a `payment_method` other than the three listed. -/
def TopupHandler.RequestTopup (b : Backend) (userID : Int) (req : TopupRequest) :
    HandlerResponse TopupResponse × List Effect :=
  if req.Amount = "" ∨ req.PaymentMethod ∉ ["bank_transfer", "va", "e-wallet"] ∨
      req.Pin = "" then
    (.BadRequest "Invalid request data", [])
  else if ValidateIDRAmount req.Amount = false then (.BadRequest "Invalid amount", [])
  else
    match TeluCoin.RequestTopup b userID req with
    | (.err e, effects) => (.BadRequest e, effects)
    | (.panic e, effects) => (.Panic e, effects)
    | (.ok topupResponse, effects) =>
      (.Success "Topup request created successfully" topupResponse, effects)

/-! ## A concrete backend for examples -/

/-- A registered, active user whose wallet address is stored in checksum case. -/
def demoUser : User :=
  { ID := 1, Username := "alice",
    WalletAddress := "0xAbCdEf0123456789aBcDeF0123456789ABCDEF01",
    PrivateKeyEncrypted := "enc-alice", PinHash := "sha256:123456", Status := "active" }

/-- A second registered user. -/
def demoRecipient : User :=
  { ID := 2, Username := "bob",
    WalletAddress := "0x1111111111111111111111111111111111111111",
    PrivateKeyEncrypted := "enc-bob", PinHash := "sha256:654321", Status := "active" }

/-- The hash the demo node returns for every submission. -/
def demoTxHash : String :=
  "0x00000000000000000000000000000000000000000000000000000000000000f1"

/-- A node on which every wallet holds 50,000 TLC, every submission is accepted
and the receipt (success, block 42) is found at the third poll. -/
def demoContractService : ContractService :=
  { GetBalance := fun _ => .ok (50000 * 10 ^ 18)
    Transfer := fun _ _ _ => .ok demoTxHash
    InstantTopup := fun _ _ _ => .ok demoTxHash
    RequestWithdraw := fun _ _ _ => .ok demoTxHash
    TransactionReceipt := fun _ i =>
      if i < 2 then .error "not found" else .ok { Status := 1, BlockNumber := 42 }
    tieToTicker := false }

/-- A backend with the two demo users, whose store assigns id 7 to an inserted
row. -/
def demoBackend : Backend :=
  { GetByID := fun id =>
      if id = 1 then .ok demoUser
      else if id = 2 then .ok demoRecipient
      else .error .recordNotFound
    GetByWalletAddress := fun a =>
      if a = demoUser.WalletAddress then .ok demoUser
      else if a = demoRecipient.WalletAddress then .ok demoRecipient
      else .error .recordNotFound
    Create := fun _ => .ok 7
    FindTopupHistoryByWalletAddress := fun _ _ _ => .ok ([], 25)
    balanceRow := { Balance := "100", LockedBalance := "0" }
    balanceStore := storeOk
    contractService := some demoContractService
    IsWeb3Enabled := true
    NewBlockchainServiceEnabled := true
    NewWeb3Client := .ok ()
    NewContractService := .ok demoContractService
    sha256Hex := fun pin => "sha256:" ++ pin
    DecryptPrivateKey := fun enc => .ok ("key-of-" ++ enc)
    Now := 1700000000 }

/-- The demo node with every receipt reporting a revert. -/
def revertingContractService : ContractService :=
  { demoContractService with
    TransactionReceipt := fun _ _ => .ok { Status := 0, BlockNumber := 42 } }

/-- The result with `f` applied to the returned value. -/
def Res.map {α β : Type} (f : α → β) : Res α → Res β
  | .ok v => .ok (f v)
  | .err e => .err e
  | .panic e => .panic e

/-- The demo backend on the node whose receipts all report a revert. -/
def revertingBackend : Backend :=
  { demoBackend with
    contractService := some revertingContractService
    NewContractService := .ok revertingContractService }

/-- The demo backend with a store that refuses every insert. -/
def refusingBackend : Backend :=
  { demoBackend with Create := fun _ => .error "database is down" }

/-- The demo explorer on a node that answers no query. -/
def downService : BlockchainExplorerService :=
  { demoService demoLogs with
    FilterLogs := fun _ _ => .error "node down"
    TransactionReceipt := fun _ => .error "node down" }

/-- The demo user's own address in lower case. -/
def demoUserLower : String := "0xabcdef0123456789abcdef0123456789abcdef01"

/-- A well-formed address that no registered user holds. -/
def strangerAddress : String := "0x2222222222222222222222222222222222222222"

/-- Forty-two bytes starting with `0x` that are not hexadecimal. -/
def notHexAddress : String := "0xzzzzzzzzzzzzzzzzzzzzzzzzzzzzzzzzzzzzzzzz"

/-- Sixty-six bytes starting with `0x` that are not hexadecimal. -/
def notHexHash : String :=
  "0xzzzzzzzzzzzzzzzzzzzzzzzzzzzzzzzzzzzzzzzzzzzzzzzzzzzzzzzzzzzzzzzz"

/-! ## Blockchain statistics -/

/-- `response.BlockchainStatsResponse`. -/
structure BlockchainStatsResponse where
  TotalMinted : String
  TotalBurned : String
  CirculatingSupply : String
  MaxSupply : String
  TotalTransactions : Int
  TotalAddresses : Int
  LatestBlock : Nat
deriving Repr, DecidableEq

/-- `strings.ToLower` on the strings this code lowers: renderings of addresses,
on which it is ASCII lower-casing. -/
def ToLower (s : String) : String := String.mk (s.data.map Char.toLower)

/-- The variables the loop of `GetBlockchainStats` updates.  The map
`uniqueAddresses` is kept as the list of its keys. -/
structure StatsState where
  totalMinted : Int
  totalBurned : Int
  uniqueAddresses : List String
deriving Repr, DecidableEq

/-- `uniqueAddresses[key] = true`. -/
def setKey (uniqueAddresses : List String) (key : String) : List String :=
  if key ∈ uniqueAddresses then uniqueAddresses else uniqueAddresses ++ [key]

/-- One iteration of the loop of `GetBlockchainStats` over `allTx.Transactions`. -/
def statsStep (st : StatsState) (tx : TLCTransactionItem) : StatsState :=
  let amount := SetString tx.Amount
  let totalMinted := if tx.Type_ = "mint" then st.totalMinted + amount else st.totalMinted
  let totalBurned :=
    if tx.Type_ = "mint" then st.totalBurned
    else if tx.Type_ = "burn" then st.totalBurned + amount
    else st.totalBurned
  let u1 :=
    if tx.FromAddress ≠ zeroAddress then setKey st.uniqueAddresses (ToLower tx.FromAddress)
    else st.uniqueAddresses
  let u2 := if tx.ToAddress ≠ zeroAddress then setKey u1 (ToLower tx.ToAddress) else u1
  { totalMinted := totalMinted, totalBurned := totalBurned, uniqueAddresses := u2 }

/-- `BlockchainExplorerService.GetBlockchainStats`. -/
def GetBlockchainStats (s : BlockchainExplorerService) : Res BlockchainStatsResponse :=
  match GetAllTransactions s none none 1 999999 with
  | .err e => .err ("failed to fetch transactions: " ++ e)
  | .panic e => .panic e
  | .ok allTx =>
    let st := allTx.Transactions.foldl statsStep
      { totalMinted := 0, totalBurned := 0, uniqueAddresses := [] }
    let circulatingSupply := st.totalMinted - st.totalBurned
    match s.BlockNumber with
    | .error e => .err ("failed to get latest block: " ++ e)
    | .ok latestBlock =>
      .ok { TotalMinted := toString st.totalMinted
            TotalBurned := toString st.totalBurned
            CirculatingSupply := toString circulatingSupply
            MaxSupply := "Unlimited"
            TotalTransactions := allTx.TotalCount
            TotalAddresses := st.uniqueAddresses.length
            LatestBlock := latestBlock }

/-- The computed entries of the map the handler `GetBlockchainStats` answers
with (the other entries are constants). -/
structure ExplorerStats where
  total_transactions : Int
  transfers : Int
  topups : Int
  withdrawals : Int
  mints : Int
  burns : Int
  total_minted : String
  total_burned : String
  circulating_supply : String
deriving Repr, DecidableEq

/-- The variables the loop of the handler updates (`mintCount` and `burnCount`
are never changed).  The counters are Go `int`s; the loop runs over at most
999999 items, so they never wrap. -/
structure HandlerStatsState where
  transferCount : Int
  topupCount : Int
  withdrawCount : Int
  totalMinted : Int
  totalBurned : Int
deriving Repr, DecidableEq

/-- One iteration of the loop of the handler `GetBlockchainStats`. -/
def handlerStatsStep (st : HandlerStatsState) (tx : TLCTransactionItem) :
    HandlerStatsState :=
  if tx.Type_ = "transfer" then { st with transferCount := st.transferCount + 1 }
  else if tx.Type_ = "topup" then
    { st with topupCount := st.topupCount + 1
              totalMinted := st.totalMinted + SetString tx.Amount }
  else if tx.Type_ = "withdraw" then
    { st with withdrawCount := st.withdrawCount + 1
              totalBurned := st.totalBurned + SetString tx.Amount }
  else st

/-- `BlockchainExplorerHandler.GetBlockchainStats`. -/
def BlockchainExplorerHandler.GetBlockchainStats (s : BlockchainExplorerService) :
    HandlerResponse ExplorerStats :=
  match GetAllTransactions s none none 1 999999 with
  | .err _ => .InternalServerError "Failed to get blockchain stats"
  | .panic e => .Panic e
  | .ok allTx =>
    let st := allTx.Transactions.foldl handlerStatsStep
      { transferCount := 0, topupCount := 0, withdrawCount := 0, totalMinted := 0,
        totalBurned := 0 }
    let circulatingSupply := st.totalMinted - st.totalBurned
    .Success "Blockchain statistics retrieved"
      { total_transactions := allTx.TotalCount
        transfers := st.transferCount
        topups := st.topupCount
        withdrawals := st.withdrawCount
        mints := 0
        burns := 0
        total_minted := toString st.totalMinted
        total_burned := toString st.totalBurned
        circulating_supply := toString circulatingSupply }

/-- The sum of `Amount` over the records of type `ty`. -/
def amountsOfType (ty : String) (txs : List TLCTransactionItem) : Int :=
  ((txs.filter (fun tx => tx.Type_ = ty)).map (fun tx => SetString tx.Amount)).sum

/-- The distinct addresses other than the zero address that occur as
`FromAddress` or `ToAddress`, in lower case. -/
def distinctAddresses (txs : List TLCTransactionItem) : List String :=
  (((txs.flatMap (fun tx => [tx.FromAddress, tx.ToAddress])).filter
    (fun a => a ≠ zeroAddress)).map ToLower).dedup

/-! ## String conversions of `BlockchainService` -/

/-- The bytes of a Go string.  Go's `len` and slice expression count bytes, so
the two converters are written over the bytes of their argument. -/
def goBytes (s : String) : List UInt8 := s.data.flatMap String.utf8EncodeChar

/-- `BlockchainService.ConvertToWei` (its `error` is always nil). -/
def ConvertToWei (amount : List UInt8) : List UInt8 := amount ++ goBytes "000000000000000000"

/-- `BlockchainService.ConvertFromWei` (its `error` is always nil). -/
def ConvertFromWei (amountWei : List UInt8) : List UInt8 :=
  if amountWei.length ≤ 18 then goBytes "0"
  else amountWei.take (amountWei.length - 18)

/-- A canonical decimal string of a natural number: digits only, not empty, no
leading zero except for the string "0". -/
def isCanonicalDecimal (s : String) : Bool :=
  !s.data.isEmpty && s.data.all Char.isDigit && (s.data.head? != some '0' || s.data.length == 1)

/-! ## Further example logs -/

/-- A `TokensMinted` log of the transaction `0xa1` of `demoTopup`. -/
def demoMinted : Log :=
  { Address := "0xc0", Topics := ["0x01", "0xaa"], Data := [3], BlockNumber := 5,
    TxHash := "0xa1" }

/-- The record `demoService` decodes from `demoMinted`. -/
def demoMintedItem : TLCTransactionItem :=
  { TxHash := "0xa1", BlockNumber := 5, FromAddress := zeroAddress, ToAddress := "0xaa",
    Amount := "0", AmountWei := "3", Type_ := "topup", Status := "confirmed", GasUsed := 0,
    GasPrice := "0",
    Memo := "Tokens minted - Request ID: " ++ requestIdHex, Timestamp := 5,
    Direction := "" }

/-- A `Transfer` log of transaction `0xd4` that carries its signature only. -/
def shortTransfer : Log :=
  { Address := "0xc0", Topics := ["0x06"], Data := [9], BlockNumber := 9, TxHash := "0xd4" }

/-- A `Transfer` log of transaction `0xe5` with value zero. -/
def zeroTransfer : Log :=
  { Address := "0xc0", Topics := ["0x06", "0xaa", "0xbb"], Data := [0], BlockNumber := 8,
    TxHash := "0xe5" }

/-- Log number `i` of a chain on which every transaction mints one whole token
(10^18 units) to `0xbb` with a plain `Transfer` from the zero address. -/
def mintLog (i : Nat) : Log :=
  { Address := "0xc0", Topics := ["0x06", zeroAddress, "0xbb"],
    Data := [13, 224, 182, 179, 167, 100, 0, 0], BlockNumber := i,
    TxHash := "0x" ++ toString i }

/-- The record `demoService` decodes from `mintLog i`. -/
def mintItem (i : Nat) : TLCTransactionItem :=
  { TxHash := "0x" ++ toString i, BlockNumber := i, FromAddress := zeroAddress,
    ToAddress := "0xbb", Amount := "1", AmountWei := "1000000000000000000", Type_ := "mint",
    Status := "confirmed", GasUsed := 0, GasPrice := "0", Memo := "Standard transfer",
    Timestamp := toInt64 (toInt64 i).toNat, Direction := "" }

/-- A chain of `n` such transactions. -/
def mintLogs (n : Nat) : List Log := (List.range n).map mintLog

/-- A node on which no receipt is ever found. -/
def silentContractService : ContractService :=
  { demoContractService with TransactionReceipt := fun _ _ => .error "not found" }

/-- A complete `Transfer` log of the transaction `0xd4` of `shortTransfer`. -/
def fullTransfer : Log :=
  { Address := "0xc0", Topics := ["0x06", "0xaa", "0xbb"], Data := [9], BlockNumber := 9,
    TxHash := "0xd4" }

/-- The record `demoService` decodes from `fullTransfer`. -/
def fullTransferItem : TLCTransactionItem :=
  { TxHash := "0xd4", BlockNumber := 9, FromAddress := "0xaa", ToAddress := "0xbb",
    Amount := "0", AmountWei := "9", Type_ := "transfer", Status := "confirmed", GasUsed := 0,
    GasPrice := "0", Memo := "Standard transfer", Timestamp := 9, Direction := "" }

end TeluCoin

namespace TeluCoin

/-! ## Grouping: the map `txLogs` -/

theorem appendLog_keys (m : List (String × List Log)) (k : String) (v : Log) :
    (appendLog m k v).map Prod.fst =
      if k ∈ m.map Prod.fst then m.map Prod.fst else m.map Prod.fst ++ [k] := by
  induction m with
  | nil => simp [appendLog]
  | cons e rest ih =>
    obtain ⟨k1, ls⟩ := e
    by_cases h : k1 = k
    · subst h; simp [appendLog]
    · have h2 : ¬ k = k1 := fun h3 => h h3.symm
      simp only [appendLog, h, if_false, List.map_cons, ih, List.mem_cons, h2, false_or]
      split <;> simp

theorem appendLog_nodup (m : List (String × List Log)) (k : String) (v : Log)
    (h : (m.map Prod.fst).Nodup) : ((appendLog m k v).map Prod.fst).Nodup := by
  rw [appendLog_keys]
  split
  · exact h
  · rename_i hk
    rw [List.nodup_append]
    refine ⟨h, List.nodup_singleton k, ?_⟩
    intro a ha hb
    simp at hb
    subst hb
    exact hk ha

/-- Each entry of the updated map is an old entry of another key, the old entry
of the key with the log appended, or a fresh singleton entry. -/
theorem mem_appendLog (m : List (String × List Log)) (k : String) (v : Log)
    (hnd : (m.map Prod.fst).Nodup) (e : String × List Log) (he : e ∈ appendLog m k v) :
    (e.1 ≠ k ∧ e ∈ m) ∨
    (e.1 = k ∧ ∃ ls, (k, ls) ∈ m ∧ e.2 = ls ++ [v]) ∨
    (e.1 = k ∧ k ∉ m.map Prod.fst ∧ e.2 = [v]) := by
  induction m with
  | nil =>
    simp [appendLog] at he
    subst he
    simp
  | cons e1 rest ih =>
    obtain ⟨k1, ls1⟩ := e1
    simp only [List.map_cons, List.nodup_cons] at hnd
    by_cases h : k1 = k
    · subst h
      simp only [appendLog, if_true, List.mem_cons] at he
      rcases he with he | he
      · subst he
        right; left
        exact ⟨rfl, ls1, by simp, rfl⟩
      · left
        refine ⟨?_, by simp [he]⟩
        intro h2
        exact hnd.1 (h2 ▸ List.mem_map_of_mem Prod.fst he)
    · simp only [appendLog, h, if_false, List.mem_cons] at he
      rcases he with he | he
      · subst he
        left
        exact ⟨h, by simp⟩
      · rcases ih hnd.2 he with ⟨h1, h2⟩ | ⟨h1, ls, h2, h3⟩ | ⟨h1, h2, h3⟩
        · left; exact ⟨h1, by simp [h2]⟩
        · right; left; exact ⟨h1, ls, by simp [h2], h3⟩
        · right; right
          refine ⟨h1, ?_, h3⟩
          simp only [List.map_cons, List.mem_cons, not_or]
          exact ⟨fun h4 => h h4.symm, h2⟩

/-- The grouping loop keeps: one entry per key, each entry holding exactly the
logs seen so far with that hash (in log order), and every seen hash is a key. -/
theorem foldl_appendLog_inv (logs pre : List Log) (m : List (String × List Log))
    (hnd : (m.map Prod.fst).Nodup)
    (hgrp : ∀ e ∈ m, e.2 = pre.filter (fun l => l.TxHash = e.1) ∧ e.2 ≠ [])
    (hall : ∀ l ∈ pre, l.TxHash ∈ m.map Prod.fst) :
    let r := logs.foldl (fun txLogs vLog => appendLog txLogs vLog.TxHash vLog) m
    (r.map Prod.fst).Nodup ∧
    (∀ e ∈ r, e.2 = (pre ++ logs).filter (fun l => l.TxHash = e.1) ∧ e.2 ≠ []) ∧
    (∀ l ∈ pre ++ logs, l.TxHash ∈ r.map Prod.fst) := by
  induction logs generalizing pre m with
  | nil =>
    refine ⟨hnd, ?_, ?_⟩
    · simpa using hgrp
    · simpa using hall
  | cons v rest ih =>
    have key := ih (pre ++ [v]) (appendLog m v.TxHash v) (appendLog_nodup m _ v hnd) ?_ ?_
    · simpa using key
    · intro e he
      rcases mem_appendLog m _ v hnd e he with ⟨h1, h2⟩ | ⟨h1, ls, h2, h3⟩ | ⟨h1, h2, h3⟩
      · have := hgrp e h2
        simp [List.filter_append, List.filter_cons, Ne.symm h1, this.1.symm, this.2]
      · have := hgrp _ h2
        simp only at this
        simp [List.filter_append, List.filter_cons, h1, h3, this.1.symm]
      · have hpre : pre.filter (fun l => l.TxHash = v.TxHash) = [] := by
          rw [List.filter_eq_nil_iff]
          intro l hl
          simp only [decide_eq_true_eq]
          intro h4
          exact h2 (h4 ▸ hall l hl)
        simp [List.filter_append, List.filter_cons, h1, h3, hpre]
    · intro l hl
      rw [appendLog_keys]
      simp only [List.mem_append, List.mem_singleton] at hl
      rcases hl with hl | hl
      · have := hall l hl
        split <;> simp [this]
      · subst hl
        split
        · assumption
        · simp

theorem groupLogs_nodup (logs : List Log) : ((groupLogs logs).map Prod.fst).Nodup :=
  (foldl_appendLog_inv logs [] [] (by simp) (by simp) (by simp)).1

theorem groupLogs_entry (logs : List Log) (e : String × List Log) (he : e ∈ groupLogs logs) :
    e.2 = logs.filter (fun l => l.TxHash = e.1) ∧ e.2 ≠ [] := by
  simpa using (foldl_appendLog_inv logs [] [] (by simp) (by simp) (by simp)).2.1 e he

theorem groupLogs_key (logs : List Log) (l : Log) (hl : l ∈ logs) :
    l.TxHash ∈ (groupLogs logs).map Prod.fst := by
  simpa using (foldl_appendLog_inv logs [] [] (by simp) (by simp) (by simp)).2.2 l
    (by simpa using hl)

/-! ## Selection and decoding -/

theorem findCustomEvent_some (abi : ContractABI) (ls : List Log) (l : Log)
    (h : findCustomEvent abi ls = .ok (some l)) :
    l ∈ ls ∧ ∃ eventSig, l.Topics.head? = some eventSig ∧ isCustomEvent abi eventSig = true := by
  induction ls with
  | nil => simp [findCustomEvent] at h
  | cons v rest ih =>
    unfold findCustomEvent at h
    split at h
    · simp at h
    · rename_i eventSig tl htop
      split at h
      · rename_i hc
        simp only [Res.ok.injEq, Option.some.injEq] at h
        subst h
        exact ⟨by simp, eventSig, by simp [htop], hc⟩
      · obtain ⟨h1, h2⟩ := ih h
        exact ⟨by simp [h1], h2⟩

theorem findTransferEvent_some (abi : ContractABI) (ls : List Log) (l : Log)
    (h : findTransferEvent abi ls = .ok (some l)) :
    l ∈ ls ∧ l.Topics.head? = some abi.Transfer := by
  induction ls with
  | nil => simp [findTransferEvent] at h
  | cons v rest ih =>
    unfold findTransferEvent at h
    split at h
    · simp at h
    · rename_i eventSig tl htop
      split at h
      · rename_i hc
        simp only [Res.ok.injEq, Option.some.injEq] at h
        subst h
        exact ⟨by simp, by simp [htop, hc]⟩
      · obtain ⟨h1, h2⟩ := ih h
        exact ⟨by simp [h1], h2⟩

/-- When the first loop finds nothing, every log of the group has a first
topic and none is a custom event. -/
theorem findCustomEvent_none (abi : ContractABI) (ls : List Log)
    (h : findCustomEvent abi ls = .ok none) :
    ∀ l ∈ ls, ∃ eventSig, l.Topics.head? = some eventSig ∧ isCustomEvent abi eventSig = false := by
  induction ls with
  | nil => simp
  | cons v rest ih =>
    unfold findCustomEvent at h
    split at h
    · simp at h
    · rename_i eventSig tl htop
      split at h
      · simp at h
      · rename_i hc
        intro l hl
        simp only [List.mem_cons] at hl
        rcases hl with hl | hl
        · subst hl
          exact ⟨eventSig, by simp [htop], by simpa using hc⟩
        · exact ih h l hl

theorem findCustomEvent_ne_err (abi : ContractABI) (ls : List Log) (e : String) :
    findCustomEvent abi ls ≠ .err e := by
  induction ls with
  | nil => simp [findCustomEvent]
  | cons v rest ih =>
    unfold findCustomEvent
    split
    · simp
    · split
      · simp
      · exact ih

theorem findTransferEvent_ne_err (abi : ContractABI) (ls : List Log) (e : String) :
    findTransferEvent abi ls ≠ .err e := by
  induction ls with
  | nil => simp [findTransferEvent]
  | cons v rest ih =>
    unfold findTransferEvent
    split
    · simp
    · split
      · simp
      · exact ih

theorem findCustomEvent_ne_panic (abi : ContractABI) (ls : List Log)
    (h : ∀ l ∈ ls, l.Topics ≠ []) (e : String) : findCustomEvent abi ls ≠ .panic e := by
  induction ls with
  | nil => simp [findCustomEvent]
  | cons v rest ih =>
    unfold findCustomEvent
    split
    · rename_i htop
      exact absurd htop (h v (by simp))
    · split
      · simp
      · exact ih (fun l hl => h l (by simp [hl]))

theorem findTransferEvent_ne_panic (abi : ContractABI) (ls : List Log)
    (h : ∀ l ∈ ls, l.Topics ≠ []) (e : String) : findTransferEvent abi ls ≠ .panic e := by
  induction ls with
  | nil => simp [findTransferEvent]
  | cons v rest ih =>
    unfold findTransferEvent
    split
    · rename_i htop
      exact absurd htop (h v (by simp))
    · split
      · simp
      · exact ih (fun l hl => h l (by simp [hl]))

theorem selectLog_ne_err (abi : ContractABI) (ls : List Log) (e : String) :
    selectLog abi ls ≠ .err e := by
  unfold selectLog
  split
  · simp
  · exact findTransferEvent_ne_err abi ls e
  · rename_i e1 h
    exact absurd h (findCustomEvent_ne_err abi ls e1)
  · simp

theorem selectLog_ne_panic (abi : ContractABI) (ls : List Log)
    (h : ∀ l ∈ ls, l.Topics ≠ []) (e : String) : selectLog abi ls ≠ .panic e := by
  unfold selectLog
  split
  · simp
  · exact findTransferEvent_ne_panic abi ls h e
  · simp
  · rename_i e1 h1
    exact absurd h1 (findCustomEvent_ne_panic abi ls h e1)

/-- The selected log is a log of the group and has a first topic. -/
theorem selectLog_some (abi : ContractABI) (ls : List Log) (l : Log)
    (h : selectLog abi ls = .ok (some l)) : l ∈ ls ∧ l.Topics ≠ [] := by
  unfold selectLog at h
  split at h
  · rename_i v hv
    simp only [Res.ok.injEq, Option.some.injEq] at h
    subst h
    obtain ⟨h1, sig, h2, _⟩ := findCustomEvent_some abi ls v hv
    refine ⟨h1, ?_⟩
    intro h3
    simp [h3] at h2
  · obtain ⟨h1, h2⟩ := findTransferEvent_some abi ls l h
    refine ⟨h1, ?_⟩
    intro h3
    simp [h3] at h2
  · simp at h
  · simp at h

/-- Every decoder copies the hash and block number of the log it decodes. -/
theorem parseLogToTransaction_ok (s : BlockchainExplorerService) (l : Log)
    (tx : TLCTransactionItem) (h : parseLogToTransaction s l = .ok tx) :
    tx.TxHash = l.TxHash ∧ tx.BlockNumber = l.BlockNumber := by
  unfold parseLogToTransaction at h
  split at h
  · simp at h
  · split at h
    · simp at h
    · simp only [parseTokensMinted, parseTokensBurned, parsePaymentProcessed,
        parseTopupRequested, parseWithdrawRequested, parseTransfer] at h
      repeat' split at h
      all_goals first
        | (simp at h; done)
        | (simp only [Res.ok.injEq] at h; subst h; exact ⟨rfl, rfl⟩)

theorem parseLogToTransaction_ne_panic (s : BlockchainExplorerService) (l : Log)
    (hl : l.Topics ≠ []) (e : String) : parseLogToTransaction s l ≠ .panic e := by
  unfold parseLogToTransaction
  split
  · simp
  · split
    · rename_i htop
      exact absurd htop hl
    · simp only [parseTokensMinted, parseTokensBurned, parsePaymentProcessed,
        parseTopupRequested, parseWithdrawRequested, parseTransfer]
      repeat' split
      all_goals simp

/-! ## The processing loop -/

/-- What one iteration can do: leave the state alone, or append the record
decoded from the selected log of a group not processed before. -/
theorem processTx_ok (s : BlockchainExplorerService) (st st1 : LoopState)
    (entry : String × List Log) (h : processTx s st entry = .ok st1) :
    st1 = st ∨
    (entry.1 ∉ st.processedTx ∧ ∃ l tx, selectLog s.contractABI entry.2 = .ok (some l) ∧
      parseLogToTransaction s l = .ok tx ∧
      st1 = { allTransactions := st.allTransactions ++ [tx]
              processedTx := entry.1 :: st.processedTx }) := by
  unfold processTx at h
  split at h
  · left; simpa using h.symm
  · rename_i hmem
    split at h
    · simp at h
    · simp at h
    · left; simpa using h.symm
    · rename_i l hsel
      split at h
      · rename_i tx hparse
        right
        exact ⟨hmem, l, tx, hsel, hparse, by simpa using h.symm⟩
      · left; simpa using h.symm
      · simp at h

/-- Invariant rule for the processing loop. -/
theorem processAll_inv (s : BlockchainExplorerService) (P : LoopState → Prop)
    (es : List (String × List Log))
    (hstep : ∀ st st1 e, e ∈ es → P st → processTx s st e = .ok st1 → P st1)
    (st st1 : LoopState) (h0 : P st) (h : processAll s st es = .ok st1) : P st1 := by
  induction es generalizing st with
  | nil =>
    simp only [processAll, Res.ok.injEq] at h
    exact h ▸ h0
  | cons e rest ih =>
    unfold processAll at h
    split at h
    · rename_i st2 h2
      exact ih (fun a b c hc => hstep a b c (by simp [hc])) st2
        (hstep st st2 e (by simp) h0 h2) h
    · simp at h
    · simp at h

theorem processTx_ne_err (s : BlockchainExplorerService) (st : LoopState)
    (entry : String × List Log) (e : String) : processTx s st entry ≠ .err e := by
  unfold processTx
  split
  · simp
  · split
    · rename_i e1 h
      exact absurd h (selectLog_ne_err _ _ e1)
    · simp
    · simp
    · split <;> simp

theorem processTx_ne_panic (s : BlockchainExplorerService) (st : LoopState)
    (entry : String × List Log) (h : ∀ l ∈ entry.2, l.Topics ≠ []) (e : String) :
    processTx s st entry ≠ .panic e := by
  unfold processTx
  split
  · simp
  · split
    · simp
    · rename_i e1 h1
      exact absurd h1 (selectLog_ne_panic _ _ h e1)
    · simp
    · rename_i l hsel
      split
      · simp
      · simp
      · rename_i e1 h1
        exact absurd h1 (parseLogToTransaction_ne_panic s l (selectLog_some _ _ l hsel).2 e1)

theorem processAll_ne_err (s : BlockchainExplorerService) (st : LoopState)
    (es : List (String × List Log)) (e : String) : processAll s st es ≠ .err e := by
  induction es generalizing st with
  | nil => simp [processAll]
  | cons e1 rest ih =>
    unfold processAll
    split
    · exact ih _
    · rename_i e2 h2
      exact absurd h2 (processTx_ne_err s st e1 e2)
    · simp

theorem processAll_ne_panic (s : BlockchainExplorerService) (st : LoopState)
    (es : List (String × List Log)) (h : ∀ en ∈ es, ∀ l ∈ en.2, l.Topics ≠ []) (e : String) :
    processAll s st es ≠ .panic e := by
  induction es generalizing st with
  | nil => simp [processAll]
  | cons e1 rest ih =>
    unfold processAll
    split
    · exact ih _ (fun en hen => h en (by simp [hen]))
    · simp
    · rename_i e2 h2
      exact absurd h2 (processTx_ne_panic s st e1 (h e1 (by simp)) e2)

/-- The entries the loop visits are entries of the map: their logs are logs of
the query result and carry the entry's key as transaction hash. -/
theorem mapRange_entry (s : BlockchainExplorerService)
    (hperm : ∀ m, (s.mapRange m).Perm m) (logs : List Log)
    (e : String × List Log) (he : e ∈ s.mapRange (groupLogs logs)) :
    e.2 = logs.filter (fun l => l.TxHash = e.1) ∧ e.2 ≠ [] :=
  groupLogs_entry logs e ((hperm _).mem_iff.1 he)

theorem mapRange_entry_mem (s : BlockchainExplorerService)
    (hperm : ∀ m, (s.mapRange m).Perm m) (logs : List Log)
    (e : String × List Log) (he : e ∈ s.mapRange (groupLogs logs)) (l : Log) (hl : l ∈ e.2) :
    l ∈ logs ∧ l.TxHash = e.1 := by
  rw [(mapRange_entry s hperm logs e he).1] at hl
  simpa using hl

theorem materialize_ok_iff (s : BlockchainExplorerService) (logs : List Log)
    (all : List TLCTransactionItem) :
    materialize s logs = .ok all ↔
      ∃ st, processAll s { allTransactions := [], processedTx := [] }
        (s.mapRange (groupLogs logs)) = .ok st ∧ st.allTransactions = all := by
  unfold materialize
  split <;> simp_all

/-- The materialized list exists whenever every log has at least one topic. -/
theorem materialize_total (s : BlockchainExplorerService)
    (hperm : ∀ m, (s.mapRange m).Perm m) (logs : List Log)
    (htop : ∀ l ∈ logs, l.Topics ≠ []) : ∃ all, materialize s logs = .ok all := by
  unfold materialize
  split
  · exact ⟨_, rfl⟩
  · rename_i e h
    exact absurd h (processAll_ne_err _ _ _ e)
  · rename_i e h
    refine absurd h (processAll_ne_panic _ _ _ ?_ e)
    intro en hen l hl
    exact htop l (mapRange_entry_mem s hperm logs en hen l hl).1

/-- Loop invariant behind the de-duplication: the hashes collected so far are
pairwise distinct and all recorded in `processedTx`. -/
theorem materialize_nodup (s : BlockchainExplorerService)
    (hperm : ∀ m, (s.mapRange m).Perm m) (logs : List Log)
    (all : List TLCTransactionItem) (h : materialize s logs = .ok all) :
    (all.map (fun tx => tx.TxHash)).Nodup := by
  obtain ⟨st, hst, rfl⟩ := (materialize_ok_iff s logs all).1 h
  have key := processAll_inv s
    (fun st => (st.allTransactions.map (fun tx => tx.TxHash)).Nodup ∧
      ∀ tx ∈ st.allTransactions, tx.TxHash ∈ st.processedTx)
    (s.mapRange (groupLogs logs)) ?_ _ st (by simp) hst
  · exact key.1
  · intro st0 st1 e he hP hstep
    rcases processTx_ok s st0 st1 e hstep with h1 | ⟨hnew, l, tx, hsel, hparse, h1⟩
    · subst h1; exact hP
    · subst h1
      have hl := (selectLog_some _ _ l hsel).1
      have hk := (mapRange_entry_mem s hperm logs e he l hl).2
      have htx : tx.TxHash = e.1 := (parseLogToTransaction_ok s l tx hparse).1.trans hk
      constructor
      · simp only [List.map_append, List.map_cons, List.map_nil]
        rw [List.nodup_append]
        refine ⟨hP.1, List.nodup_singleton _, ?_⟩
        intro a ha hb
        simp only [List.mem_singleton] at hb
        subst hb
        obtain ⟨tx0, htx0, heq⟩ := List.mem_map.1 ha
        have := hP.2 tx0 htx0
        rw [heq, htx] at this
        exact hnew this
      · intro tx1 htx1
        simp only [List.mem_append, List.mem_singleton] at htx1
        rcases htx1 with h2 | h2
        · exact List.mem_cons_of_mem _ (hP.2 tx1 h2)
        · subst h2
          rw [htx]
          exact List.mem_cons_self _ _

/-- One iteration on a group not processed before appends the decoded record
of the group, if there is one. -/
theorem processTx_fresh (s : BlockchainExplorerService) (st st1 : LoopState)
    (entry : String × List Log) (hnew : entry.1 ∉ st.processedTx)
    (h : processTx s st entry = .ok st1) :
    st1.allTransactions = st.allTransactions ++ (decodedRecord s entry.2).toList ∧
    ∀ k ∈ st1.processedTx, k = entry.1 ∨ k ∈ st.processedTx := by
  unfold processTx at h
  rw [if_neg hnew] at h
  unfold decodedRecord
  split at h
  · exact Res.noConfusion h
  · exact Res.noConfusion h
  · rename_i hsel
    simp only [Res.ok.injEq] at h
    subst h
    exact ⟨by simp [hsel], fun k hk => Or.inr hk⟩
  · rename_i l hsel
    split at h
    · rename_i tx hparse
      simp only [Res.ok.injEq] at h
      subst h
      refine ⟨by simp [hsel, hparse], fun k hk => ?_⟩
      simpa using hk
    · rename_i e hparse
      simp only [Res.ok.injEq] at h
      subst h
      exact ⟨by simp [hsel, hparse], fun k hk => Or.inr hk⟩
    · exact Res.noConfusion h

/-- Over entries with pairwise distinct keys, none processed before, the loop
appends the decoded records of the groups in visiting order. -/
theorem processAll_filterMap (s : BlockchainExplorerService)
    (es : List (String × List Log)) (st st1 : LoopState)
    (hnd : (es.map Prod.fst).Nodup) (hnew : ∀ e ∈ es, e.1 ∉ st.processedTx)
    (h : processAll s st es = .ok st1) :
    st1.allTransactions =
      st.allTransactions ++ es.filterMap (fun e => decodedRecord s e.2) := by
  induction es generalizing st with
  | nil =>
    simp only [processAll, Res.ok.injEq] at h
    subst h
    simp
  | cons e rest ih =>
    simp only [List.map_cons, List.nodup_cons] at hnd
    unfold processAll at h
    split at h
    · rename_i st2 h2
      obtain ⟨h3, h4⟩ := processTx_fresh s st st2 e (hnew e (by simp)) h2
      have h5 := ih st2 hnd.2 (by
        intro e1 he1 hmem
        rcases h4 _ hmem with h6 | h6
        · exact hnd.1 (h6 ▸ List.mem_map_of_mem Prod.fst he1)
        · exact hnew e1 (by simp [he1]) h6) h
      rw [h5, h3]
      cases hd : decodedRecord s e.2 <;> simp [List.filterMap_cons, hd]
    · exact Res.noConfusion h
    · exact Res.noConfusion h

/-- The materialized list is the list of records decoded from the selected
logs of the groups, in the order the groups are visited. -/
theorem materialize_eq_filterMap (s : BlockchainExplorerService)
    (hperm : ∀ m, (s.mapRange m).Perm m) (logs : List Log)
    (all : List TLCTransactionItem) (h : materialize s logs = .ok all) :
    all = (s.mapRange (groupLogs logs)).filterMap (fun e => decodedRecord s e.2) := by
  obtain ⟨st, hst, rfl⟩ := (materialize_ok_iff s logs all).1 h
  have hnd : ((s.mapRange (groupLogs logs)).map Prod.fst).Nodup :=
    (((hperm (groupLogs logs)).map Prod.fst).nodup_iff).2 (groupLogs_nodup logs)
  simpa using processAll_filterMap s _ _ st hnd (by simp) hst

/-- Every materialized item is the record decoded from the selected log of one
of the groups. -/
theorem materialize_mem (s : BlockchainExplorerService) (logs : List Log)
    (all : List TLCTransactionItem) (h : materialize s logs = .ok all)
    (tx : TLCTransactionItem) (htx : tx ∈ all) :
    ∃ e ∈ s.mapRange (groupLogs logs), ∃ l,
      selectLog s.contractABI e.2 = .ok (some l) ∧ parseLogToTransaction s l = .ok tx := by
  obtain ⟨st, hst, rfl⟩ := (materialize_ok_iff s logs all).1 h
  refine processAll_inv s
    (fun st => ∀ tx ∈ st.allTransactions, ∃ e ∈ s.mapRange (groupLogs logs), ∃ l,
      selectLog s.contractABI e.2 = .ok (some l) ∧ parseLogToTransaction s l = .ok tx)
    (s.mapRange (groupLogs logs)) ?_ _ st (by simp) hst tx htx
  intro st0 st1 e he hP hstep
  rcases processTx_ok s st0 st1 e hstep with h1 | ⟨_, l, tx1, hsel, hparse, h1⟩
  · subst h1; exact hP
  · subst h1
    intro tx2 h2
    simp only [List.mem_append, List.mem_singleton] at h2
    rcases h2 with h2 | h2
    · exact hP tx2 h2
    · subst h2
      exact ⟨e, he, l, hsel, hparse⟩

/-- A log whose first topic is a custom event is decoded by one of the five
custom decoders, so its record is a top-up, a withdrawal or a transfer. -/
theorem parseLogToTransaction_custom (s : BlockchainExplorerService) (l : Log)
    (eventSig : String) (htop : l.Topics.head? = some eventSig)
    (hc : isCustomEvent s.contractABI eventSig = true)
    (tx : TLCTransactionItem) (h : parseLogToTransaction s l = .ok tx) :
    tx.Type_ = "topup" ∨ tx.Type_ = "withdraw" ∨ tx.Type_ = "transfer" := by
  unfold parseLogToTransaction at h
  split at h
  · simp at h
  · split at h
    · simp at h
    · rename_i sig tl htl
      have hsig : sig = eventSig := by simpa [htl] using htop
      subst hsig
      simp only [isCustomEvent, Bool.or_eq_true, beq_iff_eq] at hc
      simp only [parseTokensMinted, parseTokensBurned, parsePaymentProcessed,
        parseTopupRequested, parseWithdrawRequested] at h
      split at h
      · split at h
        · simp at h
        · simp only [Res.ok.injEq] at h; subst h; simp
      · split at h
        · split at h
          · simp at h
          · simp only [Res.ok.injEq] at h; subst h; simp
        · split at h
          · split at h
            · simp at h
            · simp only [Res.ok.injEq] at h; subst h; simp
          · split at h
            · split at h
              · simp at h
              · simp only [Res.ok.injEq] at h; subst h; simp
            · split at h
              · split at h
                · simp at h
                · simp only [Res.ok.injEq] at h; subst h; simp
              · exfalso
                rcases hc with (((hc | hc) | hc) | hc) | hc <;> contradiction

/-- If a group holds a custom event (and selection succeeds), the selected log
is a custom event of the group. -/
theorem selectLog_custom (abi : ContractABI) (ls : List Log) (l : Log)
    (h : selectLog abi ls = .ok (some l))
    (hex : ∃ l0 ∈ ls, ∃ sig0, l0.Topics.head? = some sig0 ∧ isCustomEvent abi sig0 = true) :
    l ∈ ls ∧ ∃ eventSig, l.Topics.head? = some eventSig ∧ isCustomEvent abi eventSig = true := by
  unfold selectLog at h
  split at h
  · rename_i v hv
    simp only [Res.ok.injEq, Option.some.injEq] at h
    subst h
    exact findCustomEvent_some abi ls v hv
  · rename_i hnone
    obtain ⟨l0, hl0, sig0, h1, h2⟩ := hex
    obtain ⟨sig1, h3, h4⟩ := findCustomEvent_none abi ls hnone l0 hl0
    rw [h1] at h3
    simp only [Option.some.injEq] at h3
    subst h3
    rw [h2] at h4
    simp at h4
  · simp at h
  · simp at h

/-- The record of a hash whose logs hold a custom event is decoded from a
custom event log of that hash. -/
theorem materialize_custom (s : BlockchainExplorerService)
    (hperm : ∀ m, (s.mapRange m).Perm m) (logs : List Log)
    (all : List TLCTransactionItem) (h : materialize s logs = .ok all)
    (tx : TLCTransactionItem) (htx : tx ∈ all)
    (hex : ∃ l0 ∈ logs, l0.TxHash = tx.TxHash ∧
      ∃ sig0, l0.Topics.head? = some sig0 ∧ isCustomEvent s.contractABI sig0 = true) :
    ∃ l ∈ logs, l.TxHash = tx.TxHash ∧ parseLogToTransaction s l = .ok tx ∧
      (∃ eventSig, l.Topics.head? = some eventSig ∧
        isCustomEvent s.contractABI eventSig = true) ∧
      (isCustomEvent s.contractABI s.contractABI.Transfer = false →
        l.Topics.head? ≠ some s.contractABI.Transfer) ∧
      (tx.Type_ = "topup" ∨ tx.Type_ = "withdraw" ∨ tx.Type_ = "transfer") := by
  obtain ⟨e, he, l, hsel, hparse⟩ := materialize_mem s logs all h tx htx
  have hl := (selectLog_some _ _ l hsel).1
  obtain ⟨hlogs, hk⟩ := mapRange_entry_mem s hperm logs e he l hl
  have htxh := (parseLogToTransaction_ok s l tx hparse).1
  obtain ⟨l0, hl0, hh0, sig0, hs0, hc0⟩ := hex
  have hl0e : l0 ∈ e.2 := by
    rw [(mapRange_entry s hperm logs e he).1]
    simp only [List.mem_filter, decide_eq_true_eq]
    exact ⟨hl0, by rw [hh0, htxh, hk]⟩
  obtain ⟨_, eventSig, hsig, hc⟩ := selectLog_custom _ _ l hsel ⟨l0, hl0e, sig0, hs0, hc0⟩
  refine ⟨l, hlogs, htxh.symm, hparse, ⟨eventSig, hsig, hc⟩, ?_,
    parseLogToTransaction_custom s l eventSig hsig hc tx hparse⟩
  intro hT hEq
  rw [hsig] at hEq
  simp only [Option.some.injEq] at hEq
  rw [hEq, hT] at hc
  simp at hc

/-- The scenario of the specification: a `TopupRequested` log and a `Transfer`
log from the zero address under one hash, in either order. -/
theorem materialize_topup_transfer (s : BlockchainExplorerService)
    (hperm : ∀ m, (s.mapRange m).Perm m) (topup transfer : Log)
    (rest : List String) (t1 t2 : String) (blockTime : Nat) (event : UnpackedEvent)
    (hdist : [s.contractABI.TokensMinted, s.contractABI.TokensBurned,
      s.contractABI.PaymentProcessed, s.contractABI.TopupRequested,
      s.contractABI.WithdrawRequested, s.contractABI.Transfer].Nodup)
    (hhash : transfer.TxHash = topup.TxHash)
    (htopup : topup.Topics = s.contractABI.TopupRequested :: rest)
    (htransfer : transfer.Topics = [s.contractABI.Transfer, t1, t2])
    (hzero : s.HexToAddress t1 = zeroAddress)
    (hblock : s.BlockByNumber (toInt64 topup.BlockNumber) = .ok blockTime)
    (hunpack : s.UnpackIntoInterface "TopupRequested" topup.Data = .ok event) :
    ∃ tx, tx.Type_ = "topup" ∧ tx.TxHash = topup.TxHash ∧
      parseTopupRequested s topup (toInt64 blockTime) = .ok tx ∧
      materialize s [topup, transfer] = .ok [tx] ∧
      materialize s [transfer, topup] = .ok [tx] ∧
      ∀ tx1, parseLogToTransaction s transfer = .ok tx1 → tx1.Type_ = "mint" := by
  simp only [List.nodup_cons, List.mem_cons, List.mem_singleton, not_or, List.not_mem_nil,
    not_false_eq_true, List.nodup_nil, and_true] at hdist
  obtain ⟨⟨m1, m2, m3, m4, m5⟩, ⟨b1, b2, b3, b4⟩, ⟨p1, p2, p3⟩, ⟨r1, r2⟩, w1⟩ := hdist
  have hparse : parseLogToTransaction s topup =
      parseTopupRequested s topup (toInt64 blockTime) := by
    simp [parseLogToTransaction, hblock, htopup, Ne.symm m3, Ne.symm b2, Ne.symm p1]
  have hcT : isCustomEvent s.contractABI s.contractABI.Transfer = false := by
    simp [isCustomEvent, Ne.symm m5, Ne.symm b4, Ne.symm p3, Ne.symm r2, Ne.symm w1]
  have hcU : isCustomEvent s.contractABI s.contractABI.TopupRequested = true := by
    simp [isCustomEvent]
  have hrec : ∃ tx, parseTopupRequested s topup (toInt64 blockTime) = .ok tx ∧
      tx.Type_ = "topup" ∧ tx.TxHash = topup.TxHash := by
    simp [parseTopupRequested, hunpack]
  obtain ⟨tx, htx, hty, hh⟩ := hrec
  have hsing : ∀ e : String × List Log, s.mapRange [e] = [e] := fun e =>
    List.perm_singleton.1 (hperm [e])
  refine ⟨tx, hty, hh, htx, ?_, ?_, ?_⟩
  · simp [materialize, groupLogs, appendLog, hhash, hsing, processAll, processTx, selectLog,
      findCustomEvent, htopup, hcU, hparse, htx]
  · simp [materialize, groupLogs, appendLog, hhash, hsing, processAll, processTx, selectLog,
      findCustomEvent, htopup, htransfer, hcT, hcU, hparse, htx]
  · intro tx1 h1
    unfold parseLogToTransaction at h1
    split at h1
    · simp at h1
    · simp only [htransfer, Ne.symm m5, Ne.symm b4, Ne.symm p3, Ne.symm r2, Ne.symm w1,
        if_false, if_true] at h1
      simp only [parseTransfer, topicAddress, htransfer, List.length_cons, List.length_nil,
        List.get?_cons_succ, List.get?_cons_zero, hzero] at h1
      rw [if_neg (by decide)] at h1
      split at h1
      · simp at h1
      · simp only [Res.ok.injEq] at h1
        subst h1
        simp

/-! ## Decimal strings -/

theorem digitChar_isDigit (m : Nat) (h : m < 10) :
    (Nat.digitChar m).isDigit = true ∧ (Nat.digitChar m).toNat - 48 = m := by
  interval_cases m <;> decide

/-- Scanning the digits that `Nat.toDigitsCore` puts in front of `ds` leaves
the scan of `ds` with accumulator `n`. -/
theorem scanDigits_toDigitsCore (fuel n : Nat) (ds : List Char) (h : n < fuel) :
    scanDigits (Nat.toDigitsCore 10 fuel n ds) 0 = scanDigits ds n := by
  induction fuel generalizing n ds with
  | zero => omega
  | succ fuel ih =>
    obtain ⟨hd1, hd2⟩ := digitChar_isDigit (n % 10) (Nat.mod_lt _ (by decide))
    unfold Nat.toDigitsCore
    simp only
    split
    · rename_i h0
      have : n % 10 = n := by omega
      rw [this] at hd1 hd2
      simp only [scanDigits, this, hd1, if_true, hd2, Nat.zero_mul, Nat.zero_add]
    · rename_i h0
      rw [ih (n / 10) _ (by omega)]
      simp only [scanDigits, hd1, if_true, hd2]
      congr 1
      omega

theorem scanDigits_repr (n : Nat) : scanDigits (Nat.repr n).data 0 = n := by
  simp only [Nat.repr, Nat.toDigits, List.asString]
  rw [scanDigits_toDigitsCore _ _ _ (Nat.lt_succ_self n)]
  rfl

theorem SetString_natRepr (n : Nat) : SetString (Nat.repr n) = (n : Int) := by
  have h := scanDigits_repr n
  unfold SetString
  split
  · rename_i h0
    rw [h0] at h
    simp only [scanDigits] at h
    simp [← h]
  · rename_i c cs h0
    rw [h0] at h
    by_cases hc : c.isDigit = true
    · have h1 : c ≠ '-' := by
        intro h2; subst h2; exact absurd hc (by decide)
      have h2 : c ≠ '+' := by
        intro h2; subst h2; exact absurd hc (by decide)
      simp only [h1, h2, if_false, h]
    · simp only [scanDigits, hc] at h
      simp only [Bool.false_eq_true, if_false] at h
      subst h
      have : Nat.repr 0 = "0" := by decide
      rw [this] at h0
      simp at h0
      obtain ⟨h1, _⟩ := h0
      subst h1
      exact absurd (by decide) hc

/-- Writing a `big.Int` with `String()` and reading it back with `SetString`
gives the same number. -/
theorem SetString_toString (i : Int) : SetString (toString i) = i := by
  cases i with
  | ofNat n => exact SetString_natRepr n
  | negSucc n =>
    have h : (toString (Int.negSucc n)).data = '-' :: (Nat.repr (n + 1)).data := by
      show ("-" ++ Nat.repr (n + 1)).data = _
      simp [String.data_append]
    unfold SetString
    rw [h]
    simp only [if_true, scanDigits_repr]
    rfl

/-! ## Ledger operations -/

theorem SubtractBalance_insufficient (row : Balance) (amount : String) (o : StoreOutcome)
    (hread : o.readErr = none) (h : SetString row.Balance < SetString amount) :
    SubtractBalance row amount o = (some "insufficient balance", row) := by
  simp [SubtractBalance, hread, h]

theorem SubtractBalance_stored (row : Balance) (amount : String) (o : StoreOutcome)
    (hread : o.readErr = none) (hwrite : o.writeErr = none)
    (h : ¬ SetString row.Balance < SetString amount) :
    SubtractBalance row amount o =
      (none, { row with Balance := toString (SetString row.Balance - SetString amount) }) := by
  simp [SubtractBalance, SetBalance, hread, hwrite, h]

theorem LockBalance_insufficient (row : Balance) (amount : String) (o : StoreOutcome)
    (hread : o.readErr = none)
    (h : SetString row.Balance - SetString row.LockedBalance < SetString amount) :
    LockBalance row amount o = (some "insufficient available balance", row) := by
  simp [LockBalance, hread, h]

theorem LockBalance_stored (row : Balance) (amount : String) (o : StoreOutcome)
    (hread : o.readErr = none) (hwrite : o.writeErr = none)
    (h : ¬ SetString row.Balance - SetString row.LockedBalance < SetString amount) :
    LockBalance row amount o =
      (none, { row with
        LockedBalance := toString (SetString row.LockedBalance + SetString amount) }) := by
  simp [LockBalance, updateLockedBalance, hread, hwrite, h]

theorem UnlockBalance_stored (row : Balance) (amount : String) (o : StoreOutcome)
    (hread : o.readErr = none) (hwrite : o.writeErr = none) :
    UnlockBalance row amount o =
      (none, { row with
        LockedBalance := toString (max (SetString row.LockedBalance - SetString amount) 0) }) := by
  have h : (if SetString row.LockedBalance - SetString amount < 0 then (0 : Int)
      else SetString row.LockedBalance - SetString amount) =
      max (SetString row.LockedBalance - SetString amount) 0 := by
    split <;> omega
  simp only [UnlockBalance, updateLockedBalance, hread, hwrite, h]

/-- An operation the store refuses (read or write) leaves the row as it was. -/
theorem UnlockBalance_failed (row : Balance) (amount : String) (o : StoreOutcome)
    (h : o.readErr ≠ none ∨ o.writeErr ≠ none) :
    (UnlockBalance row amount o).1 ≠ none ∧ (UnlockBalance row amount o).2 = row := by
  unfold UnlockBalance updateLockedBalance
  cases hr : o.readErr with
  | some e => simp
  | none =>
    cases hw : o.writeErr with
    | some e => simp
    | none => simp [hr, hw] at h

/-- Each ledger call either leaves the row alone or stores the number the
method computed. -/
theorem applyOp_cases (row : Balance) (op : LedgerOp) :
    applyOp row op = row ∨
    (∃ a o, op = .lock a o ∧
      ¬ SetString row.Balance - SetString row.LockedBalance < SetString a ∧
      applyOp row op = { row with
        LockedBalance := toString (SetString row.LockedBalance + SetString a) }) ∨
    (∃ a o, op = .unlock a o ∧
      applyOp row op = { row with
        LockedBalance := toString (max (SetString row.LockedBalance - SetString a) 0) }) ∨
    (∃ a o, op = .subtract a o ∧ ¬ SetString row.Balance < SetString a ∧
      applyOp row op = { row with
        Balance := toString (SetString row.Balance - SetString a) }) := by
  cases op with
  | lock a o =>
    cases hr : o.readErr with
    | some e => left; simp [applyOp, LockBalance, hr]
    | none =>
      by_cases h : SetString row.Balance - SetString row.LockedBalance < SetString a
      · left; simp [applyOp, LockBalance_insufficient row a o hr h]
      · cases hw : o.writeErr with
        | some e => left; simp [applyOp, LockBalance, updateLockedBalance, hr, hw, h]
        | none =>
          right; left
          exact ⟨a, o, rfl, h, by simp [applyOp, LockBalance_stored row a o hr hw h]⟩
  | unlock a o =>
    cases hr : o.readErr with
    | some e => left; simp [applyOp, UnlockBalance, hr]
    | none =>
      cases hw : o.writeErr with
      | some e => left; simp [applyOp, UnlockBalance, updateLockedBalance, hr, hw]
      | none =>
        right; right; left
        exact ⟨a, o, rfl, by simp [applyOp, UnlockBalance_stored row a o hr hw]⟩
  | subtract a o =>
    cases hr : o.readErr with
    | some e => left; simp [applyOp, SubtractBalance, hr]
    | none =>
      by_cases h : SetString row.Balance < SetString a
      · left; simp [applyOp, SubtractBalance_insufficient row a o hr h]
      · cases hw : o.writeErr with
        | some e => left; simp [applyOp, SubtractBalance, SetBalance, hr, hw, h]
        | none =>
          right; right; right
          exact ⟨a, o, rfl, h, by simp [applyOp, SubtractBalance_stored row a o hr hw h]⟩

/-- Non-negativity of both columns survives every call with a non-negative amount. -/
theorem applyOp_nonneg (row : Balance) (op : LedgerOp) (ha : 0 ≤ SetString op.amount)
    (h : 0 ≤ SetString row.LockedBalance ∧ 0 ≤ SetString row.Balance) :
    0 ≤ SetString (applyOp row op).LockedBalance ∧ 0 ≤ SetString (applyOp row op).Balance := by
  rcases applyOp_cases row op with h1 | ⟨a, o, rfl, h2, h1⟩ | ⟨a, o, rfl, h1⟩ | ⟨a, o, rfl, h2, h1⟩
  · rw [h1]; exact h
  · rw [h1]
    simp only [LedgerOp.amount] at ha
    simp only [SetString_toString]
    omega
  · rw [h1]
    simp only [SetString_toString]
    exact ⟨le_max_right _ _, h.2⟩
  · rw [h1]
    simp only [SetString_toString]
    omega

/-- The full invariant survives every lock and unlock with a non-negative
amount, and every subtract that stays within the available balance. -/
theorem applyOp_invariant (row : Balance) (op : LedgerOp) (ha : 0 ≤ SetString op.amount)
    (hsub : ∀ a o, op = .subtract a o →
      SetString a ≤ SetString row.Balance - SetString row.LockedBalance)
    (h : ledgerInvariant row) : ledgerInvariant (applyOp row op) := by
  unfold ledgerInvariant at h ⊢
  rcases applyOp_cases row op with h1 | ⟨a, o, rfl, h2, h1⟩ | ⟨a, o, rfl, h1⟩ | ⟨a, o, rfl, h2, h1⟩
  · rw [h1]; exact h
  · rw [h1]
    simp only [LedgerOp.amount] at ha
    simp only [SetString_toString]
    omega
  · rw [h1]
    simp only [LedgerOp.amount] at ha
    simp only [SetString_toString]
    refine ⟨le_max_right _ _, ?_⟩
    rw [max_le_iff]
    omega
  · rw [h1]
    have := hsub a o rfl
    simp only [SetString_toString]
    omega

theorem runOps_nonneg (row : Balance) (ops : List LedgerOp)
    (hamt : ∀ op ∈ ops, 0 ≤ SetString op.amount)
    (h : 0 ≤ SetString row.LockedBalance ∧ 0 ≤ SetString row.Balance) :
    ∀ r ∈ runOps row ops, 0 ≤ SetString r.LockedBalance ∧ 0 ≤ SetString r.Balance := by
  induction ops generalizing row with
  | nil => simp [runOps]
  | cons op ops ih =>
    have h1 := applyOp_nonneg row op (hamt op (by simp)) h
    intro r hr
    simp only [runOps, List.mem_cons] at hr
    rcases hr with hr | hr
    · rw [hr]; exact h1
    · exact ih _ (fun op1 hop => hamt op1 (by simp [hop])) h1 r hr

theorem runOps_invariant (row : Balance) (ops : List LedgerOp)
    (hamt : ∀ op ∈ ops, 0 ≤ SetString op.amount)
    (hsub : subtractsWithinAvailable row ops) (h : ledgerInvariant row) :
    ∀ r ∈ runOps row ops, ledgerInvariant r := by
  induction ops generalizing row with
  | nil => simp [runOps]
  | cons op ops ih =>
    have hstep : ledgerInvariant (applyOp row op) ∧
        subtractsWithinAvailable (applyOp row op) ops := by
      cases op with
      | lock a o =>
        exact ⟨applyOp_invariant row _ (hamt _ (by simp)) (by simp) h, hsub⟩
      | unlock a o =>
        exact ⟨applyOp_invariant row _ (hamt _ (by simp)) (by simp) h, hsub⟩
      | subtract a o =>
        simp only [subtractsWithinAvailable] at hsub
        refine ⟨applyOp_invariant row _ (hamt _ (by simp)) ?_ h, hsub.2⟩
        intro a1 o1 heq
        simp only [LedgerOp.subtract.injEq] at heq
        rw [← heq.1]
        exact hsub.1
    intro r hr
    simp only [runOps, List.mem_cons] at hr
    rcases hr with hr | hr
    · rw [hr]; exact hstep.1
    · exact ih _ (fun op1 hop => hamt op1 (by simp [hop])) hstep.2 hstep.1 r hr

/-! ## Sorting -/

theorem txLess_iff (a b : TLCTransactionItem) :
    txLess a b = true ↔
      b.BlockNumber < a.BlockNumber ∨
        (a.BlockNumber = b.BlockNumber ∧ b.TxHash < a.TxHash) := by
  unfold txLess
  split
  · rename_i h
    simp [h]
  · rename_i h
    simp only [decide_eq_true_eq]
    constructor
    · intro h1; exact Or.inl h1
    · rintro (h1 | ⟨h1, _⟩)
      · exact h1
      · exact absurd h1 h

theorem txBefore_iff (a b : TLCTransactionItem) :
    txBefore a b ↔
      b.BlockNumber < a.BlockNumber ∨
        (a.BlockNumber = b.BlockNumber ∧ b.TxHash ≤ a.TxHash) := by
  unfold txBefore
  rw [← Bool.not_eq_true, txLess_iff]
  constructor
  · intro h
    rcases lt_trichotomy a.BlockNumber b.BlockNumber with h1 | h1 | h1
    · exact absurd (Or.inl h1) h
    · refine Or.inr ⟨h1, not_lt.1 ?_⟩
      intro h2
      exact h (Or.inr ⟨h1.symm, h2⟩)
    · exact Or.inl h1
  · rintro (h | ⟨h1, h2⟩) (h3 | ⟨h3, h4⟩)
    · omega
    · omega
    · omega
    · exact absurd h4 (not_lt.2 h2)

theorem txBefore_total (a b : TLCTransactionItem) : txBefore a b ∨ txBefore b a := by
  rw [txBefore_iff, txBefore_iff]
  rcases lt_trichotomy a.BlockNumber b.BlockNumber with h1 | h1 | h1
  · exact Or.inr (Or.inl h1)
  · rcases le_total a.TxHash b.TxHash with h2 | h2
    · exact Or.inr (Or.inr ⟨h1.symm, h2⟩)
    · exact Or.inl (Or.inr ⟨h1, h2⟩)
  · exact Or.inl (Or.inl h1)

theorem txBefore_trans (a b c : TLCTransactionItem) (hab : txBefore a b)
    (hbc : txBefore b c) : txBefore a c := by
  rw [txBefore_iff] at hab hbc ⊢
  rcases hab with h1 | ⟨h1, h2⟩ <;> rcases hbc with h3 | ⟨h3, h4⟩
  · exact Or.inl (by omega)
  · exact Or.inl (by omega)
  · exact Or.inl (by omega)
  · exact Or.inr ⟨by omega, le_trans h4 h2⟩

/-- Two items in sorted order with different hashes are in strict order. -/
theorem txBefore_strict (a b : TLCTransactionItem) (h : txBefore a b)
    (hne : a.TxHash ≠ b.TxHash) :
    b.BlockNumber < a.BlockNumber ∨
      (a.BlockNumber = b.BlockNumber ∧ b.TxHash < a.TxHash) := by
  rcases (txBefore_iff a b).1 h with h1 | ⟨h1, h2⟩
  · exact Or.inl h1
  · exact Or.inr ⟨h1, lt_of_le_of_ne h2 (Ne.symm hne)⟩

theorem sortTransactions_perm (all : List TLCTransactionItem) :
    (sortTransactions all).Perm all :=
  List.perm_insertionSort txBefore all

/-- The sorted list of items with pairwise distinct hashes is strictly
decreasing in (block number, hash), for every pair of positions. -/
theorem sortTransactions_pairwise (all : List TLCTransactionItem)
    (hnd : (all.map (fun tx => tx.TxHash)).Nodup) :
    (sortTransactions all).Pairwise (fun a b =>
      b.BlockNumber < a.BlockNumber ∨
        (a.BlockNumber = b.BlockNumber ∧ b.TxHash < a.TxHash)) := by
  haveI : IsTotal TLCTransactionItem txBefore := ⟨txBefore_total⟩
  haveI : IsTrans TLCTransactionItem txBefore := ⟨txBefore_trans⟩
  have hs : (sortTransactions all).Pairwise txBefore := List.sorted_insertionSort txBefore all
  have hn : ((sortTransactions all).map (fun tx => tx.TxHash)).Nodup :=
    (((sortTransactions_perm all).map _).nodup_iff).2 hnd
  have hn2 : (sortTransactions all).Pairwise (fun a b => a.TxHash ≠ b.TxHash) :=
    List.pairwise_map.1 hn
  exact (hs.and hn2).imp (fun h => txBefore_strict _ _ h.1 h.2)

/-! ## Pagination -/

/-- A page that is returned carries the length of the list as `TotalCount` and
is a contiguous segment of the list. -/
theorem paginate_ok (all : List TLCTransactionItem) (page limit : Int)
    (r : TLCTransactionHistoryResponse) (h : paginate all page limit = .ok r) :
    r.TotalCount = all.length ∧ r.Page = page ∧ r.Limit = limit ∧
    ∃ i j, r.Transactions = (all.drop i).take j := by
  unfold paginate at h
  simp only at h
  split at h
  · simp only [Res.ok.injEq] at h
    subst h
    exact ⟨rfl, rfl, rfl, 0, 0, by simp⟩
  · repeat' split at h
    all_goals first
      | exact Res.noConfusion h
      | (simp only [Res.ok.injEq] at h; subst h; exact ⟨rfl, rfl, rfl, _, _, rfl⟩)

theorem paginate_sublist (all : List TLCTransactionItem) (page limit : Int)
    (r : TLCTransactionHistoryResponse) (h : paginate all page limit = .ok r) :
    r.Transactions.Sublist all := by
  obtain ⟨_, _, _, i, j, hij⟩ := paginate_ok all page limit r h
  rw [hij]
  exact (List.take_sublist _ _).trans (List.drop_sublist _ _)

theorem wrapInt_bounds (x : Int) : -2 ^ 63 ≤ wrapInt x ∧ wrapInt x < 2 ^ 63 := by
  unfold wrapInt
  omega

theorem wrapInt_of_range (x : Int) (h0 : -2 ^ 63 ≤ x) (h1 : x < 2 ^ 63) : wrapInt x = x := by
  unfold wrapInt
  omega

/-- A page never holds more items than the limit. -/
theorem paginate_length_le (all : List TLCTransactionItem) (page limit : Int)
    (hlimit : 0 ≤ limit) (r : TLCTransactionHistoryResponse)
    (h : paginate all page limit = .ok r) : (r.Transactions.length : Int) ≤ limit := by
  unfold paginate at h
  simp only at h
  split at h
  · simp only [Res.ok.injEq] at h
    subst h
    simpa using hlimit
  · rename_i hstart
    have hw : wrapInt (wrapInt (wrapInt (page - 1) * limit) + limit) ≤
        wrapInt (wrapInt (page - 1) * limit) + limit := by
      have hst := (wrapInt_bounds (wrapInt (page - 1) * limit)).1
      generalize wrapInt (wrapInt (page - 1) * limit) = st at hst ⊢
      unfold wrapInt
      omega
    repeat' split at h
    all_goals first
      | exact Res.noConfusion h
      | (simp only [Res.ok.injEq] at h
         subst h
         simp only [List.length_take, List.length_drop]
         omega)

/-- Without overflow, a page that starts at or beyond the end of the list is
the empty page with the true count. -/
theorem paginate_out_of_range (all : List TLCTransactionItem) (page limit : Int)
    (hpage : 1 ≤ page) (hlimit : 1 ≤ limit) (hfit : (page - 1) * limit < 2 ^ 63)
    (hout : (all.length : Int) ≤ (page - 1) * limit) :
    paginate all page limit =
      .ok { Transactions := [], TotalCount := all.length, Page := page, Limit := limit } := by
  have h0 : (0 : Int) ≤ (page - 1) * limit := mul_nonneg (by omega) (by omega)
  have h1 : page - 1 ≤ (page - 1) * limit := by nlinarith
  have hw1 : wrapInt (page - 1) = page - 1 := wrapInt_of_range _ (by omega) (by omega)
  have hw2 : wrapInt ((page - 1) * limit) = (page - 1) * limit :=
    wrapInt_of_range _ (by omega) hfit
  unfold paginate
  simp only [hw1, hw2]
  rw [if_pos (by simpa using hout)]

/-- What a successful `GetAllTransactions` call did. -/
theorem GetAllTransactions_ok (s : BlockchainExplorerService) (fromBlock toBlock : Option Int)
    (page limit : Int) (r : TLCTransactionHistoryResponse)
    (h : GetAllTransactions s fromBlock toBlock page limit = .ok r) :
    ∃ logs all, s.FilterLogs (fromBlock.getD 0) toBlock = .ok logs ∧
      materialize s logs = .ok all ∧
      paginate (sortTransactions all) (if page ≤ 0 then 1 else page)
        (if limit ≤ 0 then 10 else limit) = .ok r := by
  unfold GetAllTransactions at h
  simp only at h
  split at h
  · exact Res.noConfusion h
  · rename_i logs hlogs
    split at h
    · rename_i all hall
      exact ⟨logs, all, hlogs, hall, h⟩
    · exact Res.noConfusion h
    · exact Res.noConfusion h

/-- The first page, for a limit that fits a Go `int`: the first `limit` items. -/
theorem paginate_first_page (all : List TLCTransactionItem) (limit : Int)
    (h1 : 1 ≤ limit) (h2 : limit < 2 ^ 63) :
    paginate all 1 limit =
      .ok { Transactions := all.take limit.toNat, TotalCount := all.length, Page := 1,
            Limit := limit } := by
  have hw0 : wrapInt (1 - 1) = 0 := by decide
  have hw1 : wrapInt (0 * limit) = 0 := by rw [Int.zero_mul]; decide
  have hw2 : wrapInt (0 + limit) = limit := by
    rw [Int.zero_add]; exact wrapInt_of_range _ (by omega) h2
  unfold paginate
  simp only [hw0, hw1, hw2]
  by_cases h0 : (0 : Int) ≥ all.length
  · rw [if_pos h0]
    have : all = [] := by
      apply List.eq_nil_of_length_eq_zero
      omega
    subst this
    simp
  · rw [if_neg h0]
    by_cases h3 : limit > all.length
    · rw [if_pos h3, if_neg (by omega)]
      have h4 : all.length ≤ limit.toNat := by omega
      simp [List.take_of_length_le h4]
    · rw [if_neg h3, if_neg (by omega)]
      simp

/-- The "get all data" call `GetAllTransactions(nil, nil, 1, 999999)` keeps the
first 999999 items of the sorted list. -/
theorem paginate_get_all (all : List TLCTransactionItem) :
    paginate all 1 999999 =
      .ok { Transactions := all.take 999999, TotalCount := all.length, Page := 1,
            Limit := 999999 } :=
  paginate_first_page all 999999 (by decide) (by decide)

/-- `GetTransactionsByAddress` once its inner "get all" call has returned. -/
theorem GetTransactionsByAddress_eq (s : BlockchainExplorerService) (address : String)
    (page limit : Int) (allTx : TLCTransactionHistoryResponse)
    (h : GetAllTransactions s none none 1 999999 = .ok allTx) :
    GetTransactionsByAddress s address page limit =
      paginate (allTx.Transactions.filter
        (fun tx => EqualFold tx.FromAddress address || EqualFold tx.ToAddress address))
        (if page ≤ 0 then 1 else page) (if limit ≤ 0 then 10 else limit) := by
  simp only [GetTransactionsByAddress, h]

/-- What a successful `GetTransactionsByAddress` call returns: items that all
involve the address, and as `TotalCount` the number of matches among the first
999999 items of the sorted list. -/
theorem GetTransactionsByAddress_ok (s : BlockchainExplorerService) (address : String)
    (page limit : Int) (r : TLCTransactionHistoryResponse)
    (h : GetTransactionsByAddress s address page limit = .ok r) :
    (∀ tx ∈ r.Transactions,
      EqualFold tx.FromAddress address = true ∨ EqualFold tx.ToAddress address = true) ∧
    (∃ logs all, s.FilterLogs 0 none = .ok logs ∧ materialize s logs = .ok all ∧
      r.TotalCount = (((sortTransactions all).take 999999).filter (fun tx =>
        EqualFold tx.FromAddress address || EqualFold tx.ToAddress address)).length) ∧
    r.TotalCount ≤ 999999 := by
  unfold GetTransactionsByAddress at h
  simp only at h
  split at h
  · exact Res.noConfusion h
  · exact Res.noConfusion h
  · rename_i allTx hall
    obtain ⟨logs, all, hlogs, hmat, hpage⟩ := GetAllTransactions_ok s none none 1 999999 allTx hall
    simp only [show ¬ ((1 : Int) ≤ 0) by decide, show ¬ ((999999 : Int) ≤ 0) by decide,
      if_false] at hpage
    rw [paginate_get_all] at hpage
    simp only [Res.ok.injEq] at hpage
    subst hpage
    simp only at h
    obtain ⟨hcount, _, _, _⟩ := paginate_ok _ _ _ r h
    have hsub := paginate_sublist _ _ _ r h
    refine ⟨?_, ⟨logs, all, hlogs, hmat, hcount⟩, ?_⟩
    · intro tx htx
      have := List.mem_filter.1 (hsub.subset htx)
      simpa using this.2
    · rw [hcount]
      have h1 := List.length_filter_le (fun tx : TLCTransactionItem =>
        EqualFold tx.FromAddress address || EqualFold tx.ToAddress address)
        ((sortTransactions all).take 999999)
      have h2 : ((sortTransactions all).take 999999).length ≤ 999999 := by
        rw [List.length_take]; exact Nat.min_le_left _ _
      omega

/-! ## Chains with one log per transaction -/

theorem appendLog_fresh (m : List (String × List Log)) (k : String) (v : Log)
    (h : k ∉ m.map Prod.fst) : appendLog m k v = m ++ [(k, [v])] := by
  induction m with
  | nil => rfl
  | cons e rest ih =>
    obtain ⟨k1, ls⟩ := e
    simp only [List.map_cons, List.mem_cons, not_or] at h
    simp only [appendLog, if_neg (Ne.symm h.1), ih h.2, List.cons_append]

theorem foldl_appendLog_fresh (logs : List Log) (m : List (String × List Log))
    (h : (m.map Prod.fst ++ logs.map (fun l => l.TxHash)).Nodup) :
    logs.foldl (fun txLogs vLog => appendLog txLogs vLog.TxHash vLog) m =
      m ++ logs.map (fun l => (l.TxHash, [l])) := by
  induction logs generalizing m with
  | nil => simp
  | cons v rest ih =>
    have hv : v.TxHash ∉ m.map Prod.fst := by
      intro hmem
      rw [List.nodup_append] at h
      exact h.2.2 hmem (by simp)
    simp only [List.foldl_cons, appendLog_fresh m _ v hv]
    rw [ih]
    · simp
    · simpa [List.map_append, List.append_assoc] using h

/-- With pairwise distinct hashes every log is a group of its own. -/
theorem groupLogs_of_nodup (logs : List Log) (h : (logs.map (fun l => l.TxHash)).Nodup) :
    groupLogs logs = logs.map (fun l => (l.TxHash, [l])) := by
  unfold groupLogs
  rw [foldl_appendLog_fresh logs [] (by simpa using h)]
  simp

/-- The processing loop over one-log groups with distinct hashes, each of which
is selected and decodes to `f l`, appends the records `f l` in visiting order. -/
theorem processAll_singletons (s : BlockchainExplorerService) (f : Log → TLCTransactionItem)
    (ls : List Log) (st : LoopState)
    (hsel : ∀ l ∈ ls, selectLog s.contractABI [l] = .ok (some l))
    (hparse : ∀ l ∈ ls, parseLogToTransaction s l = .ok (f l))
    (hnd : (ls.map (fun l => l.TxHash)).Nodup)
    (hnew : ∀ l ∈ ls, l.TxHash ∉ st.processedTx) :
    ∃ st1, processAll s st (ls.map (fun l => (l.TxHash, [l]))) = .ok st1 ∧
      st1.allTransactions = st.allTransactions ++ ls.map f := by
  induction ls generalizing st with
  | nil => exact ⟨st, rfl, by simp⟩
  | cons l rest ih =>
    simp only [List.map_cons, List.nodup_cons] at hnd
    have hstep : processTx s st (l.TxHash, [l]) =
        .ok { allTransactions := st.allTransactions ++ [f l]
              processedTx := l.TxHash :: st.processedTx } := by
      simp only [processTx, if_neg (hnew l (by simp)), hsel l (by simp), hparse l (by simp)]
    obtain ⟨st1, h1, h2⟩ := ih
      { allTransactions := st.allTransactions ++ [f l]
        processedTx := l.TxHash :: st.processedTx }
      (fun l1 h => hsel l1 (by simp [h])) (fun l1 h => hparse l1 (by simp [h])) hnd.2
      (by
        intro l1 hl1
        simp only [List.mem_cons, not_or]
        refine ⟨?_, hnew l1 (by simp [hl1])⟩
        intro heq
        exact hnd.1 (heq ▸ List.mem_map_of_mem (fun l => l.TxHash) hl1))
    refine ⟨st1, ?_, ?_⟩
    · simp only [List.map_cons, processAll, hstep, h1]
    · rw [h2]; simp

theorem paymentLog_txHash_injective (i j : Nat)
    (h : (paymentLog i).TxHash = (paymentLog j).TxHash) : i = j := by
  have h1 : ("0x" ++ toString i).data = ("0x" ++ toString j).data := by
    simpa [paymentLog] using congrArg String.data h
  simp only [String.data_append, List.append_cancel_left_eq] at h1
  have h2 := scanDigits_repr i
  have h3 := scanDigits_repr j
  have h4 : (Nat.repr i).data = (Nat.repr j).data := h1
  rw [h4, h3] at h2
  exact h2.symm

theorem parseLogToTransaction_paymentLog (logs : List Log) (i : Nat) :
    parseLogToTransaction (demoService logs) (paymentLog i) = .ok (paymentItem i) := by
  have h1 : toString (amountTLC ((SetBytes [1]).toNat : Int)) = "0" := by decide
  have h2 : toString (((SetBytes [1]).toNat : Nat) : Int) = "1" := by decide
  have e1 : ("0x03" = "0x01") = False := eq_false (by decide)
  have e2 : ("0x03" = "0x02") = False := eq_false (by decide)
  simp only [parseLogToTransaction, demoService, paymentLog, demoABI, e1, e2, if_false, if_true,
    parsePaymentProcessed, topicAddress, paymentItem, h1, h2, List.get?_cons_succ,
    List.get?_cons_zero]

theorem selectLog_paymentLog (logs : List Log) (i : Nat) :
    selectLog (demoService logs).contractABI [paymentLog i] = .ok (some (paymentLog i)) := by
  have h : isCustomEvent demoABI "0x03" = true := by decide
  simp only [selectLog, findCustomEvent, demoService, paymentLog, h, if_true]

/-- A chain of `n` payments materializes to `n` records, every one of them
sent by `0xaa`. -/
theorem materialize_paymentLogs (n : Nat) :
    ∃ all, materialize (demoService (paymentLogs n)) (paymentLogs n) = .ok all ∧
      all.length = n ∧ ∀ tx ∈ all, tx.FromAddress = "0xaa" := by
  have hnd : ((paymentLogs n).map (fun l => l.TxHash)).Nodup := by
    unfold paymentLogs
    rw [List.map_map]
    refine (List.nodup_range n).map_on ?_
    intro i _ j _ h
    exact paymentLog_txHash_injective i j h
  have hform : ∀ l ∈ (paymentLogs n).reverse, ∃ i, l = paymentLog i := by
    intro l hl
    rw [List.mem_reverse] at hl
    unfold paymentLogs at hl
    obtain ⟨i, _, hi⟩ := List.mem_map.1 hl
    exact ⟨i, hi.symm⟩
  obtain ⟨st1, h1, h2⟩ := processAll_singletons (demoService (paymentLogs n))
    (fun l => paymentItem l.BlockNumber) (paymentLogs n).reverse
    { allTransactions := [], processedTx := [] }
    (by
      intro l hl
      obtain ⟨i, rfl⟩ := hform l hl
      exact selectLog_paymentLog (paymentLogs n) i)
    (by
      intro l hl
      obtain ⟨i, rfl⟩ := hform l hl
      exact parseLogToTransaction_paymentLog (paymentLogs n) i)
    (by
      rw [List.map_reverse]
      exact List.nodup_reverse.2 hnd)
    (by intro l _ h; exact absurd h (List.not_mem_nil _))
  refine ⟨st1.allTransactions, ?_, ?_, ?_⟩
  · unfold materialize
    rw [groupLogs_of_nodup (paymentLogs n) hnd]
    have : (demoService (paymentLogs n)).mapRange
        ((paymentLogs n).map (fun l => (l.TxHash, [l]))) =
        (paymentLogs n).reverse.map (fun l => (l.TxHash, [l])) := by
      simp only [demoService, List.map_reverse]
    rw [this, h1]
  · rw [h2, List.nil_append, List.length_map, List.length_reverse]
    unfold paymentLogs
    rw [List.length_map, List.length_range]
  · intro tx htx
    rw [h2] at htx
    simp only [List.nil_append, List.mem_map] at htx
    obtain ⟨l, _, rfl⟩ := htx
    simp only [paymentItem]

/-- On a chain of `n ≥ 999999` payments sent by `0xaa`, all `n` materialized
records match `0xAA`, and `GetTransactionsByAddress` reports 999999. -/
theorem GetTransactionsByAddress_paymentLogs (n : Nat) (hn : 999999 ≤ n) :
    ∃ all r, materialize (demoService (paymentLogs n)) (paymentLogs n) = .ok all ∧
      (all.filter (fun tx =>
        EqualFold tx.FromAddress "0xAA" || EqualFold tx.ToAddress "0xAA")).length = n ∧
      GetTransactionsByAddress (demoService (paymentLogs n)) "0xAA" 1 10 = .ok r ∧
      r.TotalCount = 999999 ∧
      ∀ tx ∈ r.Transactions,
        EqualFold tx.FromAddress "0xAA" = true ∨ EqualFold tx.ToAddress "0xAA" = true := by
  obtain ⟨all, hmat, hlen, hfrom⟩ := materialize_paymentLogs n
  have hmatch : ∀ tx ∈ all,
      (EqualFold tx.FromAddress "0xAA" || EqualFold tx.ToAddress "0xAA") = true := by
    intro tx htx
    have e : EqualFold "0xaa" "0xAA" = true := by decide
    rw [hfrom tx htx, e, Bool.true_or]
  have hfilter : ∀ l : List TLCTransactionItem, (∀ tx ∈ l, tx ∈ all) →
      l.filter (fun tx => EqualFold tx.FromAddress "0xAA" || EqualFold tx.ToAddress "0xAA")
        = l := by
    intro l hl
    rw [List.filter_eq_self]
    intro tx htx
    exact hmatch tx (hl tx htx)
  have hall : GetAllTransactions (demoService (paymentLogs n)) none none 1 999999 =
      .ok { Transactions := (sortTransactions all).take 999999
            TotalCount := (sortTransactions all).length, Page := 1, Limit := 999999 } := by
    have hlogs : (demoService (paymentLogs n)).FilterLogs ((none : Option Int).getD 0) none =
        .ok (paymentLogs n) := rfl
    simp only [GetAllTransactions, hlogs, hmat]
    exact paginate_get_all _
  have htake : ∀ tx ∈ (sortTransactions all).take 999999, tx ∈ all := fun tx htx =>
    (sortTransactions_perm all).mem_iff.1 (List.mem_of_mem_take htx)
  have hres := GetTransactionsByAddress_eq (demoService (paymentLogs n)) "0xAA" 1 10 _ hall
  simp only [hfilter _ htake] at hres
  rw [if_neg (by decide), if_neg (by decide), paginate_first_page _ 10 (by decide) (by decide)]
    at hres
  refine ⟨all, _, hmat, ?_, hres, ?_, ?_⟩
  · rw [hfilter all (fun _ h => h), hlen]
  · simp only [List.length_take, (sortTransactions_perm all).length_eq, hlen]
    have : min 999999 n = 999999 := Nat.min_eq_left hn
    rw [this]
    rfl
  · intro tx htx
    have := hmatch tx (htake tx (List.mem_of_mem_take htx))
    simpa using this

/-! ## Receipt polling -/

theorem pollReceipt_polls (cs : ContractService) (txHash : String) (ticks : Nat) :
    ∀ (i : Nat) (e : Effect), e ∈ (pollReceipt cs txHash ticks i).2 →
      ∃ j, e = Effect.TransactionReceipt txHash j := by
  induction ticks with
  | zero => intro i e he; simp [pollReceipt] at he
  | succ n ih =>
    intro i e he
    simp only [pollReceipt] at he
    split at he
    · split at he
      · simp only [List.mem_singleton] at he; exact ⟨i, he⟩
      · simp only [List.mem_singleton] at he; exact ⟨i, he⟩
    · split at he
      · simp only [List.mem_singleton] at he; exact ⟨i, he⟩
      · simp only [List.mem_cons] at he
        rcases he with he | he
        · exact ⟨i, he⟩
        · exact ih (i + 1) e he

theorem pollReceipt_found (cs : ContractService) (txHash : String) (ticks : Nat) :
    ∀ (i j : Nat) (receipt : Receipt),
      Effect.TransactionReceipt txHash j ∈ (pollReceipt cs txHash ticks i).2 →
      cs.TransactionReceipt txHash j = .ok receipt →
      (pollReceipt cs txHash ticks i).1 =
        if receipt.Status = ReceiptStatusFailed then .err "transaction reverted on blockchain"
        else .ok receipt := by
  induction ticks with
  | zero => intro i j receipt he; simp [pollReceipt] at he
  | succ n ih =>
    intro i j receipt he hj
    simp only [pollReceipt] at he ⊢
    split at he
    · rename_i r hr
      have hji : j = i := by
        split at he <;> simpa using he
      subst hji
      rw [hr] at hj
      cases hj
      split <;> rfl
    · rename_i msg hr
      split at he
      · have hji : j = i := by simpa using he
        subst hji
        rw [hr] at hj
        cases hj
      · rename_i hlen
        simp only [List.mem_cons, Effect.TransactionReceipt.injEq, true_and] at he
        rcases he with he | he
        · subst he
          rw [hr] at hj
          cases hj
        · rw [if_neg hlen]
          exact ih (i + 1) j receipt he hj

theorem pollReceipt_ok (cs : ContractService) (txHash : String) (ticks : Nat) :
    ∀ (i : Nat) (receipt : Receipt), (pollReceipt cs txHash ticks i).1 = .ok receipt →
      ∃ pre j, (pollReceipt cs txHash ticks i).2 = pre ++ [Effect.TransactionReceipt txHash j] ∧
        cs.TransactionReceipt txHash j = .ok receipt ∧
        receipt.Status ≠ ReceiptStatusFailed ∧
        ∀ e ∈ pre, ∃ k, e = Effect.TransactionReceipt txHash k := by
  induction ticks with
  | zero => intro i receipt h; simp [pollReceipt] at h
  | succ n ih =>
    intro i receipt h
    simp only [pollReceipt] at h ⊢
    split at h
    · rename_i r hr
      split at h
      · exact Res.noConfusion h
      · rename_i hst
        simp only [Res.ok.injEq] at h
        subst h
        refine ⟨[], i, ?_, hr, hst, ?_⟩
        · simp [hr, hst]
        · intro e he; simp at he
    · rename_i msg hr
      split at h
      · exact Res.noConfusion h
      · rename_i hlen
        obtain ⟨pre, j, h2, hj, hst, hpre⟩ := ih (i + 1) receipt h
        refine ⟨Effect.TransactionReceipt txHash i :: pre, j, ?_, hj, hst, ?_⟩
        · simp [hr, hlen, h2]
        · intro e he
          simp only [List.mem_cons] at he
          rcases he with he | he
          · exact ⟨i, he⟩
          · exact hpre e he

theorem pollReceipt_length (cs : ContractService) (txHash : String) (ticks : Nat) :
    ∀ i : Nat, (pollReceipt cs txHash ticks i).2.length ≤ ticks := by
  induction ticks with
  | zero => intro i; simp [pollReceipt]
  | succ n ih =>
    intro i
    simp only [pollReceipt]
    split
    · split <;> simp
    · split
      · simp
      · have := ih (i + 1)
        simp only [List.length_cons]
        omega


/-! ## Transfer: receipt and mirror row -/

/-- The shape of every run of `TransferTLC`, for every behaviour `c` of the
insert: it either fails before a submission was accepted, with neither poll nor
insert among its effects, or a submission was accepted and the outcome is that
of `WaitForReceipt`. -/
theorem TransferTLC_cases (b : Backend) (userID : Int) (toAddress amount memo pin : String) :
    (∃ msg pre, (∀ e ∈ pre, e.isCreate = false ∧ e.isReceiptPoll = false) ∧
      ∀ c, TransferTLC { b with Create := c } userID toAddress amount memo pin =
        (.err msg, pre)) ∨
    (∃ (user : User) (cs : ContractService) (privateKey txHash : String),
      b.contractService = some cs ∧
      cs.Transfer privateKey toAddress (amountWei (SetString amount)) = .ok txHash ∧
      (∀ c e, (WaitForReceipt cs txHash 60).1 = .panic e →
        TransferTLC { b with Create := c } userID toAddress amount memo pin =
          (.panic e,
            [Effect.GetBalance user.WalletAddress,
              Effect.DecryptPrivateKey user.PrivateKeyEncrypted,
              Effect.Transfer privateKey toAddress (amountWei (SetString amount))] ++
            (WaitForReceipt cs txHash 60).2)) ∧
      (∀ c e, (WaitForReceipt cs txHash 60).1 = .err e →
        TransferTLC { b with Create := c } userID toAddress amount memo pin =
          (.err ("transaction not confirmed or failed: " ++ e),
            [Effect.GetBalance user.WalletAddress,
              Effect.DecryptPrivateKey user.PrivateKeyEncrypted,
              Effect.Transfer privateKey toAddress (amountWei (SetString amount))] ++
            (WaitForReceipt cs txHash 60).2)) ∧
      (∀ receipt, (WaitForReceipt cs txHash 60).1 = .ok receipt →
        ∃ tx : Transaction,
          tx.TxHash = txHash ∧ tx.Status = "confirmed" ∧
          tx.BlockNumber = some (toInt64 (receipt.BlockNumber % 2 ^ 64)) ∧
          tx.ConfirmedAt = some b.Now ∧
          ∀ c, TransferTLC { b with Create := c } userID toAddress amount memo pin =
            (.ok { TxHash := txHash
                   FromAddress := user.WalletAddress
                   ToAddress := toAddress
                   Amount := amount
                   AmountWei := toString (amountWei (SetString amount))
                   Memo := memo
                   Status := "confirmed"
                   Timestamp := b.Now },
              [Effect.GetBalance user.WalletAddress,
                Effect.DecryptPrivateKey user.PrivateKeyEncrypted,
                Effect.Transfer privateKey toAddress (amountWei (SetString amount))] ++
              (WaitForReceipt cs txHash 60).2 ++ Effect.Create tx ::
                (match c tx with
                 | .error e =>
                   [Effect.Log ("[ERROR] Failed to save transaction record: " ++ e)]
                 | .ok _ => [])))) := by
  cases hU : b.GetByID userID with
  | error e =>
    left
    cases e with
    | recordNotFound =>
      exact ⟨"user not found", [], by simp, fun c => by simp [TransferTLC, hU]⟩
    | other m => exact ⟨m, [], by simp, fun c => by simp [TransferTLC, hU]⟩
  | ok user =>
    by_cases h1 : user.Status = "active"
    swap
    · left
      exact ⟨"account is not active", [], by simp, fun c => by simp [TransferTLC, hU, h1]⟩
    cases h2 : (b.sha256Hex pin == user.PinHash) with
    | false =>
      left
      exact ⟨"invalid PIN", [], by simp,
        fun c => by simp [TransferTLC, VerifyPin, HashPin, hU, h1, h2]⟩
    | true =>
    cases h3 : IsHexAddress toAddress with
    | false =>
      left
      exact ⟨"invalid recipient address format", [], by simp,
        fun c => by simp [TransferTLC, VerifyPin, HashPin, hU, h1, h2, h3]⟩
    | true =>
    by_cases h4 : toAddress = user.WalletAddress
    · left
      exact ⟨"cannot transfer to yourself", [], by simp,
        fun c => by subst h4; simp [TransferTLC, VerifyPin, HashPin, hU, h1, h2, h3]⟩
    cases h5 : SetStringOk amount with
    | false =>
      left
      exact ⟨"invalid amount format", [], by simp,
        fun c => by simp [TransferTLC, VerifyPin, HashPin, hU, h1, h2, h3, h4, h5]⟩
    | true =>
    by_cases h6 : SetString amount ≤ 0
    · left
      exact ⟨"amount must be greater than 0", [], by simp,
        fun c => by simp [TransferTLC, VerifyPin, HashPin, hU, h1, h2, h3, h4, h5, h6]⟩
    cases hcs : b.contractService with
    | none =>
      left
      exact ⟨"blockchain not available", [], by simp,
        fun c => by simp [TransferTLC, VerifyPin, HashPin, hU, h1, h2, h3, h4, h5, h6, hcs]⟩
    | some cs =>
    cases hw : b.IsWeb3Enabled with
    | false =>
      left
      exact ⟨"blockchain not available", [], by simp,
        fun c => by
          simp [TransferTLC, VerifyPin, HashPin, hU, h1, h2, h3, h4, h5, h6, hcs, hw]⟩
    | true =>
    cases hb : cs.GetBalance user.WalletAddress with
    | error e =>
      left
      exact ⟨"failed to check on-chain balance: " ++ e, [Effect.GetBalance user.WalletAddress],
        by simp [Effect.isCreate, Effect.isReceiptPoll],
        fun c => by
          simp [TransferTLC, VerifyPin, HashPin, hU, h1, h2, h3, h4, h5, h6, hcs, hw, hb]⟩
    | ok bal =>
    by_cases h7 : bal < amountWei (SetString amount)
    · left
      exact ⟨"insufficient on-chain balance", [Effect.GetBalance user.WalletAddress],
        by simp [Effect.isCreate, Effect.isReceiptPoll],
        fun c => by
          simp [TransferTLC, VerifyPin, HashPin, hU, h1, h2, h3, h4, h5, h6, hcs, hw, hb, h7]⟩
    cases hd : b.DecryptPrivateKey user.PrivateKeyEncrypted with
    | error e =>
      left
      exact ⟨"failed to decrypt private key",
        [Effect.GetBalance user.WalletAddress,
          Effect.DecryptPrivateKey user.PrivateKeyEncrypted],
        by simp [Effect.isCreate, Effect.isReceiptPoll],
        fun c => by
          simp [TransferTLC, VerifyPin, HashPin, hU, h1, h2, h3, h4, h5, h6, hcs, hw, hb, h7,
            hd]⟩
    | ok privateKey =>
    cases ht : cs.Transfer privateKey toAddress (amountWei (SetString amount)) with
    | error e =>
      left
      exact ⟨"blockchain transfer failed: " ++ e,
        [Effect.GetBalance user.WalletAddress,
          Effect.DecryptPrivateKey user.PrivateKeyEncrypted,
          Effect.Transfer privateKey toAddress (amountWei (SetString amount))],
        by simp [Effect.isCreate, Effect.isReceiptPoll],
        fun c => by
          simp [TransferTLC, VerifyPin, HashPin, hU, h1, h2, h3, h4, h5, h6, hcs, hw, hb, h7,
            hd, ht]⟩
    | ok txHash =>
    right
    refine ⟨user, cs, privateKey, txHash, rfl, ht, ?_, ?_, ?_⟩
    · intro c e he
      simp [TransferTLC, VerifyPin, HashPin, hU, h1, h2, h3, h4, h5, h6, hcs, hw, hb, h7, hd,
        ht, he]
    · intro c e he
      simp [TransferTLC, VerifyPin, HashPin, hU, h1, h2, h3, h4, h5, h6, hcs, hw, hb, h7, hd,
        ht, he]
    · intro receipt he
      refine ⟨{ ID := 0, TxHash := txHash, FromAddress := user.WalletAddress,
                ToAddress := toAddress, Amount := amount, TxType := "transfer",
                Status := "confirmed",
                BlockNumber := some (toInt64 (receipt.BlockNumber % 2 ^ 64)),
                Metadata := [], CreatedAt := b.Now, ConfirmedAt := some b.Now },
        rfl, rfl, rfl, rfl, ?_⟩
      intro c
      simp [TransferTLC, VerifyPin, HashPin, hU, h1, h2, h3, h4, h5, h6, hcs, hw, hb, h7, hd,
        ht, he]


theorem WaitForReceipt_polls (cs : ContractService) (txHash : String) (timeoutSeconds : Int)
    (e : Effect) (he : e ∈ (WaitForReceipt cs txHash timeoutSeconds).2) :
    ∃ j, e = Effect.TransactionReceipt txHash j :=
  pollReceipt_polls cs txHash _ 0 e he

theorem WaitForReceipt_found (cs : ContractService) (txHash : String) (timeoutSeconds : Int)
    (j : Nat) (receipt : Receipt)
    (he : Effect.TransactionReceipt txHash j ∈ (WaitForReceipt cs txHash timeoutSeconds).2)
    (hj : cs.TransactionReceipt txHash j = .ok receipt) :
    (WaitForReceipt cs txHash timeoutSeconds).1 =
      if receipt.Status = ReceiptStatusFailed then .err "transaction reverted on blockchain"
      else .ok receipt :=
  pollReceipt_found cs txHash _ 0 j receipt he hj

theorem WaitForReceipt_ok (cs : ContractService) (txHash : String) (timeoutSeconds : Int)
    (receipt : Receipt) (h : (WaitForReceipt cs txHash timeoutSeconds).1 = .ok receipt) :
    ∃ pre j, (WaitForReceipt cs txHash timeoutSeconds).2 =
        pre ++ [Effect.TransactionReceipt txHash j] ∧
      cs.TransactionReceipt txHash j = .ok receipt ∧
      receipt.Status ≠ ReceiptStatusFailed ∧
      ∀ e ∈ pre, ∃ k, e = Effect.TransactionReceipt txHash k :=
  pollReceipt_ok cs txHash _ 0 receipt h

/-- A poll among the effects of `TransferTLC` is a poll of `WaitForReceipt` for
the hash of the accepted submission. -/
theorem mem_submitted_trace (pre3 w : List Effect) (txHash h : String) (j : Nat)
    (hpre3 : ∀ e ∈ pre3, e.isReceiptPoll = false)
    (hw : ∀ e ∈ w, ∃ k, e = Effect.TransactionReceipt txHash k)
    (hm : Effect.TransactionReceipt h j ∈ pre3 ++ w) :
    h = txHash ∧ Effect.TransactionReceipt txHash j ∈ w := by
  rcases List.mem_append.1 hm with hm | hm
  · have := hpre3 _ hm
    simp [Effect.isReceiptPoll] at this
  · obtain ⟨k, hk⟩ := hw _ hm
    simp only [Effect.TransactionReceipt.injEq] at hk
    obtain ⟨h1, h2⟩ := hk
    subst h1
    exact ⟨rfl, hm⟩


/-! ## Top-up and withdrawal: shape of a run -/

/-- The shape of every run of `RequestTopup`, for every behaviour `c` of the
insert: it either fails before a submission was accepted, or the submission was
accepted and the call succeeds at once. -/
theorem RequestTopup_cases (b : Backend) (userID : Int) (req : TopupRequest) :
    (∃ msg pre, (∀ e ∈ pre, e.isCreate = false ∧ e.isReceiptPoll = false) ∧
      ∀ c, RequestTopup { b with Create := c } userID req = (.err msg, pre)) ∨
    (∃ (cs : ContractService) (privateKey txHash : String) (pre : List Effect)
        (tx : Transaction),
      b.NewContractService = .ok cs ∧
      cs.InstantTopup privateKey (amountWei (SetString req.Amount))
        ("AUTO_TOPUP_" ++ req.PaymentMethod ++ "_" ++ req.Amount) = .ok txHash ∧
      Effect.InstantTopup privateKey (amountWei (SetString req.Amount))
        ("AUTO_TOPUP_" ++ req.PaymentMethod ++ "_" ++ req.Amount) ∈ pre ∧
      (∀ e ∈ pre, e.isCreate = false ∧ e.isReceiptPoll = false) ∧
      tx.TxHash = txHash ∧ tx.Status = "confirmed" ∧ tx.TxType = "topup" ∧
      tx.BlockNumber = none ∧ tx.ConfirmedAt = some b.Now ∧
      ∀ c, RequestTopup { b with Create := c } userID req =
        (.ok { ID := (match c tx with
                      | .error _ => 0
                      | .ok id => id)
               Amount := req.Amount
               Currency := "TLC"
               PaymentMethod := req.PaymentMethod
               PaymentDetails := [("method", req.PaymentMethod),
                 ("blockchain_only", "false"), ("synced_to_db", "true"),
                 ("note", "Topup confirmed & recorded")]
               Status := "confirmed"
               TxHash := txHash
               CreatedAt := b.Now },
          pre ++ Effect.Create tx ::
            (match c tx with
             | .error e => [Effect.Log ("failed to save transaction: " ++ e)]
             | .ok _ => []))) := by
  cases hU : b.GetByID userID with
  | error e =>
    left
    cases e with
    | recordNotFound =>
      exact ⟨"user not found", [], by simp, fun c => by simp [RequestTopup, hU]⟩
    | other m => exact ⟨m, [], by simp, fun c => by simp [RequestTopup, hU]⟩
  | ok user =>
    by_cases h1 : user.Status = "active"
    swap
    · left
      exact ⟨"account is not active", [], by simp, fun c => by simp [RequestTopup, hU, h1]⟩
    cases h2 : (b.sha256Hex req.Pin == user.PinHash) with
    | false =>
      left
      exact ⟨"invalid PIN", [], by simp,
        fun c => by simp [RequestTopup, VerifyPin, HashPin, hU, h1, h2]⟩
    | true =>
    by_cases h3 : SetString req.Amount < 10000
    · left
      exact ⟨"minimum topup amount is 10,000", [], by simp,
        fun c => by simp [RequestTopup, VerifyPin, HashPin, hU, h1, h2, h3]⟩
    cases h4 : b.NewBlockchainServiceEnabled with
    | false =>
      left
      exact ⟨"blockchain not available", [Effect.NewBlockchainService],
        by simp [Effect.isCreate, Effect.isReceiptPoll],
        fun c => by simp [RequestTopup, VerifyPin, HashPin, hU, h1, h2, h3, h4]⟩
    | true =>
    cases hd : b.DecryptPrivateKey user.PrivateKeyEncrypted with
    | error e =>
      left
      exact ⟨"failed to decrypt private key",
        [Effect.NewBlockchainService, Effect.DecryptPrivateKey user.PrivateKeyEncrypted],
        by simp [Effect.isCreate, Effect.isReceiptPoll],
        fun c => by simp [RequestTopup, VerifyPin, HashPin, hU, h1, h2, h3, h4, hd]⟩
    | ok privateKey =>
    cases hc1 : b.NewWeb3Client with
    | error e =>
      left
      exact ⟨"failed to connect to blockchain",
        [Effect.NewBlockchainService, Effect.DecryptPrivateKey user.PrivateKeyEncrypted,
          Effect.NewWeb3Client],
        by simp [Effect.isCreate, Effect.isReceiptPoll],
        fun c => by simp [RequestTopup, VerifyPin, HashPin, hU, h1, h2, h3, h4, hd, hc1]⟩
    | ok u =>
    cases hc2 : b.NewContractService with
    | error e =>
      left
      exact ⟨"failed to initialize contract service",
        [Effect.NewBlockchainService, Effect.DecryptPrivateKey user.PrivateKeyEncrypted,
          Effect.NewWeb3Client, Effect.NewContractService],
        by simp [Effect.isCreate, Effect.isReceiptPoll],
        fun c => by simp [RequestTopup, VerifyPin, HashPin, hU, h1, h2, h3, h4, hd, hc1, hc2]⟩
    | ok cs =>
    cases ht : cs.InstantTopup privateKey (amountWei (SetString req.Amount))
        ("AUTO_TOPUP_" ++ req.PaymentMethod ++ "_" ++ req.Amount) with
    | error e =>
      left
      exact ⟨"blockchain topup failed: " ++ e,
        [Effect.NewBlockchainService, Effect.DecryptPrivateKey user.PrivateKeyEncrypted,
          Effect.NewWeb3Client, Effect.NewContractService,
          Effect.InstantTopup privateKey (amountWei (SetString req.Amount))
            ("AUTO_TOPUP_" ++ req.PaymentMethod ++ "_" ++ req.Amount)],
        by simp [Effect.isCreate, Effect.isReceiptPoll],
        fun c => by
          simp [RequestTopup, VerifyPin, HashPin, hU, h1, h2, h3, h4, hd, hc1, hc2, ht]⟩
    | ok txHash =>
    right
    refine ⟨cs, privateKey, txHash,
      [Effect.NewBlockchainService, Effect.DecryptPrivateKey user.PrivateKeyEncrypted,
        Effect.NewWeb3Client, Effect.NewContractService,
        Effect.InstantTopup privateKey (amountWei (SetString req.Amount))
          ("AUTO_TOPUP_" ++ req.PaymentMethod ++ "_" ++ req.Amount),
        Effect.AddBalance user.ID req.Amount] ++
        (match (AddBalance b.balanceRow req.Amount b.balanceStore).1 with
         | some e => [Effect.Log ("failed to update balance after topup: " ++ e)]
         | none => []),
      { ID := 0, TxHash := txHash, FromAddress := zeroAddress, ToAddress := user.WalletAddress,
        Amount := req.Amount, TxType := "topup", Status := "confirmed", BlockNumber := none,
        Metadata := [("payment_method", req.PaymentMethod),
          ("note", "Blockchain topup synced to DB"), ("auto_confirmed", "true")],
        CreatedAt := b.Now, ConfirmedAt := some b.Now },
      rfl, ht, by simp, ?_, rfl, rfl, rfl, rfl, rfl, ?_⟩
    · intro e he
      rcases List.mem_append.1 he with he | he
      · simp only [List.mem_cons, List.mem_singleton, List.mem_nil_iff, or_false] at he
        rcases he with he | he | he | he | he | he <;> subst he <;> exact ⟨rfl, rfl⟩
      · split at he
        · simp only [List.mem_singleton] at he; subst he; exact ⟨rfl, rfl⟩
        · simp at he
    · intro c
      simp [RequestTopup, VerifyPin, HashPin, hU, h1, h2, h3, h4, hd, hc1, hc2, ht]

/-- The shape of every run of `CreateWithdrawal`, for every behaviour `c` of
the insert. -/
theorem CreateWithdrawal_cases (b : Backend) (userID : Int)
    (amount bankAccount pin : String) :
    (∃ msg pre, (∀ e ∈ pre, e.isCreate = false ∧ e.isReceiptPoll = false) ∧
      ∀ c, CreateWithdrawal { b with Create := c } userID amount bankAccount pin =
        (.err msg, pre)) ∨
    (∃ (user : User) (cs : ContractService) (privateKey txHash : String) (tx : Transaction),
      b.contractService = some cs ∧
      cs.RequestWithdraw privateKey (amountWei (SetString amount)) bankAccount = .ok txHash ∧
      tx.TxHash = txHash ∧ tx.Status = "processing" ∧ tx.TxType = "withdraw" ∧
      tx.BlockNumber = none ∧ tx.ConfirmedAt = none ∧
      ∀ c, CreateWithdrawal { b with Create := c } userID amount bankAccount pin =
        (.ok { RequestID := ""
               Amount := amount
               AmountWei := toString (amountWei (SetString amount))
               BankAccount := bankAccount
               Status := "processing"
               TxHash := txHash
               WalletAddress := user.WalletAddress
               CreatedAt := b.Now },
          [Effect.GetBalance user.WalletAddress,
            Effect.DecryptPrivateKey user.PrivateKeyEncrypted,
            Effect.RequestWithdraw privateKey (amountWei (SetString amount)) bankAccount] ++
          Effect.Create tx ::
            (match c tx with
             | .error e => [Effect.Log ("[ERROR] Failed to save withdraw record: " ++ e)]
             | .ok _ => []))) := by
  cases hU : b.GetByID userID with
  | error e =>
    left
    cases e with
    | recordNotFound =>
      exact ⟨"user not found", [], by simp, fun c => by simp [CreateWithdrawal, hU]⟩
    | other m => exact ⟨m, [], by simp, fun c => by simp [CreateWithdrawal, hU]⟩
  | ok user =>
    by_cases h1 : user.Status = "active"
    swap
    · left
      exact ⟨"account is not active", [], by simp,
        fun c => by simp [CreateWithdrawal, hU, h1]⟩
    cases h2 : (b.sha256Hex pin == user.PinHash) with
    | false =>
      left
      exact ⟨"invalid PIN", [], by simp,
        fun c => by simp [CreateWithdrawal, VerifyPin, HashPin, hU, h1, h2]⟩
    | true =>
    cases h3 : SetStringOk amount with
    | false =>
      left
      exact ⟨"invalid amount format", [], by simp,
        fun c => by simp [CreateWithdrawal, VerifyPin, HashPin, hU, h1, h2, h3]⟩
    | true =>
    by_cases h4 : SetString amount < 1000
    · left
      exact ⟨"minimum withdrawal amount is 1,000 TLC", [], by simp,
        fun c => by simp [CreateWithdrawal, VerifyPin, HashPin, hU, h1, h2, h3, h4]⟩
    cases hcs : b.contractService with
    | none =>
      left
      exact ⟨"blockchain service not available", [], by simp,
        fun c => by simp [CreateWithdrawal, VerifyPin, HashPin, hU, h1, h2, h3, h4, hcs]⟩
    | some cs =>
    cases hb : cs.GetBalance user.WalletAddress with
    | error e =>
      left
      exact ⟨"failed to check on-chain balance", [Effect.GetBalance user.WalletAddress],
        by simp [Effect.isCreate, Effect.isReceiptPoll],
        fun c => by
          simp [CreateWithdrawal, VerifyPin, HashPin, hU, h1, h2, h3, h4, hcs, hb]⟩
    | ok bal =>
    by_cases h7 : bal < amountWei (SetString amount)
    · left
      exact ⟨"insufficient on-chain balance", [Effect.GetBalance user.WalletAddress],
        by simp [Effect.isCreate, Effect.isReceiptPoll],
        fun c => by
          simp [CreateWithdrawal, VerifyPin, HashPin, hU, h1, h2, h3, h4, hcs, hb, h7]⟩
    cases hd : b.DecryptPrivateKey user.PrivateKeyEncrypted with
    | error e =>
      left
      exact ⟨"failed to decrypt private key",
        [Effect.GetBalance user.WalletAddress,
          Effect.DecryptPrivateKey user.PrivateKeyEncrypted],
        by simp [Effect.isCreate, Effect.isReceiptPoll],
        fun c => by
          simp [CreateWithdrawal, VerifyPin, HashPin, hU, h1, h2, h3, h4, hcs, hb, h7, hd]⟩
    | ok privateKey =>
    cases ht : cs.RequestWithdraw privateKey (amountWei (SetString amount)) bankAccount with
    | error e =>
      left
      exact ⟨"blockchain withdrawal request failed: " ++ e,
        [Effect.GetBalance user.WalletAddress,
          Effect.DecryptPrivateKey user.PrivateKeyEncrypted,
          Effect.RequestWithdraw privateKey (amountWei (SetString amount)) bankAccount],
        by simp [Effect.isCreate, Effect.isReceiptPoll],
        fun c => by
          simp [CreateWithdrawal, VerifyPin, HashPin, hU, h1, h2, h3, h4, hcs, hb, h7, hd,
            ht]⟩
    | ok txHash =>
    right
    refine ⟨user, cs, privateKey, txHash,
      { ID := 0, TxHash := txHash, FromAddress := user.WalletAddress, ToAddress := "",
        Amount := amount, TxType := "withdraw", Status := "processing", BlockNumber := none,
        Metadata := [], CreatedAt := b.Now, ConfirmedAt := none },
      rfl, ht, rfl, rfl, rfl, rfl, rfl, ?_⟩
    intro c
    simp [CreateWithdrawal, VerifyPin, HashPin, hU, h1, h2, h3, h4, hcs, hb, h7, hd, ht]


/-! ## Pagination of the top-up history -/

theorem ValidatePagination_bounds (page limit : String) :
    (ValidatePagination page limit).2.2 = none ∧
    1 ≤ (ValidatePagination page limit).1 ∧
    1 ≤ (ValidatePagination page limit).2.1 ∧ (ValidatePagination page limit).2.1 ≤ 100 := by
  simp only [ValidatePagination]
  refine ⟨trivial, ?_, ?_, ?_⟩
  · split
    · split
      · exact le_refl 1
      · split
        · exact le_refl 1
        · omega
    · exact le_refl 1
  · split
    · split
      · decide
      · split
        · decide
        · omega
    · decide
  · split
    · split
      · decide
      · split
        · decide
        · omega
    · decide

theorem GetTopupHistory_ne_panic (b : Backend) (userID : Int) (page limit : Int)
    (hlimit : limit ≠ 0) (e : String) : GetTopupHistory b userID page limit ≠ .panic e := by
  unfold GetTopupHistory
  split
  · exact fun h => Res.noConfusion h
  · split
    · exact fun h => Res.noConfusion h
    · simp only [hlimit, if_false]
      exact fun h => Res.noConfusion h

theorem Atoi_empty : Atoi "" = none := by decide

/-! ## Amounts of decoded records -/

theorem truncation_bounds (n : Nat) :
    (n : Int) / 10 ^ 18 * 10 ^ 18 ≤ n ∧ (n : Int) < ((n : Int) / 10 ^ 18 + 1) * 10 ^ 18 := by
  have h : (10 : Int) ^ 18 = 1000000000000000000 := by norm_num
  rw [h]
  omega

/-- Every decoder renders the on-chain value and its quotient by `10^18`. -/
theorem parseLogToTransaction_amounts (s : BlockchainExplorerService) (l : Log)
    (tx : TLCTransactionItem) (h : parseLogToTransaction s l = .ok tx) :
    ∃ n : Nat, tx.AmountWei = toString (n : Int) ∧ tx.Amount = toString (amountTLC n) := by
  unfold parseLogToTransaction at h
  split at h
  · simp at h
  · split at h
    · simp at h
    · simp only [parseTokensMinted, parseTokensBurned, parsePaymentProcessed,
        parseTopupRequested, parseWithdrawRequested, parseTransfer] at h
      repeat' split at h
      all_goals first
        | (simp at h; done)
        | (simp only [Res.ok.injEq] at h; subst h; exact ⟨_, rfl, rfl⟩)

theorem record_amounts (tx : TLCTransactionItem) (n : Nat)
    (hw : tx.AmountWei = toString (n : Int)) (ha : tx.Amount = toString (amountTLC n)) :
    tx.AmountWei = toString (n : Int) ∧ tx.Amount = toString ((n : Int) / 10 ^ 18) ∧
    SetString tx.Amount * 10 ^ 18 ≤ SetString tx.AmountWei ∧
    SetString tx.AmountWei < (SetString tx.Amount + 1) * 10 ^ 18 := by
  refine ⟨hw, ha, ?_, ?_⟩
  · rw [hw, ha, SetString_toString, SetString_toString]
    exact (truncation_bounds n).1
  · rw [hw, ha, SetString_toString, SetString_toString]
    exact (truncation_bounds n).2

/-! ## Plain transfers -/

theorem parseTransfer_zero (s : BlockchainExplorerService) (l : Log) (timestamp : Int)
    (hzero : SetBytes l.Data = 0) : ∃ e, parseTransfer s l timestamp = .err e := by
  unfold parseTransfer
  split
  · exact ⟨_, rfl⟩
  · simp only [hzero, if_true]
    exact ⟨_, rfl⟩

theorem parseTransfer_nonzero (s : BlockchainExplorerService) (l : Log) (timestamp : Int)
    (htopics : 3 ≤ l.Topics.length) (hnz : SetBytes l.Data ≠ 0) :
    ∃ tx, parseTransfer s l timestamp = .ok tx ∧
      tx.FromAddress = topicAddress s l 1 ∧ tx.ToAddress = topicAddress s l 2 ∧
      tx.Type_ =
        (if topicAddress s l 1 = zeroAddress then "mint"
         else if topicAddress s l 2 = zeroAddress then "burn"
         else "transfer") := by
  unfold parseTransfer
  rw [if_neg (by omega)]
  simp only [hnz, if_false]
  exact ⟨_, rfl, rfl, rfl, rfl⟩

/-- A log with the `Transfer` signature is handed to `parseTransfer` when that
signature is none of the five custom ones. -/
theorem parseLogToTransaction_transfer (s : BlockchainExplorerService) (l : Log)
    (hsig : l.Topics.head? = some s.contractABI.Transfer)
    (hnc : isCustomEvent s.contractABI s.contractABI.Transfer = false)
    (blockTime : Nat) (hblock : s.BlockByNumber (toInt64 l.BlockNumber) = .ok blockTime) :
    parseLogToTransaction s l = parseTransfer s l (toInt64 blockTime) := by
  unfold parseLogToTransaction
  rw [hblock]
  cases htop : l.Topics with
  | nil => simp [htop] at hsig
  | cons sig rest =>
    simp only [htop, List.head?_cons, Option.some.injEq] at hsig
    subst hsig
    simp only [isCustomEvent, Bool.or_eq_false_iff, beq_eq_false_iff_ne, ne_eq] at hnc
    obtain ⟨⟨⟨⟨h1, h2⟩, h3⟩, h4⟩, h5⟩ := hnc
    simp only [h1, h2, h3, h4, h5, if_false, if_true]

theorem parseLogToTransaction_zero_transfer (s : BlockchainExplorerService) (l : Log)
    (hsig : l.Topics.head? = some s.contractABI.Transfer)
    (hnc : isCustomEvent s.contractABI s.contractABI.Transfer = false)
    (hzero : SetBytes l.Data = 0) : ∃ e, parseLogToTransaction s l = .err e := by
  cases hblock : s.BlockByNumber (toInt64 l.BlockNumber) with
  | error e =>
    refine ⟨e, ?_⟩
    unfold parseLogToTransaction
    rw [hblock]
  | ok blockTime =>
    rw [parseLogToTransaction_transfer s l hsig hnc blockTime hblock]
    exact parseTransfer_zero s l _ hzero

/-- A group whose selected log does not decode leaves no record under its hash. -/
theorem materialize_dropped (s : BlockchainExplorerService)
    (hperm : ∀ m, (s.mapRange m).Perm m) (logs : List Log)
    (all : List TLCTransactionItem) (h : materialize s logs = .ok all)
    (entry : String × List Log) (hentry : entry ∈ groupLogs logs) (l : Log)
    (hsel : selectLog s.contractABI entry.2 = .ok (some l))
    (hfail : ∀ tx, parseLogToTransaction s l ≠ .ok tx) :
    ∀ tx ∈ all, tx.TxHash ≠ entry.1 := by
  intro tx htx heq
  obtain ⟨e1, he1, l1, hsel1, hparse1⟩ := materialize_mem s logs all h tx htx
  have he1g : e1 ∈ groupLogs logs := (hperm _).mem_iff.1 he1
  obtain ⟨hf1, _⟩ := groupLogs_entry logs e1 he1g
  obtain ⟨hf, _⟩ := groupLogs_entry logs entry hentry
  have hl1 : l1 ∈ e1.2 := (selectLog_some _ _ _ hsel1).1
  rw [hf1] at hl1
  have hk : l1.TxHash = e1.1 := by simpa using (List.mem_filter.1 hl1).2
  have hkey : e1.1 = entry.1 := by
    rw [← hk, ← (parseLogToTransaction_ok s l1 tx hparse1).1, heq]
  have he : e1.2 = entry.2 := by rw [hf1, hf, hkey]
  rw [he, hsel] at hsel1
  simp only [Res.ok.injEq, Option.some.injEq] at hsel1
  subst hsel1
  exact hfail tx hparse1

/-! ## Position of the selected log -/

theorem findCustomEvent_first (abi : ContractABI) (pre post : List Log) (l : Log)
    (sig : String)
    (hpre : ∀ p ∈ pre, ∃ sg, p.Topics.head? = some sg ∧ isCustomEvent abi sg = false)
    (hl : l.Topics.head? = some sig) (hc : isCustomEvent abi sig = true) :
    findCustomEvent abi (pre ++ l :: post) = .ok (some l) := by
  induction pre with
  | nil =>
    cases htop : l.Topics with
    | nil => simp [htop] at hl
    | cons sg rest =>
      simp only [htop, List.head?_cons, Option.some.injEq] at hl
      subst hl
      simp only [List.nil_append, findCustomEvent, htop, hc, if_true]
  | cons p pre ih =>
    obtain ⟨sg, hsg, hnc⟩ := hpre p (by simp)
    cases htop : p.Topics with
    | nil => simp [htop] at hsg
    | cons sg1 rest =>
      simp only [htop, List.head?_cons, Option.some.injEq] at hsg
      subst hsg
      simp only [List.cons_append, findCustomEvent, htop, hnc, Bool.false_eq_true, if_false]
      exact ih (fun q hq => hpre q (by simp [hq]))

theorem findCustomEvent_split (abi : ContractABI) (ls : List Log) (l : Log)
    (h : findCustomEvent abi ls = .ok (some l)) :
    ∃ pre post, ls = pre ++ l :: post ∧
      (∀ p ∈ pre, ∃ sg, p.Topics.head? = some sg ∧ isCustomEvent abi sg = false) ∧
      ∃ sig, l.Topics.head? = some sig ∧ isCustomEvent abi sig = true := by
  induction ls with
  | nil => simp [findCustomEvent] at h
  | cons v rest ih =>
    cases htop : v.Topics with
    | nil => simp [findCustomEvent, htop] at h
    | cons sg tl =>
      simp only [findCustomEvent, htop] at h
      by_cases hc : isCustomEvent abi sg = true
      · simp only [hc, if_true, Res.ok.injEq, Option.some.injEq] at h
        subst h
        exact ⟨[], rest, rfl, by simp, sg, by simp [htop], hc⟩
      · simp only [hc, if_false] at h
        obtain ⟨pre, post, hsplit, hpre, hl⟩ := ih h
        refine ⟨v :: pre, post, by simp [hsplit], ?_, hl⟩
        intro p hp
        simp only [List.mem_cons] at hp
        rcases hp with hp | hp
        · subst hp
          exact ⟨sg, by simp [htop], by simpa using hc⟩
        · exact hpre p hp

theorem findTransferEvent_split (abi : ContractABI) (ls : List Log) (l : Log)
    (h : findTransferEvent abi ls = .ok (some l)) :
    ∃ pre post, ls = pre ++ l :: post ∧
      (∀ p ∈ pre, p.Topics.head? ≠ some abi.Transfer) ∧
      l.Topics.head? = some abi.Transfer := by
  induction ls with
  | nil => simp [findTransferEvent] at h
  | cons v rest ih =>
    cases htop : v.Topics with
    | nil => simp [findTransferEvent, htop] at h
    | cons sg tl =>
      simp only [findTransferEvent, htop] at h
      by_cases hc : sg = abi.Transfer
      · simp only [hc, if_true, Res.ok.injEq, Option.some.injEq] at h
        subst h
        exact ⟨[], rest, rfl, by simp, by simp [htop, hc]⟩
      · simp only [hc, if_false] at h
        obtain ⟨pre, post, hsplit, hpre, hl⟩ := ih h
        refine ⟨v :: pre, post, by simp [hsplit], ?_, hl⟩
        intro p hp
        simp only [List.mem_cons] at hp
        rcases hp with hp | hp
        · subst hp
          simp [htop, hc]
        · exact hpre p hp

/-- The selected log is the first custom-event log of the group, or, in a group
without custom event, the first `Transfer` log. -/
theorem selectLog_split (abi : ContractABI) (ls : List Log) (l : Log)
    (h : selectLog abi ls = .ok (some l)) :
    ∃ pre post, ls = pre ++ l :: post ∧
      (((∃ sig, l.Topics.head? = some sig ∧ isCustomEvent abi sig = true) ∧
          ∀ p ∈ pre, ∃ sg, p.Topics.head? = some sg ∧ isCustomEvent abi sg = false) ∨
        ((∀ p ∈ ls, ∃ sg, p.Topics.head? = some sg ∧ isCustomEvent abi sg = false) ∧
          l.Topics.head? = some abi.Transfer ∧
          ∀ p ∈ pre, p.Topics.head? ≠ some abi.Transfer)) := by
  unfold selectLog at h
  split at h
  · rename_i v hv
    simp only [Res.ok.injEq, Option.some.injEq] at h
    subst h
    obtain ⟨pre, post, hsplit, hpre, hl⟩ := findCustomEvent_split abi ls v hv
    exact ⟨pre, post, hsplit, Or.inl ⟨hl, hpre⟩⟩
  · rename_i hnone
    obtain ⟨pre, post, hsplit, hpre, hl⟩ := findTransferEvent_split abi ls l h
    exact ⟨pre, post, hsplit, Or.inr ⟨findCustomEvent_none abi ls hnone, hl, hpre⟩⟩
  · simp at h
  · simp at h

theorem selectLog_first (abi : ContractABI) (pre post : List Log) (l : Log) (sig : String)
    (hpre : ∀ p ∈ pre, ∃ sg, p.Topics.head? = some sg ∧ isCustomEvent abi sg = false)
    (hl : l.Topics.head? = some sig) (hc : isCustomEvent abi sig = true) :
    selectLog abi (pre ++ l :: post) = .ok (some l) := by
  unfold selectLog
  rw [findCustomEvent_first abi pre post l sig hpre hl hc]

/-! ## Lookup of one hash -/

theorem findCustomEventOfContract_eq (s : BlockchainExplorerService) (ls : List Log)
    (haddr : ∀ l ∈ ls, l.Address = s.contractAddress) :
    findCustomEventOfContract s ls = findCustomEvent s.contractABI ls := by
  induction ls with
  | nil => rfl
  | cons v rest ih =>
    have hv := haddr v (by simp)
    have ih1 := ih (fun l hl => haddr l (by simp [hl]))
    simp only [findCustomEventOfContract, findCustomEvent, hv, if_true, ih1]

theorem findTransferEventOfContract_eq (s : BlockchainExplorerService) (ls : List Log)
    (haddr : ∀ l ∈ ls, l.Address = s.contractAddress) :
    findTransferEventOfContract s ls = findTransferEvent s.contractABI ls := by
  induction ls with
  | nil => rfl
  | cons v rest ih =>
    have hv := haddr v (by simp)
    have ih1 := ih (fun l hl => haddr l (by simp [hl]))
    simp only [findTransferEventOfContract, findTransferEvent, hv, if_true, ih1]

/-- The selection of `GetTransactionByHash` on logs of the contract is
`selectLog`. -/
theorem selection_by_hash_eq (s : BlockchainExplorerService) (ls : List Log)
    (haddr : ∀ l ∈ ls, l.Address = s.contractAddress) :
    (match findCustomEventOfContract s ls with
      | .ok none => findTransferEventOfContract s ls
      | found => found) = selectLog s.contractABI ls := by
  rw [findCustomEventOfContract_eq s ls haddr, findTransferEventOfContract_eq s ls haddr]
  unfold selectLog
  cases findCustomEvent s.contractABI ls with
  | ok v => cases v <;> rfl
  | err e => rfl
  | panic e => rfl

theorem foldl_appendLog_same (h : String) (ls acc : List Log)
    (hh : ∀ l ∈ ls, l.TxHash = h) :
    ls.foldl (fun txLogs vLog => appendLog txLogs vLog.TxHash vLog) [(h, acc)] =
      [(h, acc ++ ls)] := by
  induction ls generalizing acc with
  | nil => simp
  | cons v rest ih =>
    have hv := hh v (by simp)
    simp only [List.foldl_cons, appendLog, hv, if_true]
    rw [ih (acc ++ [v]) (fun l hl => hh l (by simp [hl]))]
    simp

theorem groupLogs_same_hash (h : String) (l : Log) (ls : List Log)
    (hh : ∀ x ∈ l :: ls, x.TxHash = h) : groupLogs (l :: ls) = [(h, l :: ls)] := by
  have hl := hh l (by simp)
  unfold groupLogs
  simp only [List.foldl_cons, appendLog, hl]
  rw [foldl_appendLog_same h ls [l] (fun x hx => hh x (by simp [hx]))]
  simp

/-- The list materialized from the logs of one transaction, in terms of the
selection and the decoder. -/
theorem materialize_one_hash (s : BlockchainExplorerService)
    (hperm : ∀ m, (s.mapRange m).Perm m) (h : String) (logs : List Log)
    (hh : ∀ x ∈ logs, x.TxHash = h) :
    materialize s logs =
      (match selectLog s.contractABI logs with
       | .err e => .err e
       | .panic e => .panic e
       | .ok none => .ok []
       | .ok (some l) =>
         match parseLogToTransaction s l with
         | .ok tx => .ok [tx]
         | .err _ => .ok []
         | .panic e => .panic e) := by
  cases logs with
  | nil =>
    have hm : s.mapRange [] = [] := List.Perm.eq_nil (hperm [])
    simp [materialize, groupLogs, hm, processAll, selectLog, findCustomEvent,
      findTransferEvent]
  | cons l ls =>
    have hm : s.mapRange [(h, l :: ls)] = [(h, l :: ls)] :=
      List.perm_singleton.1 (hperm [(h, l :: ls)])
    unfold materialize
    rw [groupLogs_same_hash h l ls hh, hm]
    simp only [processAll, processTx, List.not_mem_nil, if_false]
    cases selectLog s.contractABI (l :: ls) with
    | err e => rfl
    | panic e => rfl
    | ok v =>
      cases v with
      | none => rfl
      | some sel =>
        simp only
        cases parseLogToTransaction s sel with
        | ok tx => simp
        | err e => rfl
        | panic e => rfl

theorem GetTransactionByHash_eq (s : BlockchainExplorerService) (txHash : String)
    (logs : List Log) (hreceipt : s.TransactionReceipt txHash = .ok logs)
    (haddr : ∀ l ∈ logs, l.Address = s.contractAddress) :
    GetTransactionByHash s txHash =
      (match selectLog s.contractABI logs with
       | .panic e => .panic e
       | .err e => .err e
       | .ok none => .err ("no TLC transaction found in hash " ++ txHash)
       | .ok (some l) =>
         match parseLogToTransaction s l with
         | .ok tx => .ok tx
         | .panic e => .panic e
         | .err _ => .err ("no TLC transaction found in hash " ++ txHash)) := by
  unfold GetTransactionByHash
  rw [hreceipt]
  simp only
  rw [findCustomEventOfContract_eq s logs haddr, findTransferEventOfContract_eq s logs haddr]
  unfold selectLog
  cases findCustomEvent s.contractABI logs with
  | ok v => cases v <;> rfl
  | err e => rfl
  | panic e => rfl

/-! ## Panics of the processing loop -/

theorem findCustomEvent_panic_msg (abi : ContractABI) (ls : List Log) (m : String)
    (h : findCustomEvent abi ls = .panic m) : m = "index out of range" := by
  induction ls with
  | nil => simp [findCustomEvent] at h
  | cons v rest ih =>
    unfold findCustomEvent at h
    split at h
    · simpa using h.symm
    · split at h
      · simp at h
      · exact ih h

theorem findTransferEvent_panic_msg (abi : ContractABI) (ls : List Log) (m : String)
    (h : findTransferEvent abi ls = .panic m) : m = "index out of range" := by
  induction ls with
  | nil => simp [findTransferEvent] at h
  | cons v rest ih =>
    unfold findTransferEvent at h
    split at h
    · simpa using h.symm
    · split at h
      · simp at h
      · exact ih h

theorem selectLog_panic_msg (abi : ContractABI) (ls : List Log) (m : String)
    (h : selectLog abi ls = .panic m) : m = "index out of range" := by
  unfold selectLog at h
  split at h
  · simp at h
  · exact findTransferEvent_panic_msg abi ls m h
  · simp at h
  · rename_i e he
    simp only [Res.panic.injEq] at h
    subst h
    exact findCustomEvent_panic_msg abi ls e he

theorem parseLogToTransaction_panic_msg (s : BlockchainExplorerService) (l : Log)
    (m : String) (h : parseLogToTransaction s l = .panic m) : m = "index out of range" := by
  unfold parseLogToTransaction at h
  split at h
  · simp at h
  · split at h
    · simpa using h.symm
    · simp only [parseTokensMinted, parseTokensBurned, parsePaymentProcessed,
        parseTopupRequested, parseWithdrawRequested, parseTransfer] at h
      repeat' split at h
      all_goals simp at h

theorem processTx_panic_msg (s : BlockchainExplorerService) (st : LoopState)
    (e : String × List Log) (m : String) (h : processTx s st e = .panic m) :
    m = "index out of range" := by
  unfold processTx at h
  split at h
  · simp at h
  · split at h
    · simp at h
    · rename_i m1 hm1
      simp only [Res.panic.injEq] at h
      subst h
      exact selectLog_panic_msg _ _ _ hm1
    · simp at h
    · split at h
      · simp at h
      · simp at h
      · rename_i m1 hm1
        simp only [Res.panic.injEq] at h
        subst h
        exact parseLogToTransaction_panic_msg _ _ _ hm1

/-- Whether a group makes the processing loop panic does not depend on the
state of the loop (as long as the group was not processed before). -/
theorem processTx_panic_indep (s : BlockchainExplorerService) (st st2 : LoopState)
    (e : String × List Log) (h1 : e.1 ∉ st.processedTx) (h2 : e.1 ∉ st2.processedTx)
    (m : String) : processTx s st e = .panic m ↔ processTx s st2 e = .panic m := by
  unfold processTx
  rw [if_neg h1, if_neg h2]
  cases selectLog s.contractABI e.2 with
  | err x => simp
  | panic x => simp
  | ok v =>
    cases v with
    | none => simp
    | some l =>
      simp only
      cases parseLogToTransaction s l with
      | ok tx => simp
      | err x => simp
      | panic x => simp

/-- The processing loop panics exactly when some group does, with the one
message; otherwise it runs to the end. -/
theorem processAll_cases (s : BlockchainExplorerService) (es : List (String × List Log)) :
    ∀ st : LoopState, (es.map Prod.fst).Nodup → (∀ e ∈ es, e.1 ∉ st.processedTx) →
      ((∃ e ∈ es, ∃ m, processTx s { allTransactions := [], processedTx := [] } e = .panic m) →
        processAll s st es = .panic "index out of range") ∧
      ((∀ e ∈ es, ∀ m, processTx s { allTransactions := [], processedTx := [] } e ≠ .panic m) →
        ∃ st1, processAll s st es = .ok st1) := by
  induction es with
  | nil =>
    intro st _ _
    exact ⟨fun ⟨e, he, _⟩ => absurd he (List.not_mem_nil _), fun _ => ⟨st, rfl⟩⟩
  | cons e rest ih =>
    intro st hnd hnew
    simp only [List.map_cons, List.nodup_cons] at hnd
    have hfresh : e.1 ∉ st.processedTx := hnew e (by simp)
    have hindep := processTx_panic_indep s st { allTransactions := [], processedTx := [] } e
      hfresh (List.not_mem_nil _)
    cases hstep : processTx s st e with
    | panic m =>
      have hm := processTx_panic_msg s st e m hstep
      subst hm
      refine ⟨fun _ => by simp only [processAll, hstep], fun hno => ?_⟩
      exact absurd ((hindep _).1 hstep) (hno e (by simp) _)
    | err m => exact absurd hstep (processTx_ne_err s st e m)
    | ok st1 =>
      have hnew1 : ∀ x ∈ rest, x.1 ∉ st1.processedTx := by
        intro x hx hmem
        rcases (processTx_fresh s st st1 e hfresh hstep).2 x.1 hmem with hk | hk
        · exact hnd.1 (hk ▸ List.mem_map_of_mem Prod.fst hx)
        · exact hnew x (by simp [hx]) hk
      obtain ⟨ih1, ih2⟩ := ih st1 hnd.2 hnew1
      constructor
      · rintro ⟨x, hx, m, hm⟩
        simp only [processAll, hstep]
        simp only [List.mem_cons] at hx
        rcases hx with hx | hx
        · subst hx
          rw [(hindep m).2 hm] at hstep
          exact Res.noConfusion hstep
        · exact ih1 ⟨x, hx, m, hm⟩
      · intro hno
        simp only [processAll, hstep]
        exact ih2 (fun x hx => hno x (by simp [hx]))

theorem materialize_cases (s : BlockchainExplorerService)
    (hperm : ∀ m, (s.mapRange m).Perm m) (logs : List Log) :
    ((∃ e ∈ groupLogs logs, ∃ m,
        processTx s { allTransactions := [], processedTx := [] } e = .panic m) ∧
      materialize s logs = .panic "index out of range") ∨
    ((∀ e ∈ groupLogs logs, ∀ m,
        processTx s { allTransactions := [], processedTx := [] } e ≠ .panic m) ∧
      ∃ all, materialize s logs = .ok all) := by
  have hnd : ((s.mapRange (groupLogs logs)).map Prod.fst).Nodup :=
    ((hperm _).map Prod.fst).nodup_iff.2 (groupLogs_nodup logs)
  obtain ⟨h1, h2⟩ := processAll_cases s (s.mapRange (groupLogs logs))
    { allTransactions := [], processedTx := [] } hnd (fun _ _ h => absurd h (List.not_mem_nil _))
  by_cases hp : ∃ e ∈ groupLogs logs, ∃ m,
      processTx s { allTransactions := [], processedTx := [] } e = .panic m
  · left
    refine ⟨hp, ?_⟩
    obtain ⟨e, he, m, hm⟩ := hp
    unfold materialize
    rw [h1 ⟨e, (hperm _).mem_iff.2 he, m, hm⟩]
  · right
    have hno : ∀ e ∈ groupLogs logs, ∀ m,
        processTx s { allTransactions := [], processedTx := [] } e ≠ .panic m :=
      fun e he m hm => hp ⟨e, he, m, hm⟩
    refine ⟨hno, ?_⟩
    obtain ⟨st1, hst1⟩ := h2 (fun e he m => hno e ((hperm _).mem_iff.1 he) m)
    exact ⟨st1.allTransactions, by unfold materialize; rw [hst1]⟩

/-! ## Order independence -/

theorem mem_groupLogs_iff (logs : List Log) (e : String × List Log) :
    e ∈ groupLogs logs ↔ e.2 = logs.filter (fun l => l.TxHash = e.1) ∧ e.2 ≠ [] := by
  constructor
  · exact groupLogs_entry logs e
  · rintro ⟨hf, hne⟩
    obtain ⟨l, hl⟩ := List.exists_mem_of_ne_nil _ hne
    rw [hf] at hl
    obtain ⟨hl1, hl2⟩ := List.mem_filter.1 hl
    have hk : l.TxHash = e.1 := by simpa using hl2
    have hkey := groupLogs_key logs l hl1
    obtain ⟨e1, he1, hfst⟩ := List.mem_map.1 hkey
    have h1 := (groupLogs_entry logs e1 he1).1
    have : e1 = e := by
      apply Prod.ext
      · rw [hfst, hk]
      · rw [h1, hf, hfst, hk]
    exact this ▸ he1

theorem groupLogs_entries_nodup (logs : List Log) : (groupLogs logs).Nodup :=
  List.Nodup.of_map Prod.fst (groupLogs_nodup logs)

/-- Reordering the logs without changing the order of the logs of any one hash
permutes the groups. -/
theorem groupLogs_perm_of_filter_eq (logs₁ logs₂ : List Log)
    (h : ∀ k, logs₁.filter (fun l => l.TxHash = k) = logs₂.filter (fun l => l.TxHash = k)) :
    (groupLogs logs₁).Perm (groupLogs logs₂) := by
  rw [List.perm_ext_iff_of_nodup (groupLogs_entries_nodup _) (groupLogs_entries_nodup _)]
  intro e
  rw [mem_groupLogs_iff, mem_groupLogs_iff, h e.1]

/-- Removing the logs of one hash removes its group. -/
theorem groupLogs_remove_hash (logs : List Log) (k : String) :
    (groupLogs (logs.filter (fun l => l.TxHash ≠ k))).Perm
      ((groupLogs logs).filter (fun e => e.1 ≠ k)) := by
  rw [List.perm_ext_iff_of_nodup (groupLogs_entries_nodup _)
    ((groupLogs_entries_nodup _).filter _)]
  intro e
  rw [mem_groupLogs_iff, List.mem_filter, mem_groupLogs_iff, List.filter_filter]
  by_cases hk : e.1 = k
  · constructor
    · rintro ⟨hf, hne⟩
      exfalso
      apply hne
      rw [hf, List.filter_eq_nil_iff]
      intro l _
      simp only [ne_eq, decide_not, Bool.and_eq_true, decide_eq_true_eq, Bool.not_eq_true',
        decide_eq_false_iff_not, not_and, not_not]
      intro h1
      rw [h1, hk]
    · rintro ⟨_, hne⟩
      simp [hk] at hne
  · have hfil : logs.filter (fun a => decide (a.TxHash = e.1) && decide (a.TxHash ≠ k)) =
        logs.filter (fun l => l.TxHash = e.1) := by
      apply List.filter_congr
      intro l _
      by_cases hl : l.TxHash = e.1
      · simp [hl, hk]
      · simp [hl]
    rw [hfil]
    simp [hk]

/-- A list with pairwise distinct hashes has one sorted arrangement. -/
theorem sortTransactions_congr (all₁ all₂ : List TLCTransactionItem)
    (hp : all₁.Perm all₂) (hnd : (all₁.map (fun tx => tx.TxHash)).Nodup) :
    sortTransactions all₁ = sortTransactions all₂ := by
  have hnd2 : (all₂.map (fun tx => tx.TxHash)).Nodup :=
    ((hp.map _).nodup_iff).1 hnd
  have h1 := sortTransactions_pairwise all₁ hnd
  have h2 := sortTransactions_pairwise all₂ hnd2
  have hperm : (sortTransactions all₁).Perm (sortTransactions all₂) :=
    ((sortTransactions_perm all₁).trans hp).trans (sortTransactions_perm all₂).symm
  haveI : IsAntisymm TLCTransactionItem (fun a b =>
      b.BlockNumber < a.BlockNumber ∨
        (a.BlockNumber = b.BlockNumber ∧ b.TxHash < a.TxHash)) :=
    ⟨by
      intro a b hab hba
      exfalso
      rcases hab with hab | ⟨hab1, hab2⟩
      · rcases hba with hba | ⟨hba1, _⟩
        · omega
        · omega
      · rcases hba with hba | ⟨_, hba2⟩
        · omega
        · exact lt_asymm hab2 hba2⟩
  exact List.eq_of_perm_of_sorted hperm h1 h2

theorem GetAllTransactions_of_logs (s : BlockchainExplorerService)
    (fromBlock toBlock : Option Int) (page limit : Int) (logs : List Log)
    (hlogs : s.FilterLogs (fromBlock.getD 0) toBlock = .ok logs) :
    GetAllTransactions s fromBlock toBlock page limit =
      (match materialize s logs with
       | .ok allTransactions =>
         paginate (sortTransactions allTransactions) (if page ≤ 0 then 1 else page)
           (if limit ≤ 0 then 10 else limit)
       | .err e => .err e
       | .panic e => .panic e) := by
  simp only [GetAllTransactions, hlogs]

/-- Two scans whose groups panic alike and decode to the same records, in any
order, return the same pages. -/
theorem GetAllTransactions_congr (s₁ s₂ : BlockchainExplorerService)
    (hp₁ : ∀ m, (s₁.mapRange m).Perm m) (hp₂ : ∀ m, (s₂.mapRange m).Perm m)
    (logs₁ logs₂ : List Log) (fromBlock toBlock : Option Int) (page limit : Int)
    (hl₁ : s₁.FilterLogs (fromBlock.getD 0) toBlock = .ok logs₁)
    (hl₂ : s₂.FilterLogs (fromBlock.getD 0) toBlock = .ok logs₂)
    (hpanic : (∃ e ∈ groupLogs logs₁, ∃ m,
        processTx s₁ { allTransactions := [], processedTx := [] } e = .panic m) ↔
      (∃ e ∈ groupLogs logs₂, ∃ m,
        processTx s₂ { allTransactions := [], processedTx := [] } e = .panic m))
    (hrec : ((groupLogs logs₁).filterMap (fun e => decodedRecord s₁ e.2)).Perm
      ((groupLogs logs₂).filterMap (fun e => decodedRecord s₂ e.2))) :
    GetAllTransactions s₁ fromBlock toBlock page limit =
      GetAllTransactions s₂ fromBlock toBlock page limit := by
  rw [GetAllTransactions_of_logs s₁ _ _ _ _ logs₁ hl₁,
    GetAllTransactions_of_logs s₂ _ _ _ _ logs₂ hl₂]
  rcases materialize_cases s₁ hp₁ logs₁ with ⟨hex, hm1⟩ | ⟨hno, all₁, hm1⟩
  · rcases materialize_cases s₂ hp₂ logs₂ with ⟨_, hm2⟩ | ⟨hno2, _⟩
    · rw [hm1, hm2]
    · obtain ⟨e, he, m, hm⟩ := hpanic.1 hex
      exact absurd hm (hno2 e he m)
  · rcases materialize_cases s₂ hp₂ logs₂ with ⟨hex2, _⟩ | ⟨_, all₂, hm2⟩
    · obtain ⟨e, he, m, hm⟩ := hpanic.2 hex2
      exact absurd hm (hno e he m)
    · rw [hm1, hm2]
      simp only
      have e1 := materialize_eq_filterMap s₁ hp₁ logs₁ all₁ hm1
      have e2 := materialize_eq_filterMap s₂ hp₂ logs₂ all₂ hm2
      have hperm : all₁.Perm all₂ := by
        rw [e1, e2]
        exact (((hp₁ _).filterMap _).trans hrec).trans ((hp₂ _).filterMap _).symm
      rw [sortTransactions_congr all₁ all₂ hperm (materialize_nodup s₁ hp₁ logs₁ all₁ hm1)]

/-! ## Pages as segments -/

/-- Without overflow (`page * limit < 2^63`) a page is the segment of the list
that starts at `(page - 1) * limit` and holds at most `limit` items. -/
theorem paginate_segment (all : List TLCTransactionItem) (page limit : Int)
    (hpage : 1 ≤ page) (hlimit : 1 ≤ limit) (hfit : page * limit < 2 ^ 63) :
    paginate all page limit =
      .ok { Transactions := (all.drop ((page - 1) * limit).toNat).take limit.toNat
            TotalCount := all.length, Page := page, Limit := limit } := by
  have h0 : (0 : Int) ≤ (page - 1) * limit := mul_nonneg (by omega) (by omega)
  have hpl : (page - 1) * limit + limit = page * limit := by ring
  have h1 : page - 1 ≤ (page - 1) * limit := by nlinarith
  have hw1 : wrapInt (page - 1) = page - 1 := wrapInt_of_range _ (by omega) (by omega)
  have hw2 : wrapInt ((page - 1) * limit) = (page - 1) * limit :=
    wrapInt_of_range _ (by omega) (by omega)
  have hw3 : wrapInt ((page - 1) * limit + limit) = (page - 1) * limit + limit :=
    wrapInt_of_range _ (by omega) (by omega)
  unfold paginate
  simp only [hw1, hw2, hw3]
  generalize (page - 1) * limit = st at h0 ⊢
  by_cases hs : st ≥ (all.length : Int)
  · rw [if_pos hs]
    have : all.drop st.toNat = [] := List.drop_of_length_le (by omega)
    simp [this]
  · rw [if_neg hs]
    by_cases h3 : st + limit > (all.length : Int)
    · rw [if_pos h3, if_neg (by omega)]
      have h4 : (all.drop st.toNat).length ≤ ((all.length : Int) - st).toNat := by
        simp only [List.length_drop]; omega
      have h5 : (all.drop st.toNat).length ≤ limit.toNat := by
        simp only [List.length_drop]; omega
      rw [List.take_of_length_le h4, List.take_of_length_le h5]
    · rw [if_neg h3, if_neg (by omega)]
      simp

theorem segments_concat {α : Type} (all : List α) (limit k : Nat) :
    (List.range k).flatMap (fun i => (all.drop (i * limit)).take limit) =
      all.take (k * limit) := by
  induction k with
  | zero => simp
  | succ k ih =>
    rw [List.range_succ, List.flatMap_append, ih]
    simp only [List.flatMap_cons, List.flatMap_nil, List.append_nil]
    rw [Nat.succ_mul, List.take_add]

/-- The pages `1 .. k` that cover the list, one after the other, are the list. -/
theorem pages_concat {α : Type} (all : List α) (limit k : Nat)
    (hcover : all.length ≤ k * limit) :
    (List.range k).flatMap (fun i => (all.drop (i * limit)).take limit) = all := by
  rw [segments_concat, List.take_of_length_le hcover]

theorem GetAllTransactions_defaults (s : BlockchainExplorerService)
    (fromBlock toBlock : Option Int) (page limit : Int) :
    GetAllTransactions s fromBlock toBlock page limit =
      GetAllTransactions s fromBlock toBlock (if page ≤ 0 then 1 else page)
        (if limit ≤ 0 then 10 else limit) := by
  have hp : (if (if page ≤ 0 then 1 else page) ≤ 0 then 1 else (if page ≤ 0 then 1 else page))
      = (if page ≤ 0 then 1 else page) := by
    split <;> simp_all
  have hl : (if (if limit ≤ 0 then 10 else limit) ≤ 0 then 10
      else (if limit ≤ 0 then 10 else limit)) = (if limit ≤ 0 then 10 else limit) := by
    split <;> simp_all
  simp only [GetAllTransactions, hp, hl]

/-- Without overflow `GetAllTransactions` returns the segment of the sorted
list that the page number and the limit designate. -/
theorem GetAllTransactions_page (s : BlockchainExplorerService)
    (fromBlock toBlock : Option Int) (page limit : Int) (logs : List Log)
    (all : List TLCTransactionItem)
    (hlogs : s.FilterLogs (fromBlock.getD 0) toBlock = .ok logs)
    (hall : materialize s logs = .ok all)
    (hpage : 1 ≤ page) (hlimit : 1 ≤ limit) (hfit : page * limit < 2 ^ 63) :
    GetAllTransactions s fromBlock toBlock page limit =
      .ok { Transactions :=
              ((sortTransactions all).drop ((page - 1) * limit).toNat).take limit.toNat
            TotalCount := all.length, Page := page, Limit := limit } := by
  rw [GetAllTransactions_of_logs s _ _ _ _ logs hlogs, hall]
  simp only
  rw [if_neg (by omega), if_neg (by omega), paginate_segment _ _ _ hpage hlimit hfit,
    (sortTransactions_perm all).length_eq]

/-! ## Bounds of the wait -/

/-- For a timeout that is not negative the loop polls at most
`ceil(timeoutSeconds / 2)` times. -/
theorem ticksBeforeDeadline_le (timeoutSeconds : Int) (tieToTicker : Bool)
    (h : 0 ≤ timeoutSeconds) :
    (ticksBeforeDeadline timeoutSeconds tieToTicker : Int) ≤ (timeoutSeconds + 1) / 2 := by
  have hd : timeoutDuration timeoutSeconds ≤ timeoutSeconds * 1000000000 := by
    unfold timeoutDuration wrapInt
    omega
  unfold ticksBeforeDeadline
  simp only
  generalize timeoutDuration timeoutSeconds = d at hd ⊢
  split
  · omega
  · split <;> omega

theorem WaitForReceipt_length_le (cs : ContractService) (txHash : String)
    (timeoutSeconds : Int) (h : 0 ≤ timeoutSeconds) :
    ((WaitForReceipt cs txHash timeoutSeconds).2.length : Int) ≤ (timeoutSeconds + 1) / 2 := by
  have h1 := pollReceipt_length cs txHash (ticksBeforeDeadline timeoutSeconds cs.tieToTicker) 0
  have h2 := ticksBeforeDeadline_le timeoutSeconds cs.tieToTicker h
  unfold WaitForReceipt
  omega

/-- When no poll before the deadline finds a receipt (and the log line can be
written), the wait ends with the timeout error after exactly that many polls. -/
theorem pollReceipt_timeout (cs : ContractService) (txHash : String)
    (hlen : 10 ≤ txHash.utf8ByteSize) (ticks : Nat) :
    ∀ i : Nat, (∀ j, i ≤ j → j < i + ticks → ∃ e, cs.TransactionReceipt txHash j = .error e) →
      (pollReceipt cs txHash ticks i).1 = .err "timeout waiting for transaction confirmation" ∧
      (pollReceipt cs txHash ticks i).2 =
        (List.range ticks).map (fun j => Effect.TransactionReceipt txHash (i + j)) := by
  induction ticks with
  | zero => intro i _; exact ⟨rfl, rfl⟩
  | succ n ih =>
    intro i hnone
    obtain ⟨e, he⟩ := hnone i (le_refl i) (by omega)
    obtain ⟨ih1, ih2⟩ := ih (i + 1) (fun j hj1 hj2 => hnone j (by omega) (by omega))
    simp only [pollReceipt, he, if_neg (not_lt.2 hlen)]
    refine ⟨ih1, ?_⟩
    rw [ih2, List.range_succ_eq_map]
    simp only [List.map_cons, List.map_map, Nat.add_zero, List.cons.injEq, true_and]
    apply List.map_congr_left
    intro j _
    simp only [Function.comp_apply]
    congr 1
    omega

/-- The first poll that finds a receipt decides: the polls before it found
nothing, and the wait ends there with the receipt or with the revert error. -/
theorem pollReceipt_first (cs : ContractService) (txHash : String)
    (hlen : 10 ≤ txHash.utf8ByteSize) (receipt : Receipt) (k : Nat) :
    ∀ (ticks i : Nat), k < ticks →
      (∀ j, i ≤ j → j < i + k → ∃ e, cs.TransactionReceipt txHash j = .error e) →
      cs.TransactionReceipt txHash (i + k) = .ok receipt →
      (pollReceipt cs txHash ticks i).1 =
        (if receipt.Status = ReceiptStatusFailed then
          .err "transaction reverted on blockchain" else .ok receipt) ∧
      (pollReceipt cs txHash ticks i).2 =
        (List.range (k + 1)).map (fun j => Effect.TransactionReceipt txHash (i + j)) := by
  induction k with
  | zero =>
    intro ticks i hk _ hfound
    obtain ⟨n, rfl⟩ : ∃ n, ticks = n + 1 := ⟨ticks - 1, by omega⟩
    simp only [Nat.add_zero] at hfound
    simp only [pollReceipt, hfound]
    split <;> exact ⟨rfl, rfl⟩
  | succ k ih =>
    intro ticks i hk hnone hfound
    obtain ⟨n, rfl⟩ : ∃ n, ticks = n + 1 := ⟨ticks - 1, by omega⟩
    obtain ⟨e, he⟩ := hnone i (le_refl i) (by omega)
    have hfound1 : cs.TransactionReceipt txHash (i + 1 + k) = .ok receipt := by
      have : i + 1 + k = i + (k + 1) := by omega
      rw [this]; exact hfound
    obtain ⟨ih1, ih2⟩ := ih n (i + 1) (by omega)
      (fun j hj1 hj2 => hnone j (by omega) (by omega)) hfound1
    simp only [pollReceipt, he, if_neg (not_lt.2 hlen)]
    refine ⟨ih1, ?_⟩
    rw [ih2, List.range_succ_eq_map (k + 1)]
    simp only [List.map_cons, List.map_map, Nat.add_zero, List.cons.injEq, true_and]
    apply List.map_congr_left
    intro j _
    simp only [Function.comp_apply]
    congr 1
    omega

/-! ## A chain of mints -/

theorem mintLog_txHash_injective (i j : Nat)
    (h : (mintLog i).TxHash = (mintLog j).TxHash) : i = j :=
  paymentLog_txHash_injective i j h

theorem parseLogToTransaction_mintLog (logs : List Log) (i : Nat) :
    parseLogToTransaction (demoService logs) (mintLog i) = .ok (mintItem i) := by
  have h0 : SetBytes [13, 224, 182, 179, 167, 100, 0, 0] = 1000000000000000000 := by decide
  have h1 : toString (amountTLC 1000000000000000000) = "1" := by decide
  have h2 : toString (1000000000000000000 : Int) = "1000000000000000000" := by decide
  have h3 : ((1000000000000000000 : Int) = 0) = False := eq_false (by decide)
  have e1 : ("0x06" = "0x01") = False := eq_false (by decide)
  have e2 : ("0x06" = "0x02") = False := eq_false (by decide)
  have e3 : ("0x06" = "0x03") = False := eq_false (by decide)
  have e4 : ("0x06" = "0x04") = False := eq_false (by decide)
  have e5 : ("0x06" = "0x05") = False := eq_false (by decide)
  have e6 : ¬ ([("0x06" : String), zeroAddress, "0xbb"].length < 3) := by decide
  simp only [parseLogToTransaction, demoService, mintLog, demoABI, e1, e2, e3, e4, e5, if_false,
    if_true, parseTransfer, e6, topicAddress, mintItem, h0, h1, h2, h3, List.get?_cons_succ,
    List.get?_cons_zero]

theorem selectLog_mintLog (logs : List Log) (i : Nat) :
    selectLog (demoService logs).contractABI [mintLog i] = .ok (some (mintLog i)) := by
  have h : isCustomEvent demoABI "0x06" = false := by decide
  have e : ("0x06" = demoABI.Transfer) = True := eq_true rfl
  simp only [selectLog, findCustomEvent, findTransferEvent, demoService, mintLog, h, e, if_true,
    Bool.false_eq_true, if_false]

/-- A chain of `n` mints materializes to `n` records, every one of them a mint
of one token. -/
theorem materialize_mintLogs (n : Nat) :
    ∃ all, materialize (demoService (mintLogs n)) (mintLogs n) = .ok all ∧
      all.length = n ∧ ∀ tx ∈ all, ∃ i, tx = mintItem i := by
  have hnd : ((mintLogs n).map (fun l => l.TxHash)).Nodup := by
    unfold mintLogs
    rw [List.map_map]
    refine (List.nodup_range n).map_on ?_
    intro i _ j _ h
    exact mintLog_txHash_injective i j h
  have hform : ∀ l ∈ (mintLogs n).reverse, ∃ i, l = mintLog i := by
    intro l hl
    rw [List.mem_reverse] at hl
    unfold mintLogs at hl
    obtain ⟨i, _, hi⟩ := List.mem_map.1 hl
    exact ⟨i, hi.symm⟩
  obtain ⟨st1, h1, h2⟩ := processAll_singletons (demoService (mintLogs n))
    (fun l => mintItem l.BlockNumber) (mintLogs n).reverse
    { allTransactions := [], processedTx := [] }
    (by
      intro l hl
      obtain ⟨i, rfl⟩ := hform l hl
      exact selectLog_mintLog (mintLogs n) i)
    (by
      intro l hl
      obtain ⟨i, rfl⟩ := hform l hl
      exact parseLogToTransaction_mintLog (mintLogs n) i)
    (by
      rw [List.map_reverse]
      exact List.nodup_reverse.2 hnd)
    (by intro l _ h; exact absurd h (List.not_mem_nil _))
  refine ⟨st1.allTransactions, ?_, ?_, ?_⟩
  · unfold materialize
    rw [groupLogs_of_nodup (mintLogs n) hnd]
    have : (demoService (mintLogs n)).mapRange
        ((mintLogs n).map (fun l => (l.TxHash, [l]))) =
        (mintLogs n).reverse.map (fun l => (l.TxHash, [l])) := by
      simp only [demoService, List.map_reverse]
    rw [this, h1]
  · rw [h2, List.nil_append, List.length_map, List.length_reverse]
    unfold mintLogs
    rw [List.length_map, List.length_range]
  · intro tx htx
    rw [h2] at htx
    simp only [List.nil_append, List.mem_map] at htx
    obtain ⟨l, _, rfl⟩ := htx
    exact ⟨_, rfl⟩

/-! ## Blockchain statistics -/

/-- The totals the loop of `GetBlockchainStats` accumulates: the sums of
`Amount` over the items of type `mint` and over those of type `burn`. -/
theorem foldl_statsStep_totals (l : List TLCTransactionItem) (st : StatsState) :
    (l.foldl statsStep st).totalMinted = st.totalMinted + amountsOfType "mint" l ∧
    (l.foldl statsStep st).totalBurned = st.totalBurned + amountsOfType "burn" l := by
  induction l generalizing st with
  | nil => simp [amountsOfType]
  | cons tx rest ih =>
    rw [List.foldl_cons]
    obtain ⟨h1, h2⟩ := ih (statsStep st tx)
    rw [h1, h2]
    by_cases hm : tx.Type_ = "mint"
    · have hb : tx.Type_ ≠ "burn" := by rw [hm]; decide
      simp [statsStep, amountsOfType, List.filter_cons, hm, Int.add_assoc]
    · by_cases hb : tx.Type_ = "burn"
      · simp [statsStep, amountsOfType, List.filter_cons, hm, hb, Int.add_assoc]
      · simp [statsStep, amountsOfType, List.filter_cons, hm, hb]

theorem setKey_nodup (u : List String) (k : String) (h : u.Nodup) : (setKey u k).Nodup := by
  unfold setKey
  split
  · exact h
  · rename_i hk
    rw [List.nodup_append]
    exact ⟨h, List.nodup_singleton k, by
      intro a ha hb
      rw [List.mem_singleton] at hb
      exact hk (hb ▸ ha)⟩

theorem mem_setKey (u : List String) (k a : String) : a ∈ setKey u k ↔ a ∈ u ∨ a = k := by
  unfold setKey
  split
  · rename_i hk
    constructor
    · exact Or.inl
    · rintro (h | h)
      · exact h
      · exact h ▸ hk
  · simp

/-- The keys of `uniqueAddresses` after one iteration. -/
theorem statsStep_addresses (st : StatsState) (tx : TLCTransactionItem) :
    (st.uniqueAddresses.Nodup → (statsStep st tx).uniqueAddresses.Nodup) ∧
    ∀ a, a ∈ (statsStep st tx).uniqueAddresses ↔
      a ∈ st.uniqueAddresses ∨ a ∈ distinctAddresses [tx] := by
  refine ⟨?_, ?_⟩
  · intro h
    unfold statsStep
    simp only
    split <;> split <;> first | exact h | exact setKey_nodup _ _ h |
      exact setKey_nodup _ _ (setKey_nodup _ _ h)
  · intro a
    unfold statsStep distinctAddresses
    simp only [List.flatMap_cons, List.flatMap_nil, List.append_nil, List.mem_dedup,
      List.mem_map, List.mem_filter, List.mem_cons, List.mem_singleton, List.not_mem_nil,
      or_false, decide_eq_true_eq]
    by_cases h1 : tx.FromAddress = zeroAddress <;> by_cases h2 : tx.ToAddress = zeroAddress
    · simp only [h1, h2, ne_eq, not_true_eq_false, if_false]
      constructor
      · exact Or.inl
      · rintro (h | ⟨b, ⟨hb | hb, hz⟩, _⟩)
        · exact h
        · exact absurd hb hz
        · exact absurd hb hz
    · simp only [h1, h2, ne_eq, not_true_eq_false, not_false_eq_true, if_false, if_true,
        mem_setKey]
      constructor
      · rintro (h | h)
        · exact Or.inl h
        · exact Or.inr ⟨tx.ToAddress, ⟨Or.inr rfl, h2⟩, h.symm⟩
      · rintro (h | ⟨b, ⟨hb | hb, hz⟩, rfl⟩)
        · exact Or.inl h
        · exact absurd hb hz
        · exact Or.inr (by rw [hb])
    · simp only [h1, h2, ne_eq, not_true_eq_false, not_false_eq_true, if_false, if_true,
        mem_setKey]
      constructor
      · rintro (h | h)
        · exact Or.inl h
        · exact Or.inr ⟨tx.FromAddress, ⟨Or.inl rfl, h1⟩, h.symm⟩
      · rintro (h | ⟨b, ⟨hb | hb, hz⟩, rfl⟩)
        · exact Or.inl h
        · exact Or.inr (by rw [hb])
        · exact absurd hb hz
    · simp only [h1, h2, ne_eq, not_false_eq_true, if_true, mem_setKey]
      constructor
      · rintro ((h | h) | h)
        · exact Or.inl h
        · exact Or.inr ⟨tx.FromAddress, ⟨Or.inl rfl, h1⟩, h.symm⟩
        · exact Or.inr ⟨tx.ToAddress, ⟨Or.inr rfl, h2⟩, h.symm⟩
      · rintro (h | ⟨b, ⟨hb | hb, hz⟩, rfl⟩)
        · exact Or.inl (Or.inl h)
        · exact Or.inl (Or.inr (by rw [hb]))
        · exact Or.inr (by rw [hb])

theorem mem_distinctAddresses (l : List TLCTransactionItem) (a : String) :
    a ∈ distinctAddresses l ↔ ∃ tx ∈ l, a ∈ distinctAddresses [tx] := by
  unfold distinctAddresses
  simp only [List.mem_dedup, List.mem_map, List.mem_filter, List.mem_flatMap, List.mem_cons,
    List.mem_singleton, List.not_mem_nil, or_false, exists_eq_left]
  constructor
  · rintro ⟨b, ⟨⟨tx, htx, hb⟩, hz⟩, rfl⟩
    exact ⟨tx, htx, b, ⟨hb, hz⟩, rfl⟩
  · rintro ⟨tx, htx, b, ⟨hb, hz⟩, rfl⟩
    exact ⟨b, ⟨⟨tx, htx, hb⟩, hz⟩, rfl⟩

/-- The keys of `uniqueAddresses` when the loop of `GetBlockchainStats` ends. -/
theorem foldl_statsStep_addresses (l : List TLCTransactionItem) (st : StatsState)
    (hnd : st.uniqueAddresses.Nodup) :
    (l.foldl statsStep st).uniqueAddresses.Nodup ∧
    ∀ a, a ∈ (l.foldl statsStep st).uniqueAddresses ↔
      a ∈ st.uniqueAddresses ∨ a ∈ distinctAddresses l := by
  induction l generalizing st with
  | nil =>
    refine ⟨hnd, fun a => ?_⟩
    simp [distinctAddresses]
  | cons tx rest ih =>
    rw [List.foldl_cons]
    obtain ⟨h1, h2⟩ := statsStep_addresses st tx
    obtain ⟨h3, h4⟩ := ih (statsStep st tx) (h1 hnd)
    refine ⟨h3, fun a => ?_⟩
    rw [h4, h2, mem_distinctAddresses (tx :: rest), mem_distinctAddresses rest]
    simp only [List.mem_cons, exists_eq_or_imp, or_assoc]

/-- `len(uniqueAddresses)` is the number of distinct lower-cased non-zero
addresses of the items the loop went over. -/
theorem statsAddresses_length (l : List TLCTransactionItem) :
    (l.foldl statsStep { totalMinted := 0, totalBurned := 0, uniqueAddresses := [] }
      ).uniqueAddresses.length = (distinctAddresses l).length := by
  obtain ⟨h1, h2⟩ := foldl_statsStep_addresses l
    { totalMinted := 0, totalBurned := 0, uniqueAddresses := [] } List.nodup_nil
  have h3 : (distinctAddresses l).Nodup := by
    unfold distinctAddresses
    exact List.nodup_dedup _
  apply List.Perm.length_eq
  rw [List.perm_ext_iff_of_nodup h1 h3]
  intro a
  rw [h2]
  simp

theorem amountsOfType_perm (ty : String) (l₁ l₂ : List TLCTransactionItem)
    (h : l₁.Perm l₂) : amountsOfType ty l₁ = amountsOfType ty l₂ := by
  unfold amountsOfType
  exact ((h.filter _).map _).sum_eq

theorem distinctAddresses_length_perm (l₁ l₂ : List TLCTransactionItem)
    (h : l₁.Perm l₂) : (distinctAddresses l₁).length = (distinctAddresses l₂).length := by
  apply List.Perm.length_eq
  rw [List.perm_ext_iff_of_nodup (by unfold distinctAddresses; exact List.nodup_dedup _)
    (by unfold distinctAddresses; exact List.nodup_dedup _)]
  intro a
  rw [mem_distinctAddresses, mem_distinctAddresses]
  constructor
  · rintro ⟨tx, htx, ha⟩
    exact ⟨tx, h.mem_iff.1 htx, ha⟩
  · rintro ⟨tx, htx, ha⟩
    exact ⟨tx, h.mem_iff.2 htx, ha⟩

/-- `GetBlockchainStats` once its "get all" call and the block-number call
have returned. -/
theorem GetBlockchainStats_eq (s : BlockchainExplorerService)
    (allTx : TLCTransactionHistoryResponse) (latestBlock : Nat)
    (hall : GetAllTransactions s none none 1 999999 = .ok allTx)
    (hblock : s.BlockNumber = .ok latestBlock) :
    GetBlockchainStats s =
      .ok { TotalMinted := toString (amountsOfType "mint" allTx.Transactions)
            TotalBurned := toString (amountsOfType "burn" allTx.Transactions)
            CirculatingSupply := toString (amountsOfType "mint" allTx.Transactions -
              amountsOfType "burn" allTx.Transactions)
            MaxSupply := "Unlimited"
            TotalTransactions := allTx.TotalCount
            TotalAddresses := (distinctAddresses allTx.Transactions).length
            LatestBlock := latestBlock } := by
  obtain ⟨h1, h2⟩ := foldl_statsStep_totals allTx.Transactions
    { totalMinted := 0, totalBurned := 0, uniqueAddresses := [] }
  have h3 := statsAddresses_length allTx.Transactions
  simp only [Int.zero_add] at h1 h2
  simp only [GetBlockchainStats, hall, hblock, h1, h2, h3]

/-- The "get all" call of the statistics: the first 999999 items of the sorted
list, and the length of the whole list as `TotalCount`. -/
theorem GetAllTransactions_get_all (s : BlockchainExplorerService) (logs : List Log)
    (all : List TLCTransactionItem)
    (hlogs : s.FilterLogs 0 none = .ok logs) (hmat : materialize s logs = .ok all) :
    GetAllTransactions s none none 1 999999 =
      .ok { Transactions := (sortTransactions all).take 999999
            TotalCount := all.length, Page := 1, Limit := 999999 } := by
  have hlogs1 : s.FilterLogs ((none : Option Int).getD 0) none = .ok logs := hlogs
  simp only [GetAllTransactions, hlogs1, hmat]
  rw [if_neg (by decide), if_neg (by decide), paginate_get_all,
    (sortTransactions_perm all).length_eq]

/-- What a successful `GetBlockchainStats` call returns: the totals and the
address count of the first 999999 items of the sorted list, and the length of
the whole list as `TotalTransactions`. -/
theorem GetBlockchainStats_ok (s : BlockchainExplorerService) (r : BlockchainStatsResponse)
    (h : GetBlockchainStats s = .ok r) :
    ∃ logs all latestBlock, s.FilterLogs 0 none = .ok logs ∧ materialize s logs = .ok all ∧
      s.BlockNumber = .ok latestBlock ∧
      r = { TotalMinted := toString (amountsOfType "mint" ((sortTransactions all).take 999999))
            TotalBurned := toString (amountsOfType "burn" ((sortTransactions all).take 999999))
            CirculatingSupply := toString
              (amountsOfType "mint" ((sortTransactions all).take 999999) -
                amountsOfType "burn" ((sortTransactions all).take 999999))
            MaxSupply := "Unlimited"
            TotalTransactions := all.length
            TotalAddresses := (distinctAddresses ((sortTransactions all).take 999999)).length
            LatestBlock := latestBlock } := by
  cases hall : GetAllTransactions s none none 1 999999 with
  | err e => simp [GetBlockchainStats, hall] at h
  | panic e => simp [GetBlockchainStats, hall] at h
  | ok allTx =>
    cases hblock : s.BlockNumber with
    | error e => simp [GetBlockchainStats, hall, hblock] at h
    | ok latestBlock =>
      obtain ⟨logs, all, hlogs, hmat, _⟩ := GetAllTransactions_ok s none none 1 999999 allTx hall
      have hlogs0 : s.FilterLogs 0 none = .ok logs := hlogs
      have h1 := GetAllTransactions_get_all s logs all hlogs0 hmat
      rw [hall] at h1
      have h2 : allTx = _ := Res.ok.inj h1
      rw [GetBlockchainStats_eq s allTx latestBlock hall hblock] at h
      have h3 := Res.ok.inj h
      subst h2
      exact ⟨logs, all, latestBlock, hlogs0, hmat, rfl, h3.symm⟩

/-- With at most 999999 records the statistics are those of the whole list. -/
theorem GetBlockchainStats_uncapped (s : BlockchainExplorerService)
    (r : BlockchainStatsResponse) (h : GetBlockchainStats s = .ok r) :
    ∃ logs all latestBlock, s.FilterLogs 0 none = .ok logs ∧ materialize s logs = .ok all ∧
      s.BlockNumber = .ok latestBlock ∧
      (all.length ≤ 999999 →
        r = { TotalMinted := toString (amountsOfType "mint" all)
              TotalBurned := toString (amountsOfType "burn" all)
              CirculatingSupply := toString
                (amountsOfType "mint" all - amountsOfType "burn" all)
              MaxSupply := "Unlimited"
              TotalTransactions := all.length
              TotalAddresses := (distinctAddresses all).length
              LatestBlock := latestBlock }) := by
  obtain ⟨logs, all, latestBlock, h1, h2, h3, h4⟩ := GetBlockchainStats_ok s r h
  refine ⟨logs, all, latestBlock, h1, h2, h3, fun hlen => ?_⟩
  have htake : (sortTransactions all).take 999999 = sortTransactions all :=
    List.take_of_length_le (by rw [(sortTransactions_perm all).length_eq]; exact hlen)
  rw [htake] at h4
  rw [amountsOfType_perm "mint" _ _ (sortTransactions_perm all),
    amountsOfType_perm "burn" _ _ (sortTransactions_perm all),
    distinctAddresses_length_perm _ _ (sortTransactions_perm all)] at h4
  exact h4

/-! ## Statistics of a chain of mints -/

theorem amountsOfType_mintItems (l : List TLCTransactionItem)
    (h : ∀ tx ∈ l, ∃ i, tx = mintItem i) :
    amountsOfType "mint" l = l.length ∧ amountsOfType "burn" l = 0 ∧
      amountsOfType "topup" l = 0 := by
  induction l with
  | nil => simp [amountsOfType]
  | cons tx rest ih =>
    obtain ⟨i, rfl⟩ := h tx (by simp)
    obtain ⟨h1, h2, h3⟩ := ih (fun tx htx => h tx (by simp [htx]))
    have e1 : SetString "1" = 1 := by decide
    have e2 : ¬ ("mint" = "burn") := by decide
    have e3 : ¬ ("mint" = "topup") := by decide
    unfold amountsOfType at h1 h2 h3 ⊢
    refine ⟨?_, ?_, ?_⟩
    · simp only [List.filter_cons, mintItem, decide_True, if_true, List.map_cons, List.sum_cons,
        h1, e1, List.length_cons]
      push_cast
      omega
    · simp only [List.filter_cons, mintItem, e2, decide_False, Bool.false_eq_true, if_false, h2]
    · simp only [List.filter_cons, mintItem, e3, decide_False, Bool.false_eq_true, if_false, h3]

/-- The loop of the handler leaves its counters alone on records of type
`mint`. -/
theorem foldl_handlerStatsStep_mintItems (l : List TLCTransactionItem)
    (h : ∀ tx ∈ l, ∃ i, tx = mintItem i) (st : HandlerStatsState) :
    l.foldl handlerStatsStep st = st := by
  induction l generalizing st with
  | nil => rfl
  | cons tx rest ih =>
    obtain ⟨i, rfl⟩ := h tx (by simp)
    have e1 : ¬ ("mint" = "transfer") := by decide
    have e2 : ¬ ("mint" = "topup") := by decide
    have e3 : ¬ ("mint" = "withdraw") := by decide
    have hstep : handlerStatsStep st (mintItem i) = st := by
      simp only [handlerStatsStep, mintItem, e1, e2, e3, if_false]
    rw [List.foldl_cons, hstep]
    exact ih (fun tx htx => h tx (by simp [htx])) st

/-- On a chain of `n ≥ 999999` mints of one token each, all `n` materialized
records are mints, the service reports 999999 minted tokens in `n`
transactions, and the handler reports none. -/
theorem GetBlockchainStats_mintLogs (n : Nat) (hn : 999999 ≤ n) :
    ∃ all r, materialize (demoService (mintLogs n)) (mintLogs n) = .ok all ∧
      all.length = n ∧ (∀ tx ∈ all, tx.Type_ = "mint" ∧ tx.Amount = "1") ∧
      amountsOfType "mint" all = n ∧
      GetBlockchainStats (demoService (mintLogs n)) = .ok r ∧
      r.TotalMinted = "999999" ∧ r.CirculatingSupply = "999999" ∧ r.TotalTransactions = n ∧
      BlockchainExplorerHandler.GetBlockchainStats (demoService (mintLogs n)) =
        .Success "Blockchain statistics retrieved"
          { total_transactions := n, transfers := 0, topups := 0, withdrawals := 0, mints := 0,
            burns := 0, total_minted := "0", total_burned := "0", circulating_supply := "0" } := by
  obtain ⟨all, hmat, hlen, hform⟩ := materialize_mintLogs n
  have hall := GetAllTransactions_get_all (demoService (mintLogs n)) (mintLogs n) all rfl hmat
  have htake : ∀ tx ∈ (sortTransactions all).take 999999, ∃ i, tx = mintItem i :=
    fun tx htx => hform tx ((sortTransactions_perm all).mem_iff.1 (List.mem_of_mem_take htx))
  obtain ⟨h1, h2, _⟩ := amountsOfType_mintItems _ htake
  have hlen1 : ((sortTransactions all).take 999999).length = 999999 := by
    rw [List.length_take, (sortTransactions_perm all).length_eq, hlen]
    exact Nat.min_eq_left hn
  rw [hlen1] at h1
  have hstats := GetBlockchainStats_eq (demoService (mintLogs n)) _ 0 hall rfl
  simp only [h1, h2] at hstats
  refine ⟨all, _, hmat, hlen, ?_, ?_, hstats, ?_, ?_, ?_, ?_⟩
  · intro tx htx
    obtain ⟨i, rfl⟩ := hform tx htx
    exact ⟨rfl, rfl⟩
  · rw [(amountsOfType_mintItems all hform).1, hlen]
  · show toString (((999999 : Nat) : Int)) = "999999"
    decide
  · show toString (((999999 : Nat) : Int) - 0) = "999999"
    decide
  · simp only [hlen]
  · simp only [BlockchainExplorerHandler.GetBlockchainStats, hall,
      foldl_handlerStatsStep_mintItems _ htake, hlen]
    rfl

/-! ## Canonical decimal strings -/

theorem digitChar_of_isDigit (c : Char) (h : c.isDigit = true) :
    c.toNat - 48 < 10 ∧ Nat.digitChar (c.toNat - 48) = c := by
  have h1 : 48 ≤ c.toNat ∧ c.toNat ≤ 57 := by
    simp only [Char.isDigit, Bool.and_eq_true, decide_eq_true_eq] at h
    exact h
  have h2 : c = Char.ofNat c.toNat := (Char.ofNat_toNat c).symm
  generalize c.toNat = n at h1 h2
  obtain ⟨ha, hb⟩ := h1
  subst h2
  interval_cases n <;> decide

theorem scanDigits_append (ds rest : List Char) (acc : Nat)
    (h : ∀ c ∈ ds, c.isDigit = true) :
    scanDigits (ds ++ rest) acc = scanDigits rest (scanDigits ds acc) := by
  induction ds generalizing acc with
  | nil => rfl
  | cons c cs ih =>
    have hc := h c (by simp)
    simp only [List.cons_append, scanDigits, hc, if_true]
    exact ih _ (fun d hd => h d (by simp [hd]))

theorem scanDigits_acc (ds : List Char) (acc : Nat) (h : ∀ c ∈ ds, c.isDigit = true) :
    scanDigits ds acc = acc * 10 ^ ds.length + scanDigits ds 0 := by
  induction ds generalizing acc with
  | nil => simp [scanDigits]
  | cons c cs ih =>
    have hc := h c (by simp)
    have hcs : ∀ d ∈ cs, d.isDigit = true := fun d hd => h d (by simp [hd])
    simp only [scanDigits, hc, if_true, List.length_cons]
    rw [ih _ hcs, ih (0 * 10 + (c.toNat - 48)) hcs]
    ring

theorem scanDigits_lt (ds : List Char) (h : ∀ c ∈ ds, c.isDigit = true) :
    scanDigits ds 0 < 10 ^ ds.length := by
  induction ds with
  | nil => simp [scanDigits]
  | cons c cs ih =>
    have hc := h c (by simp)
    have hcs : ∀ d ∈ cs, d.isDigit = true := fun d hd => h d (by simp [hd])
    have h1 := (digitChar_of_isDigit c hc).1
    have h2 := ih hcs
    simp only [scanDigits, hc, if_true, List.length_cons]
    rw [scanDigits_acc _ _ hcs]
    have h3 : 10 ^ (cs.length + 1) = 10 * 10 ^ cs.length := by ring
    rw [h3]
    nlinarith

theorem scanDigits_zeros (k acc : Nat) :
    scanDigits (List.replicate k '0') acc = acc * 10 ^ k := by
  induction k generalizing acc with
  | zero => simp [scanDigits]
  | succ k ih =>
    have h0 : ('0' : Char).isDigit = true := by decide
    have h1 : ('0' : Char).toNat - 48 = 0 := by decide
    simp only [List.replicate_succ, scanDigits, h0, if_true, h1, Nat.add_zero]
    rw [ih]
    ring

theorem scanDigits_pos (c : Char) (cs : List Char) (h : ∀ d ∈ c :: cs, d.isDigit = true)
    (h0 : c ≠ '0') : 0 < scanDigits (c :: cs) 0 := by
  have hc := h c (by simp)
  have hcs : ∀ d ∈ cs, d.isDigit = true := fun d hd => h d (by simp [hd])
  obtain ⟨h1, h2⟩ := digitChar_of_isDigit c hc
  have h3 : c.toNat - 48 ≠ 0 := by
    intro hz
    rw [hz] at h2
    exact h0 h2.symm
  simp only [scanDigits, hc, if_true]
  rw [scanDigits_acc _ _ hcs]
  have : 0 < (0 * 10 + (c.toNat - 48)) * 10 ^ cs.length :=
    Nat.mul_pos (by omega) (by positivity)
  omega

theorem toDigitsCore_append (fuel n : Nat) (ds : List Char) :
    Nat.toDigitsCore 10 fuel n ds = Nat.toDigitsCore 10 fuel n [] ++ ds := by
  induction fuel generalizing n ds with
  | zero => simp [Nat.toDigitsCore]
  | succ fuel ih =>
    simp only [Nat.toDigitsCore]
    split
    · simp
    · rw [ih (n / 10) (_ :: ds), ih (n / 10) [_]]
      simp

theorem toDigitsCore_fuel (fuel₁ fuel₂ n : Nat) (ds : List Char) (h₁ : n < fuel₁)
    (h₂ : n < fuel₂) : Nat.toDigitsCore 10 fuel₁ n ds = Nat.toDigitsCore 10 fuel₂ n ds := by
  induction fuel₁ generalizing fuel₂ n ds with
  | zero => omega
  | succ fuel₁ ih =>
    cases fuel₂ with
    | zero => omega
    | succ fuel₂ =>
      simp only [Nat.toDigitsCore]
      split
      · rfl
      · exact ih fuel₂ (n / 10) _ (by omega) (by omega)

/-- `Nat.repr` writes the last digit after the digits of the tenth. -/
theorem repr_step (n : Nat) (h : 10 ≤ n) :
    (Nat.repr n).data = (Nat.repr (n / 10)).data ++ [Nat.digitChar (n % 10)] := by
  simp only [Nat.repr, Nat.toDigits, List.asString]
  have h1 : Nat.toDigitsCore 10 (n + 1) n [] =
      Nat.toDigitsCore 10 n (n / 10) [Nat.digitChar (n % 10)] := by
    simp only [Nat.toDigitsCore]
    rw [if_neg (by omega)]
  rw [h1, toDigitsCore_append, toDigitsCore_fuel n (n / 10 + 1) (n / 10) [] (by omega) (by omega)]

theorem repr_digit (n : Nat) (h : n < 10) : (Nat.repr n).data = [Nat.digitChar n] := by
  simp only [Nat.repr, Nat.toDigits, List.asString, Nat.toDigitsCore]
  rw [if_pos (by omega), Nat.mod_eq_of_lt h]

/-- A list of digits without a leading zero is what `Nat.repr` writes for its
value. -/
theorem digits_eq_repr (ds : List Char) (hd : ∀ c ∈ ds, c.isDigit = true) (hne : ds ≠ [])
    (hlead : ds.head? ≠ some '0' ∨ ds.length = 1) :
    ds = (Nat.repr (scanDigits ds 0)).data := by
  induction ds using List.reverseRecOn with
  | nil => exact absurd rfl hne
  | append_singleton init c ih =>
    have hc : c.isDigit = true := hd c (by simp)
    have hinit : ∀ d ∈ init, d.isDigit = true := fun d h => hd d (by simp [h])
    obtain ⟨hc1, hc2⟩ := digitChar_of_isDigit c hc
    have hval : scanDigits (init ++ [c]) 0 = scanDigits init 0 * 10 + (c.toNat - 48) := by
      rw [scanDigits_append _ _ _ hinit]
      simp only [scanDigits, hc, if_true]
    cases init with
    | nil =>
      rw [hval]
      simp only [scanDigits, Nat.zero_mul, Nat.zero_add, List.nil_append]
      rw [repr_digit _ hc1, hc2]
    | cons a as =>
      have hlead1 : a ≠ '0' := by
        rcases hlead with h | h
        · simpa using h
        · simp at h
      have hpos := scanDigits_pos a as hinit hlead1
      have ih1 := ih hinit (by simp) (Or.inl (by simpa using hlead1))
      rw [hval, repr_step _ (by omega)]
      have e1 : (scanDigits (a :: as) 0 * 10 + (c.toNat - 48)) / 10 = scanDigits (a :: as) 0 := by
        omega
      have e2 : (scanDigits (a :: as) 0 * 10 + (c.toNat - 48)) % 10 = c.toNat - 48 := by
        omega
      rw [e1, e2, hc2, ← ih1]

theorem isCanonicalDecimal_iff (s : String) :
    isCanonicalDecimal s = true ↔
      s.data ≠ [] ∧ (∀ c ∈ s.data, c.isDigit = true) ∧
        (s.data.head? ≠ some '0' ∨ s.data.length = 1) := by
  unfold isCanonicalDecimal
  simp only [Bool.and_eq_true, Bool.not_eq_true', List.isEmpty_eq_false, List.all_eq_true,
    Bool.or_eq_true, bne_iff_ne, ne_eq, beq_iff_eq, and_assoc]

theorem SetString_digits (s : String) (h : isCanonicalDecimal s = true) :
    SetString s = ((scanDigits s.data 0 : Nat) : Int) := by
  obtain ⟨h1, h2, _⟩ := (isCanonicalDecimal_iff s).1 h
  unfold SetString
  cases hs : s.data with
  | nil => exact absurd hs h1
  | cons c cs =>
    have hc : c.isDigit = true := h2 c (by simp [hs])
    have e1 : c ≠ '-' := by
      intro h; subst h; exact absurd hc (by decide)
    have e2 : c ≠ '+' := by
      intro h; subst h; exact absurd hc (by decide)
    simp only [e1, e2, if_false]

/-- A canonical decimal string is the `String()` of the `big.Int` that
`SetString` reads from it. -/
theorem canonical_eq_toString (s : String) (h : isCanonicalDecimal s = true) :
    s = toString (SetString s) := by
  obtain ⟨h1, h2, h3⟩ := (isCanonicalDecimal_iff s).1 h
  rw [SetString_digits s h]
  have h4 := digits_eq_repr s.data h2 h1 h3
  show s = Nat.repr (scanDigits s.data 0)
  exact String.ext h4

theorem canonical_nonneg (s : String) (h : isCanonicalDecimal s = true) : 0 ≤ SetString s := by
  rw [SetString_digits s h]
  exact Int.ofNat_nonneg _

/-! ## String conversions of `BlockchainService` -/

theorem utf8EncodeChar_digit (c : Char) (h : c.isDigit = true) :
    String.utf8EncodeChar c = [c.toNat.toUInt8] := by
  obtain ⟨h1, h2⟩ := digitChar_of_isDigit c h
  obtain ⟨k, hk, rfl⟩ : ∃ k, k < 10 ∧ c = Nat.digitChar k := ⟨_, h1, h2.symm⟩
  interval_cases k <;> decide

/-- A string of decimal digits takes one byte per character. -/
theorem goBytes_digits (l : List Char) (h : ∀ c ∈ l, c.isDigit = true) :
    goBytes (String.mk l) = l.map (fun c => c.toNat.toUInt8) := by
  induction l with
  | nil => rfl
  | cons c cs ih =>
    have hc := utf8EncodeChar_digit c (h c (by simp))
    have ih1 := ih (fun d hd => h d (by simp [hd]))
    unfold goBytes at ih1 ⊢
    simp only [List.flatMap_cons, hc, List.map_cons, List.singleton_append] at ih1 ⊢
    rw [ih1]

theorem goBytes_append (a b : String) : goBytes (a ++ b) = goBytes a ++ goBytes b := by
  unfold goBytes
  rw [String.data_append, List.flatMap_append]

theorem ConvertToWei_goBytes (s : String) :
    ConvertToWei (goBytes s) = goBytes (s ++ "000000000000000000") := by
  unfold ConvertToWei
  rw [goBytes_append]

theorem goBytes_zeros : (goBytes "000000000000000000").length = 18 := by decide

/-- Taking the appended zeros off again gives the bytes back, for any string
that is not empty. -/
theorem ConvertFromWei_ConvertToWei (amount : List UInt8) (h : amount ≠ []) :
    ConvertFromWei (ConvertToWei amount) = amount := by
  have hlen : (ConvertToWei amount).length = amount.length + 18 := by
    unfold ConvertToWei
    rw [List.length_append, goBytes_zeros]
  have hpos : 0 < amount.length := List.length_pos_of_ne_nil h
  unfold ConvertFromWei
  rw [if_neg (by omega), hlen, Nat.add_sub_cancel]
  unfold ConvertToWei
  rw [List.take_left]

/-- On a string of decimal digits `ConvertFromWei` cuts the last eighteen
characters off, and answers "0" when there are no more than eighteen. -/
theorem ConvertFromWei_digits (l : List Char) (h : ∀ c ∈ l, c.isDigit = true) :
    ConvertFromWei (goBytes (String.mk l)) =
      goBytes (if l.length ≤ 18 then "0" else String.mk (l.take (l.length - 18))) := by
  have hlen : (goBytes (String.mk l)).length = l.length := by
    rw [goBytes_digits l h, List.length_map]
  unfold ConvertFromWei
  rw [hlen]
  by_cases hle : l.length ≤ 18
  · rw [if_pos hle, if_pos hle]
  · rw [if_neg hle, if_neg hle, goBytes_digits l h,
      goBytes_digits _ (fun c hc => h c (List.mem_of_mem_take hc)), List.map_take]

/-- The last eighteen characters cut off a canonical decimal string leave the
`String()` of the big-integer quotient by 10^18. -/
theorem cut_canonical (s : String) (h : isCanonicalDecimal s = true) :
    (if s.data.length ≤ 18 then "0" else String.mk (s.data.take (s.data.length - 18))) =
      toString (amountTLC (SetString s)) := by
  obtain ⟨h1, h2, h3⟩ := (isCanonicalDecimal_iff s).1 h
  rw [SetString_digits s h]
  unfold amountTLC divisor
  by_cases hle : s.data.length ≤ 18
  · rw [if_pos hle]
    have hlt := scanDigits_lt s.data h2
    have hpow : 10 ^ s.data.length ≤ 10 ^ 18 := Nat.pow_le_pow_right (by decide) hle
    have hz : ((scanDigits s.data 0 : Nat) : Int) / 10 ^ 18 = 0 := by
      apply Int.ediv_eq_zero_of_lt (Int.ofNat_nonneg _)
      have : scanDigits s.data 0 < 10 ^ 18 := lt_of_lt_of_le hlt hpow
      exact_mod_cast this
    rw [hz]
    rfl
  · rw [if_neg hle]
    have hsplit : s.data = s.data.take (s.data.length - 18) ++ s.data.drop (s.data.length - 18) :=
      (List.take_append_drop _ _).symm
    have htake : ∀ c ∈ s.data.take (s.data.length - 18), c.isDigit = true :=
      fun c hc => h2 c (List.mem_of_mem_take hc)
    have hdrop : ∀ c ∈ s.data.drop (s.data.length - 18), c.isDigit = true :=
      fun c hc => h2 c (List.mem_of_mem_drop hc)
    have hdroplen : (s.data.drop (s.data.length - 18)).length = 18 := by
      rw [List.length_drop]
      omega
    have hval : scanDigits s.data 0 =
        scanDigits (s.data.take (s.data.length - 18)) 0 * 10 ^ 18 +
          scanDigits (s.data.drop (s.data.length - 18)) 0 := by
      conv_lhs => rw [hsplit]
      rw [scanDigits_append _ _ _ htake, scanDigits_acc _ _ hdrop, hdroplen]
    have hlt := scanDigits_lt _ hdrop
    rw [hdroplen] at hlt
    have hdiv : ((scanDigits s.data 0 : Nat) : Int) / 10 ^ 18 =
        ((scanDigits (s.data.take (s.data.length - 18)) 0 : Nat) : Int) := by
      have : scanDigits s.data 0 / 10 ^ 18 =
          scanDigits (s.data.take (s.data.length - 18)) 0 := by
        rw [hval]
        generalize scanDigits (s.data.take (s.data.length - 18)) 0 = a at *
        generalize scanDigits (s.data.drop (s.data.length - 18)) 0 = b at *
        have h18 : (10 : Nat) ^ 18 = 1000000000000000000 := by norm_num
        rw [h18] at hlt ⊢
        omega
      exact_mod_cast this
    rw [hdiv]
    have htakene : s.data.take (s.data.length - 18) ≠ [] := by
      intro h0
      have := congrArg List.length h0
      rw [List.length_take] at this
      simp only [List.length_nil] at this
      omega
    have hlead : (s.data.take (s.data.length - 18)).head? ≠ some '0' ∨
        (s.data.take (s.data.length - 18)).length = 1 := by
      rcases h3 with h3 | h3
      · left
        cases hs : s.data with
        | nil => exact absurd hs h1
        | cons c cs =>
          have hk : (c :: cs).length - 18 = ((c :: cs).length - 18 - 1) + 1 := by
            rw [hs] at hle
            omega
          rw [hs] at h3
          rw [hk, List.take_succ_cons]
          simpa using h3
      · omega
    have hrepr := digits_eq_repr _ htake htakene hlead
    show String.mk (s.data.take (s.data.length - 18)) =
      Nat.repr (scanDigits (s.data.take (s.data.length - 18)) 0)
    exact String.ext hrepr

/-- On a canonical decimal string `ConvertFromWei` is the big-integer division
by 10^18. -/
theorem ConvertFromWei_canonical (s : String) (h : isCanonicalDecimal s = true) :
    ConvertFromWei (goBytes s) = goBytes (toString (amountTLC (SetString s))) := by
  obtain ⟨_, h2, _⟩ := (isCanonicalDecimal_iff s).1 h
  have h1 := ConvertFromWei_digits s.data h2
  rw [cut_canonical s h] at h1
  exact h1

/-- The string with eighteen zeros appended reads as the big-integer product
by 10^18. -/
theorem SetString_appended_zeros (s : String) (h : isCanonicalDecimal s = true) :
    SetStringOk (s ++ "000000000000000000") = true ∧
    SetString (s ++ "000000000000000000") = amountWei (SetString s) := by
  obtain ⟨h1, h2, h3⟩ := (isCanonicalDecimal_iff s).1 h
  have hdata : (s ++ "000000000000000000").data = s.data ++ List.replicate 18 '0' := by
    rw [String.data_append]
    rfl
  have hd : ∀ c ∈ s.data ++ List.replicate 18 '0', c.isDigit = true := by
    intro c hc
    rw [List.mem_append] at hc
    rcases hc with hc | hc
    · exact h2 c hc
    · rw [List.eq_of_mem_replicate hc]
      rfl
  rw [SetString_digits s h]
  cases hs : s.data with
  | nil => exact absurd hs h1
  | cons c cs =>
    have hc : c.isDigit = true := h2 c (by simp [hs])
    have e1 : c ≠ '-' := by
      intro h; subst h; exact absurd hc (by decide)
    have e2 : c ≠ '+' := by
      intro h; subst h; exact absurd hc (by decide)
    rw [hs] at hd
    constructor
    · unfold SetStringOk
      rw [hdata, hs]
      simp only [List.cons_append, e1, e2, or_self, if_false, List.isEmpty_cons, Bool.not_false,
        Bool.true_and, List.all_eq_true]
      exact hd
    · unfold SetString
      rw [hdata, hs]
      simp only [List.cons_append, e1, e2, if_false]
      rw [← List.cons_append, scanDigits_append _ _ _ (hs ▸ h2), scanDigits_zeros]
      unfold amountWei multiplier
      push_cast
      rfl

/-- On a canonical decimal string other than "0" `ConvertToWei` is the
big-integer multiplication by 10^18. -/
theorem ConvertToWei_canonical (s : String) (h : isCanonicalDecimal s = true)
    (h0 : s ≠ "0") : ConvertToWei (goBytes s) = goBytes (toString (amountWei (SetString s))) := by
  obtain ⟨h1, h2, h3⟩ := (isCanonicalDecimal_iff s).1 h
  have hcan : isCanonicalDecimal (s ++ "000000000000000000") = true := by
    rw [isCanonicalDecimal_iff]
    have hdata : (s ++ "000000000000000000").data = s.data ++ List.replicate 18 '0' := by
      rw [String.data_append]
      rfl
    rw [hdata]
    refine ⟨by simp, ?_, ?_⟩
    · intro c hc
      rw [List.mem_append] at hc
      rcases hc with hc | hc
      · exact h2 c hc
      · rw [List.eq_of_mem_replicate hc]
        rfl
    · left
      cases hs : s.data with
      | nil => exact absurd hs h1
      | cons c cs =>
        rw [hs] at h3
        simp only [List.cons_append, List.head?_cons, ne_eq, Option.some.injEq]
        intro hc
        subst hc
        rcases h3 with h3 | h3
        · simp at h3
        · simp only [List.length_cons, Nat.add_left_eq_self, List.length_eq_zero] at h3
          subst h3
          exact h0 (String.ext hs)
  have h4 := canonical_eq_toString _ hcan
  rw [(SetString_appended_zeros s h).2] at h4
  rw [ConvertToWei_goBytes, ← h4]

/-! ## The amount a decoder reads -/

/-- Each of the five event decoders succeeds whenever the ABI decoder unpacks
the log data, and renders the unpacked amount and its quotient by `10^18`. -/
theorem eventDecoders_total (s : BlockchainExplorerService)
    (p : (Log → Int → Res TLCTransactionItem) × String)
    (hp : p ∈ [(parseTokensMinted s, "TokensMinted"), (parseTokensBurned s, "TokensBurned"),
      (parsePaymentProcessed s, "PaymentProcessed"), (parseTopupRequested s, "TopupRequested"),
      (parseWithdrawRequested s, "WithdrawRequested")])
    (l : Log) (timestamp : Int) (ev : UnpackedEvent)
    (hu : s.UnpackIntoInterface p.2 l.Data = .ok ev) :
    ∃ tx, p.1 l timestamp = .ok tx ∧ tx.AmountWei = toString (ev.Amount : Int) ∧
      tx.Amount = toString ((ev.Amount : Int) / 10 ^ 18) := by
  simp only [List.mem_cons, List.mem_singleton, List.mem_nil_iff, or_false] at hp
  rcases hp with rfl | rfl | rfl | rfl | rfl
  · simp only at hu
    simp only [parseTokensMinted, hu]
    exact ⟨_, rfl, rfl, rfl⟩
  · simp only at hu
    simp only [parseTokensBurned, hu]
    exact ⟨_, rfl, rfl, rfl⟩
  · simp only at hu
    simp only [parsePaymentProcessed, hu]
    exact ⟨_, rfl, rfl, rfl⟩
  · simp only at hu
    simp only [parseTopupRequested, hu]
    exact ⟨_, rfl, rfl, rfl⟩
  · simp only at hu
    simp only [parseWithdrawRequested, hu]
    exact ⟨_, rfl, rfl, rfl⟩

/-- A record one of the five event decoders returns carries the amount the ABI
decoder unpacked from the log data. -/
theorem eventDecoders_ok (s : BlockchainExplorerService)
    (p : (Log → Int → Res TLCTransactionItem) × String)
    (hp : p ∈ [(parseTokensMinted s, "TokensMinted"), (parseTokensBurned s, "TokensBurned"),
      (parsePaymentProcessed s, "PaymentProcessed"), (parseTopupRequested s, "TopupRequested"),
      (parseWithdrawRequested s, "WithdrawRequested")])
    (l : Log) (timestamp : Int) (tx : TLCTransactionItem) (h : p.1 l timestamp = .ok tx) :
    ∃ ev, s.UnpackIntoInterface p.2 l.Data = .ok ev ∧
      tx.AmountWei = toString (ev.Amount : Int) ∧ tx.Amount = toString (amountTLC ev.Amount) := by
  simp only [List.mem_cons, List.mem_singleton, List.mem_nil_iff, or_false] at hp
  rcases hp with rfl | rfl | rfl | rfl | rfl
  all_goals
    simp only [parseTokensMinted, parseTokensBurned, parsePaymentProcessed, parseTopupRequested,
      parseWithdrawRequested] at h ⊢
    cases hu : s.UnpackIntoInterface _ l.Data with
    | error e => simp [hu] at h
    | ok ev =>
      simp only [hu, Res.ok.injEq] at h
      subst h
      exact ⟨ev, rfl, rfl, rfl⟩

/-- A `Transfer` log with three topics and a non-zero value decodes to a record
that renders the big-endian value of the log data. -/
theorem parseTransfer_total (s : BlockchainExplorerService) (l : Log) (timestamp : Int)
    (htopics : 3 ≤ l.Topics.length) (hnz : SetBytes l.Data ≠ 0) :
    ∃ tx, parseTransfer s l timestamp = .ok tx ∧ tx.AmountWei = toString (SetBytes l.Data) ∧
      tx.Amount = toString (SetBytes l.Data / 10 ^ 18) := by
  unfold parseTransfer
  rw [if_neg (by omega)]
  simp only [hnz, if_false]
  exact ⟨_, rfl, rfl, rfl⟩

theorem parseTransfer_ok (s : BlockchainExplorerService) (l : Log) (timestamp : Int)
    (tx : TLCTransactionItem) (h : parseTransfer s l timestamp = .ok tx) :
    tx.AmountWei = toString (SetBytes l.Data) ∧
      tx.Amount = toString (amountTLC (SetBytes l.Data)) := by
  unfold parseTransfer at h
  split at h
  · simp at h
  · simp only at h
    split at h
    · simp at h
    · simp only [Res.ok.injEq] at h
      subst h
      exact ⟨rfl, rfl⟩

/-- The amount of a decoded record is read from the log it was decoded from:
it is the amount the ABI decoder unpacks from the log data under the event of
the log's first topic, or, for a `Transfer` log, the big-endian value of the
log data. -/
theorem parseLogToTransaction_raw (s : BlockchainExplorerService) (l : Log)
    (tx : TLCTransactionItem) (h : parseLogToTransaction s l = .ok tx) :
    ∃ (sig : String) (rest : List String) (n : Nat), l.Topics = sig :: rest ∧
      ((∃ name ev,
          (sig, name) ∈ [(s.contractABI.TokensMinted, "TokensMinted"),
            (s.contractABI.TokensBurned, "TokensBurned"),
            (s.contractABI.PaymentProcessed, "PaymentProcessed"),
            (s.contractABI.TopupRequested, "TopupRequested"),
            (s.contractABI.WithdrawRequested, "WithdrawRequested")] ∧
          s.UnpackIntoInterface name l.Data = .ok ev ∧ ev.Amount = n) ∨
        (sig = s.contractABI.Transfer ∧ SetBytes l.Data = (n : Int))) ∧
      tx.AmountWei = toString (n : Int) ∧ tx.Amount = toString (amountTLC n) := by
  unfold parseLogToTransaction at h
  cases hb : s.BlockByNumber (toInt64 l.BlockNumber) with
  | error e => simp [hb] at h
  | ok blockTime =>
    cases ht : l.Topics with
    | nil => simp [hb, ht] at h
    | cons sig rest =>
      simp only [hb, ht] at h
      have hcustom : ∀ (p : (Log → Int → Res TLCTransactionItem) × String),
          p ∈ [(parseTokensMinted s, "TokensMinted"), (parseTokensBurned s, "TokensBurned"),
            (parsePaymentProcessed s, "PaymentProcessed"),
            (parseTopupRequested s, "TopupRequested"),
            (parseWithdrawRequested s, "WithdrawRequested")] →
          (sig, p.2) ∈ [(s.contractABI.TokensMinted, "TokensMinted"),
            (s.contractABI.TokensBurned, "TokensBurned"),
            (s.contractABI.PaymentProcessed, "PaymentProcessed"),
            (s.contractABI.TopupRequested, "TopupRequested"),
            (s.contractABI.WithdrawRequested, "WithdrawRequested")] →
          p.1 l (toInt64 blockTime) = .ok tx →
          ∃ (sig1 : String) (rest1 : List String) (n : Nat), sig :: rest = sig1 :: rest1 ∧
            ((∃ name ev,
                (sig1, name) ∈ [(s.contractABI.TokensMinted, "TokensMinted"),
                  (s.contractABI.TokensBurned, "TokensBurned"),
                  (s.contractABI.PaymentProcessed, "PaymentProcessed"),
                  (s.contractABI.TopupRequested, "TopupRequested"),
                  (s.contractABI.WithdrawRequested, "WithdrawRequested")] ∧
                s.UnpackIntoInterface name l.Data = .ok ev ∧ ev.Amount = n) ∨
              (sig1 = s.contractABI.Transfer ∧ SetBytes l.Data = (n : Int))) ∧
            tx.AmountWei = toString (n : Int) ∧ tx.Amount = toString (amountTLC n) := by
        intro p hp hsig hok
        obtain ⟨ev, hu, hw, ha⟩ := eventDecoders_ok s p hp l _ tx hok
        exact ⟨sig, rest, ev.Amount, rfl, Or.inl ⟨p.2, ev, hsig, hu, rfl⟩, hw, ha⟩
      by_cases h1 : sig = s.contractABI.TokensMinted
      · rw [if_pos h1] at h
        exact hcustom (parseTokensMinted s, "TokensMinted") (.head _) (h1 ▸ .head _) h
      rw [if_neg h1] at h
      by_cases h2 : sig = s.contractABI.TokensBurned
      · rw [if_pos h2] at h
        exact hcustom (parseTokensBurned s, "TokensBurned") (.tail _ (.head _)) (h2 ▸ .tail _ (.head _)) h
      rw [if_neg h2] at h
      by_cases h3 : sig = s.contractABI.PaymentProcessed
      · rw [if_pos h3] at h
        exact hcustom (parsePaymentProcessed s, "PaymentProcessed") (.tail _ (.tail _ (.head _))) (h3 ▸ .tail _ (.tail _ (.head _))) h
      rw [if_neg h3] at h
      by_cases h4 : sig = s.contractABI.TopupRequested
      · rw [if_pos h4] at h
        exact hcustom (parseTopupRequested s, "TopupRequested") (.tail _ (.tail _ (.tail _ (.head _)))) (h4 ▸ .tail _ (.tail _ (.tail _ (.head _)))) h
      rw [if_neg h4] at h
      by_cases h5 : sig = s.contractABI.WithdrawRequested
      · rw [if_pos h5] at h
        exact hcustom (parseWithdrawRequested s, "WithdrawRequested") (.tail _ (.tail _ (.tail _ (.tail _ (.head _))))) (h5 ▸ .tail _ (.tail _ (.tail _ (.tail _ (.head _))))) h
      rw [if_neg h5] at h
      by_cases h6 : sig = s.contractABI.Transfer
      · rw [if_pos h6] at h
        obtain ⟨hw, ha⟩ := parseTransfer_ok s l _ tx h
        obtain ⟨n, hn⟩ : ∃ n : Nat, SetBytes l.Data = (n : Int) := ⟨_, rfl⟩
        rw [hn] at hw ha
        exact ⟨sig, rest, n, rfl, Or.inr ⟨h6, hn⟩, hw, ha⟩
      · rw [if_neg h6] at h
        simp at h

/-! ## The amount checks of top-up and withdrawal -/

theorem pollReceipt_ne_panic (cs : ContractService) (txHash : String)
    (hlen : 10 ≤ txHash.utf8ByteSize) (ticks : Nat) :
    ∀ (i : Nat) (e : String), (pollReceipt cs txHash ticks i).1 ≠ .panic e := by
  induction ticks with
  | zero => intro i e h; simp [pollReceipt] at h
  | succ n ih =>
    intro i e h
    simp only [pollReceipt] at h
    split at h
    · split at h <;> simp at h
    · rw [if_neg (not_lt.2 hlen)] at h
      exact ih (i + 1) e h

/-! ## Claims -/

/-- C1.  Whatever logs the range query returns and in whatever order the groups
are visited, the list `GetAllTransactions` materializes before pagination has no
two items with the same `TxHash`; and it is materialized (no panic, no error)
whenever every log carries at least one topic. -/
theorem C1_one_item_per_hash (s : BlockchainExplorerService)
    (hperm : ∀ m, (s.mapRange m).Perm m) (logs : List Log) :
    (∀ all, materialize s logs = .ok all → (all.map (fun tx => tx.TxHash)).Nodup) ∧
    ((∀ l ∈ logs, l.Topics ≠ []) → ∃ all, materialize s logs = .ok all) :=
  ⟨fun all h => materialize_nodup s hperm logs all h, materialize_total s hperm logs⟩


/-- C2.  When the logs of a hash contain a custom (domain) event, the record
`GetAllTransactions` materializes for that hash is decoded from a custom event
log of that hash, never from a `Transfer` log, and so is a top-up, a withdrawal
or a transfer.  In particular a `TopupRequested` log and a `Transfer` log from
the zero address under one hash, in either order, give exactly one record, of
type "topup", although the `Transfer` log alone would decode to "mint". -/
theorem C2_custom_event_first (s : BlockchainExplorerService)
    (hperm : ∀ m, (s.mapRange m).Perm m) :
    (∀ (logs : List Log) (all : List TLCTransactionItem) (tx : TLCTransactionItem),
      materialize s logs = .ok all → tx ∈ all →
      (∃ l0 ∈ logs, l0.TxHash = tx.TxHash ∧
        ∃ sig0, l0.Topics.head? = some sig0 ∧ isCustomEvent s.contractABI sig0 = true) →
      ∃ l ∈ logs, l.TxHash = tx.TxHash ∧ parseLogToTransaction s l = .ok tx ∧
        (∃ eventSig, l.Topics.head? = some eventSig ∧
          isCustomEvent s.contractABI eventSig = true) ∧
        (isCustomEvent s.contractABI s.contractABI.Transfer = false →
          l.Topics.head? ≠ some s.contractABI.Transfer) ∧
        (tx.Type_ = "topup" ∨ tx.Type_ = "withdraw" ∨ tx.Type_ = "transfer")) ∧
    (∀ (topup transfer : Log) (rest : List String) (t1 t2 : String) (blockTime : Nat)
      (event : UnpackedEvent),
      [s.contractABI.TokensMinted, s.contractABI.TokensBurned,
        s.contractABI.PaymentProcessed, s.contractABI.TopupRequested,
        s.contractABI.WithdrawRequested, s.contractABI.Transfer].Nodup →
      transfer.TxHash = topup.TxHash →
      topup.Topics = s.contractABI.TopupRequested :: rest →
      transfer.Topics = [s.contractABI.Transfer, t1, t2] →
      s.HexToAddress t1 = zeroAddress →
      s.BlockByNumber (toInt64 topup.BlockNumber) = .ok blockTime →
      s.UnpackIntoInterface "TopupRequested" topup.Data = .ok event →
      ∃ tx, tx.Type_ = "topup" ∧ tx.TxHash = topup.TxHash ∧
        parseTopupRequested s topup (toInt64 blockTime) = .ok tx ∧
        materialize s [topup, transfer] = .ok [tx] ∧
        materialize s [transfer, topup] = .ok [tx] ∧
        ∀ tx1, parseLogToTransaction s transfer = .ok tx1 → tx1.Type_ = "mint") :=
  ⟨fun logs all tx h htx hex => materialize_custom s hperm logs all h tx htx hex,
   fun topup transfer rest t1 t2 blockTime event hdist hhash htopup htransfer hzero hblock
     hunpack =>
     materialize_topup_transfer s hperm topup transfer rest t1 t2 blockTime event hdist hhash
       htopup htransfer hzero hblock hunpack⟩

/-- C3, as stated, fails.  A subtract of 8 on a row with balance 10 and locked
balance 5 succeeds (8 ≤ 10) and leaves locked balance 5 above balance 2; and a
lock of the decimal string "-5" on a row with locked balance 0 stores locked
balance -5. -/
theorem C3_counterexample :
    ledgerInvariant { Balance := "10", LockedBalance := "5" } ∧
    ¬ (∀ r ∈ runOps { Balance := "10", LockedBalance := "5" } [.subtract "8" storeOk],
        ledgerInvariant r) ∧
    ledgerInvariant { Balance := "10", LockedBalance := "0" } ∧
    ¬ (∀ r ∈ runOps { Balance := "10", LockedBalance := "0" } [.lock "-5" storeOk],
        ledgerInvariant r) := by
  decide

/-- C3, amended.  For every sequence of lock, unlock and subtract calls with
non-negative amounts on a row that starts with `0 ≤ locked_balance ≤ balance`,
both columns are non-negative after every call; and `locked_balance ≤ balance`
holds after every call as well provided every subtract asks for no more than the
available balance (`SubtractBalance` itself only checks `amount ≤ balance`). -/
theorem C3_ledger_invariant (row : Balance) (ops : List LedgerOp)
    (hamt : ∀ op ∈ ops, 0 ≤ SetString op.amount) (h0 : ledgerInvariant row) :
    (∀ r ∈ runOps row ops, 0 ≤ SetString r.LockedBalance ∧ 0 ≤ SetString r.Balance) ∧
    (subtractsWithinAvailable row ops → ∀ r ∈ runOps row ops, ledgerInvariant r) :=
  ⟨runOps_nonneg row ops hamt ⟨h0.1, le_trans h0.1 h0.2⟩,
   fun hsub => runOps_invariant row ops hamt hsub h0⟩

theorem C3_ledger_invariant_witness :
    (∀ r ∈ runOps { Balance := "10", LockedBalance := "5" }
        [.lock "3" storeOk, .subtract "2" storeOk, .unlock "9" storeOk, .subtract "8" storeOk],
      0 ≤ SetString r.LockedBalance ∧ 0 ≤ SetString r.Balance) ∧
    (∀ r ∈ runOps { Balance := "10", LockedBalance := "5" }
        [.lock "3" storeOk, .subtract "2" storeOk, .unlock "9" storeOk],
      ledgerInvariant r) :=
  ⟨(C3_ledger_invariant { Balance := "10", LockedBalance := "5" }
      [.lock "3" storeOk, .subtract "2" storeOk, .unlock "9" storeOk, .subtract "8" storeOk]
      (by decide) (by decide)).1,
   (C3_ledger_invariant { Balance := "10", LockedBalance := "5" }
      [.lock "3" storeOk, .subtract "2" storeOk, .unlock "9" storeOk]
      (by decide) (by decide)).2 (by simp only [subtractsWithinAvailable]; decide)⟩

/-- C4.  With a store that answers the read and the write, `LockBalance` returns
"insufficient available balance" exactly when the amount exceeds
`balance - locked_balance`, and then the row is unchanged; otherwise it returns
no error, the stored locked balance is the old one plus the amount, and the
balance column is unchanged. -/
theorem C4_lock_balance (row : Balance) (amount : String) (o : StoreOutcome)
    (hread : o.readErr = none) (hwrite : o.writeErr = none) :
    ((LockBalance row amount o).1 = some "insufficient available balance" ↔
      SetString amount > SetString row.Balance - SetString row.LockedBalance) ∧
    (SetString amount > SetString row.Balance - SetString row.LockedBalance →
      (LockBalance row amount o).2 = row) ∧
    (¬ SetString amount > SetString row.Balance - SetString row.LockedBalance →
      (LockBalance row amount o).1 = none ∧
      SetString (LockBalance row amount o).2.LockedBalance =
        SetString row.LockedBalance + SetString amount ∧
      (LockBalance row amount o).2.Balance = row.Balance) := by
  by_cases h : SetString row.Balance - SetString row.LockedBalance < SetString amount
  · rw [LockBalance_insufficient row amount o hread h]
    simp [h]
  · rw [LockBalance_stored row amount o hread hwrite h]
    simp [h, SetString_toString]

theorem C4_lock_balance_witness :
    LockBalance { Balance := "10", LockedBalance := "4" } "6" storeOk =
      (none, { Balance := "10", LockedBalance := "10" }) ∧
    LockBalance { Balance := "10", LockedBalance := "4" } "7" storeOk =
      (some "insufficient available balance", { Balance := "10", LockedBalance := "4" }) ∧
    SetString (LockBalance { Balance := "10", LockedBalance := "4" } "6" storeOk).2.LockedBalance
      = SetString "4" + SetString "6" :=
  ⟨by decide, by decide,
   ((C4_lock_balance { Balance := "10", LockedBalance := "4" } "6" storeOk rfl rfl).2.2
      (by decide)).2.1⟩

/-- C5.  With a store that answers the read and the write, `SubtractBalance`
returns "insufficient balance" if and only if the amount exceeds the balance, and
then the row is unchanged; otherwise it returns no error, the stored balance is
the old balance minus the amount, and the locked balance is unchanged. -/
theorem C5_subtract_balance (row : Balance) (amount : String) (o : StoreOutcome)
    (hread : o.readErr = none) (hwrite : o.writeErr = none) :
    ((SubtractBalance row amount o).1 = some "insufficient balance" ↔
      SetString amount > SetString row.Balance) ∧
    (SetString amount > SetString row.Balance → (SubtractBalance row amount o).2 = row) ∧
    (¬ SetString amount > SetString row.Balance →
      (SubtractBalance row amount o).1 = none ∧
      SetString (SubtractBalance row amount o).2.Balance =
        SetString row.Balance - SetString amount ∧
      (SubtractBalance row amount o).2.LockedBalance = row.LockedBalance) := by
  by_cases h : SetString row.Balance < SetString amount
  · rw [SubtractBalance_insufficient row amount o hread h]
    simp [h]
  · rw [SubtractBalance_stored row amount o hread hwrite h]
    simp [h, SetString_toString]

theorem C5_subtract_balance_witness :
    SubtractBalance { Balance := "10", LockedBalance := "4" } "10" storeOk =
      (none, { Balance := "0", LockedBalance := "4" }) ∧
    SubtractBalance { Balance := "10", LockedBalance := "4" } "11" storeOk =
      (some "insufficient balance", { Balance := "10", LockedBalance := "4" }) ∧
    SetString (SubtractBalance { Balance := "10", LockedBalance := "4" } "10" storeOk).2.Balance
      = SetString "10" - SetString "10" :=
  ⟨by decide, by decide,
   ((C5_subtract_balance { Balance := "10", LockedBalance := "4" } "10" storeOk rfl rfl).2.2
      (by decide)).2.1⟩

/-- C6, as stated, fails.  On a row with balance 10 and locked balance 5, with
the subtract stored and the unlock's update refused by the store,
`DeductLockedBalance` returns the store error with balance 5 and the lock of 5
still held: the row is neither as it was nor has both effects. -/
theorem C6_counterexample :
    DeductLockedBalance { Balance := "10", LockedBalance := "5" } "5" storeOk
        { readErr := none, writeErr := some "connection lost" } =
      (some "connection lost", { Balance := "5", LockedBalance := "5" }) ∧
    (DeductLockedBalance { Balance := "10", LockedBalance := "5" } "5" storeOk
        { readErr := none, writeErr := some "connection lost" }).2 ≠
      { Balance := "10", LockedBalance := "5" } ∧
    (DeductLockedBalance { Balance := "10", LockedBalance := "5" } "5" storeOk
        { readErr := none, writeErr := some "connection lost" }).2 ≠
      { Balance := "5", LockedBalance := "0" } := by
  decide

/-- C6, amended.  `DeductLockedBalance` runs `SubtractBalance` and then
`UnlockBalance` with no store transaction around them.  If the subtract fails,
its error is returned and the row is as it was.  If the subtract is stored and
the unlock is answered by the store, no error is returned, the balance is
reduced by the amount and the locked balance is reduced by the amount, clamped
at zero.  If the subtract is stored and the unlock's read or update fails, an
error is returned with the balance reduced and the locked balance as it was. -/
theorem C6_deduct_locked (row : Balance) (amount : String) (o1 o2 : StoreOutcome) :
    ((SubtractBalance row amount o1).1 ≠ none →
      DeductLockedBalance row amount o1 o2 = SubtractBalance row amount o1 ∧
      (DeductLockedBalance row amount o1 o2).2 = row) ∧
    ((SubtractBalance row amount o1).1 = none →
      o2.readErr = none ∧ o2.writeErr = none →
      (DeductLockedBalance row amount o1 o2).1 = none ∧
      SetString (DeductLockedBalance row amount o1 o2).2.Balance =
        SetString row.Balance - SetString amount ∧
      SetString (DeductLockedBalance row amount o1 o2).2.LockedBalance =
        max (SetString row.LockedBalance - SetString amount) 0) ∧
    ((SubtractBalance row amount o1).1 = none →
      o2.readErr ≠ none ∨ o2.writeErr ≠ none →
      (DeductLockedBalance row amount o1 o2).1 ≠ none ∧
      SetString (DeductLockedBalance row amount o1 o2).2.Balance =
        SetString row.Balance - SetString amount ∧
      (DeductLockedBalance row amount o1 o2).2.LockedBalance = row.LockedBalance) := by
  have hsub : (SubtractBalance row amount o1).1 ≠ none ∧ (SubtractBalance row amount o1).2 = row ∨
      SubtractBalance row amount o1 =
        (none, { row with Balance := toString (SetString row.Balance - SetString amount) }) := by
    cases hr : o1.readErr with
    | some e => left; simp [SubtractBalance, hr]
    | none =>
      by_cases h : SetString row.Balance < SetString amount
      · left; simp [SubtractBalance_insufficient row amount o1 hr h]
      · cases hw : o1.writeErr with
        | some e => left; simp [SubtractBalance, SetBalance, hr, hw, h]
        | none => right; exact SubtractBalance_stored row amount o1 hr hw h
  rcases hsub with ⟨h1, h2⟩ | h1
  · have hd : DeductLockedBalance row amount o1 o2 = SubtractBalance row amount o1 := by
      unfold DeductLockedBalance
      split
      · rename_i e row1 heq; rw [heq]
      · rename_i row1 heq
        rw [heq] at h1
        simp at h1
    refine ⟨fun _ => ⟨hd, hd ▸ h2⟩, fun h3 => absurd h3 h1, fun h3 => absurd h3 h1⟩
  · have hd : DeductLockedBalance row amount o1 o2 =
        UnlockBalance { row with
          Balance := toString (SetString row.Balance - SetString amount) } amount o2 := by
      simp [DeductLockedBalance, h1]
    refine ⟨fun h3 => absurd (by rw [h1]) h3, ?_, ?_⟩
    · rintro - ⟨hr, hw⟩
      rw [hd, UnlockBalance_stored _ amount o2 hr hw]
      simp [SetString_toString]
    · intro _ hfail
      rw [hd]
      obtain ⟨h3, h4⟩ := UnlockBalance_failed
        { row with Balance := toString (SetString row.Balance - SetString amount) } amount o2 hfail
      rw [h4]
      exact ⟨h3, by simp [SetString_toString], rfl⟩

theorem C6_deduct_locked_witness :
    (DeductLockedBalance { Balance := "10", LockedBalance := "5" } "11" storeOk storeOk).2 =
      { Balance := "10", LockedBalance := "5" } ∧
    SetString (DeductLockedBalance { Balance := "10", LockedBalance := "5" } "7" storeOk
      storeOk).2.LockedBalance = max (SetString "5" - SetString "7") 0 ∧
    (DeductLockedBalance { Balance := "10", LockedBalance := "5" } "7" storeOk
      { readErr := some "record not found", writeErr := none }).2.LockedBalance = "5" :=
  ⟨((C6_deduct_locked { Balance := "10", LockedBalance := "5" } "11" storeOk storeOk).1
      (by decide)).2,
   ((C6_deduct_locked { Balance := "10", LockedBalance := "5" } "7" storeOk storeOk).2.1
      (by decide) ⟨rfl, rfl⟩).2.2,
   ((C6_deduct_locked { Balance := "10", LockedBalance := "5" } "7" storeOk
      { readErr := some "record not found", writeErr := none }).2.2
      (by decide) (Or.inl (by decide))).2.2⟩

/-- C7.  The list `GetAllTransactions` sorts is ordered by block number
descending, then transaction hash descending, strictly: of two consecutive items
the first has the larger block number, or the same block number and the larger
hash.  The sorted list is a permutation of the records decoded from the
selected logs of the per-hash groups, and every returned page is a segment of
it, so its consecutive items are ordered the same way. -/
theorem C7_sorted_newest_first (s : BlockchainExplorerService)
    (hperm : ∀ m, (s.mapRange m).Perm m) :
    (∀ logs all, materialize s logs = .ok all →
      (sortTransactions all).Chain' (fun a b =>
        a.BlockNumber > b.BlockNumber ∨
          (a.BlockNumber = b.BlockNumber ∧ a.TxHash > b.TxHash)) ∧
      (sortTransactions all).Perm
        ((groupLogs logs).filterMap (fun e => decodedRecord s e.2))) ∧
    (∀ fromBlock toBlock page limit r,
      GetAllTransactions s fromBlock toBlock page limit = .ok r →
      r.Transactions.Chain' (fun a b =>
        a.BlockNumber > b.BlockNumber ∨
          (a.BlockNumber = b.BlockNumber ∧ a.TxHash > b.TxHash))) := by
  constructor
  · intro logs all h
    refine ⟨(sortTransactions_pairwise all (materialize_nodup s hperm logs all h)).chain', ?_⟩
    refine (sortTransactions_perm all).trans ?_
    rw [materialize_eq_filterMap s hperm logs all h]
    exact (hperm (groupLogs logs)).filterMap _
  · intro fromBlock toBlock page limit r h
    obtain ⟨logs, all, _, hall, hpage⟩ := GetAllTransactions_ok s fromBlock toBlock page limit r h
    exact ((sortTransactions_pairwise all (materialize_nodup s hperm logs all hall)).sublist
      (paginate_sublist _ _ _ r hpage)).chain'

/-- C8, evaluated where it fails.  Go computes `startIdx := (page - 1) * limit`
in 64-bit `int`.  On a chain with one transaction and limit 64, page
`2 ^ 58 + 1` (far beyond `ceil(1/64) + 1 = 2`) has `startIdx = 2 ^ 64`, which
wraps to 0, so the call returns the transaction instead of an empty page; and
page `2 ^ 63 - 1` with limit 100 wraps to `startIdx = -200` and the slice
expression panics. -/
theorem C8_page_overflow :
    GetAllTransactions (demoService [demoPayment]) none none 288230376151711745 64 =
      .ok { Transactions := [demoPaymentItem], TotalCount := 1,
            Page := 288230376151711745, Limit := 64 } ∧
    GetTransactionsByAddress (demoService [demoPayment]) "0xaa" 288230376151711745 64 =
      .ok { Transactions := [demoPaymentItem], TotalCount := 1,
            Page := 288230376151711745, Limit := 64 } ∧
    GetAllTransactions (demoService [demoPayment]) none none 9223372036854775807 100 =
      .panic "slice bounds out of range" := by
  decide

/-- C9, evaluated where it fails.  On a chain of 1,000,000 transactions that
are all sent by `0xaa`, all 1,000,000 materialized records match the address
`0xAA` case-insensitively, yet `GetTransactionsByAddress` reports
`TotalCount = 999999`: it filters the result of
`GetAllTransactions(nil, nil, 1, 999999)`, which holds only the first 999999
items of the sorted list. -/
theorem C9_total_count_capped :
    ∃ all r,
      materialize (demoService (paymentLogs 1000000)) (paymentLogs 1000000) = .ok all ∧
      (all.filter (fun tx =>
        EqualFold tx.FromAddress "0xAA" || EqualFold tx.ToAddress "0xAA")).length = 1000000 ∧
      GetTransactionsByAddress (demoService (paymentLogs 1000000)) "0xAA" 1 10 = .ok r ∧
      r.TotalCount = 999999 ∧
      ∀ tx ∈ r.Transactions,
        EqualFold tx.FromAddress "0xAA" = true ∨ EqualFold tx.ToAddress "0xAA" = true :=
  GetTransactionsByAddress_paymentLogs 1000000 (by decide)

/-- C10.  The conversions `amountTLC x = x div 10^18` and
`amountWei a = a * 10^18` satisfy
`amountTLC (amountWei (amountTLC x)) = amountTLC x` and
`amountTLC (amountWei a) = a` for all integers, in particular for all
non-negative ones. -/
theorem C10_round_trip (x a : Int) :
    amountTLC (amountWei (amountTLC x)) = amountTLC x ∧ amountTLC (amountWei a) = a := by
  have h : ∀ b : Int, amountTLC (amountWei b) = b := by
    intro b
    unfold amountTLC amountWei divisor multiplier
    exact Int.mul_ediv_cancel b (by norm_num)
  exact ⟨h _, h a⟩

theorem C1_one_item_per_hash_witness :
    materialize (demoService demoLogs) demoLogs = .ok [demoPaymentItem, demoTopupItem] ∧
    ([demoPaymentItem, demoTopupItem].map (fun tx => tx.TxHash)).Nodup ∧
    ∃ all, materialize (demoService demoLogs) demoLogs = .ok all :=
  have h := C1_one_item_per_hash (demoService demoLogs) (fun m => List.reverse_perm m) demoLogs
  have hv : materialize (demoService demoLogs) demoLogs =
      .ok [demoPaymentItem, demoTopupItem] := by decide
  ⟨hv, h.1 _ hv, h.2 (by decide)⟩

theorem C2_custom_event_first_witness :
    ∃ tx, tx.Type_ = "topup" ∧
      materialize (demoService demoLogs) [demoTransfer, demoTopup] = .ok [tx] ∧
      ∃ l ∈ [demoTransfer, demoTopup], parseLogToTransaction (demoService demoLogs) l = .ok tx ∧
        l.Topics.head? ≠ some demoABI.Transfer :=
  have h := C2_custom_event_first (demoService demoLogs) (fun m => List.reverse_perm m)
  match h.2 demoTopup demoTransfer ["0xaa"] zeroAddress "0xaa" 5 { Amount := 1, Text := "" }
      (by decide) rfl rfl rfl rfl rfl rfl with
  | ⟨tx, hty, hh, _, _, hm, _⟩ =>
    match h.1 [demoTransfer, demoTopup] [tx] tx hm (List.mem_singleton_self tx)
        ⟨demoTopup, by decide, hh.symm, "0x04", rfl, by decide⟩ with
    | ⟨l, hl, _, hp, _, hT, _⟩ => ⟨tx, hty, hm, l, hl, hp, hT (by decide)⟩

theorem C7_sorted_newest_first_witness :
    GetAllTransactions (demoService demoLogs) none none 1 10 =
      .ok { Transactions := [demoPaymentItem, demoTopupItem], TotalCount := 2, Page := 1,
            Limit := 10 } ∧
    [demoPaymentItem, demoTopupItem].Chain' (fun a b =>
      a.BlockNumber > b.BlockNumber ∨
        (a.BlockNumber = b.BlockNumber ∧ a.TxHash > b.TxHash)) ∧
    (sortTransactions [demoPaymentItem, demoTopupItem]).Perm
      ((groupLogs demoLogs).filterMap (fun e => decodedRecord (demoService demoLogs) e.2)) :=
  have hv : GetAllTransactions (demoService demoLogs) none none 1 10 =
      .ok { Transactions := [demoPaymentItem, demoTopupItem], TotalCount := 2, Page := 1,
            Limit := 10 } := by decide
  have hm : materialize (demoService demoLogs) demoLogs =
      .ok [demoPaymentItem, demoTopupItem] := by decide
  ⟨hv, (C7_sorted_newest_first (demoService demoLogs) (fun m => List.reverse_perm m)).2
    none none 1 10 _ hv,
   ((C7_sorted_newest_first (demoService demoLogs) (fun m => List.reverse_perm m)).1
    demoLogs _ hm).2⟩

/-! ## Orchestration: what happens before the chain is touched -/

/-- C11.  For an active user with a correct PIN, a well-formed recipient other
than the user's own wallet string and a positive amount, on an available chain
whose `balanceOf` answers less than `amount * 10^18`: `TransferTLC` returns
"insufficient on-chain balance", its only effect is the balance read (no key
decryption, no `Transfer` submission, no receipt poll, no insert), and this is
so whatever the user's local `balances` row holds. -/
theorem C11_insufficient_on_chain_balance (b : Backend) (userID : Int)
    (toAddress amount memo pin : String) (user : User) (cs : ContractService)
    (senderOnChainWei : Int)
    (huser : b.GetByID userID = .ok user) (hactive : user.Status = "active")
    (hpin : VerifyPin b pin user.PinHash = true)
    (haddr : IsHexAddress toAddress = true) (hself : toAddress ≠ user.WalletAddress)
    (hok : SetStringOk amount = true) (hpos : 0 < SetString amount)
    (hcs : b.contractService = some cs) (hweb3 : b.IsWeb3Enabled = true)
    (hbal : cs.GetBalance user.WalletAddress = .ok senderOnChainWei)
    (hlow : senderOnChainWei < SetString amount * 10 ^ 18) :
    ∀ row : Balance,
      TransferTLC { b with balanceRow := row } userID toAddress amount memo pin =
        (.err "insufficient on-chain balance", [Effect.GetBalance user.WalletAddress]) ∧
      ∀ e ∈ (TransferTLC { b with balanceRow := row } userID toAddress amount memo pin).2,
        e.isSubmission = false := by
  intro row
  have hpin2 : (b.sha256Hex pin == user.PinHash) = true := hpin
  have hlow2 : senderOnChainWei < amountWei (SetString amount) := hlow
  have hval : TransferTLC { b with balanceRow := row } userID toAddress amount memo pin =
      (.err "insufficient on-chain balance", [Effect.GetBalance user.WalletAddress]) := by
    simp only [TransferTLC, VerifyPin, HashPin, huser, hactive, hpin2, haddr, hself, hok,
      not_le.2 hpos, hcs, hweb3,
      hbal, hlow2, ne_eq, not_true_eq_false, if_false, if_true, Bool.true_eq_false]
  refine ⟨hval, ?_⟩
  rw [hval]
  intro e he
  simp only [List.mem_singleton] at he
  subst he
  rfl

/-- In `TransferTLC`, `RequestTopup` and `CreateWithdrawal`, a request of a
registered user that fails one of the checks the function makes on the account
status, the PIN, the recipient or the amount returns an error with an empty
effect list: no connection is opened, no balance is read, no key is decrypted
and nothing is submitted.  (The recipient check of `TransferTLC` is equality
with the stored spelling, the amount check of `RequestTopup` the comparison of
the number read from the string with 10,000.) -/
theorem checks_before_chain (b : Backend) (userID : Int) (user : User)
    (huser : b.GetByID userID = .ok user) :
    (∀ toAddress amount memo pin : String,
      (user.Status ≠ "active" ∨ VerifyPin b pin user.PinHash = false ∨
        IsHexAddress toAddress = false ∨ toAddress = user.WalletAddress ∨
        SetStringOk amount = false ∨ SetString amount ≤ 0) →
      ∃ msg ∈ ["account is not active", "invalid PIN", "invalid recipient address format",
          "cannot transfer to yourself", "invalid amount format",
          "amount must be greater than 0"],
        TransferTLC b userID toAddress amount memo pin = (.err msg, [])) ∧
    (∀ req : TopupRequest,
      (user.Status ≠ "active" ∨ VerifyPin b req.Pin user.PinHash = false ∨
        SetString req.Amount < 10000) →
      ∃ msg ∈ ["account is not active", "invalid PIN", "minimum topup amount is 10,000"],
        RequestTopup b userID req = (.err msg, [])) ∧
    (∀ amount bankAccount pin : String,
      (user.Status ≠ "active" ∨ VerifyPin b pin user.PinHash = false ∨
        SetStringOk amount = false ∨ SetString amount < 1000) →
      ∃ msg ∈ ["account is not active", "invalid PIN", "invalid amount format",
          "minimum withdrawal amount is 1,000 TLC"],
        CreateWithdrawal b userID amount bankAccount pin = (.err msg, [])) := by
  refine ⟨?_, ?_, ?_⟩
  · intro toAddress amount memo pin h
    simp only [TransferTLC, huser]
    split_ifs
    all_goals first | exact ⟨_, by simp, rfl⟩ | (exfalso; tauto)
  · intro req h
    simp only [RequestTopup, huser]
    split_ifs
    all_goals first | exact ⟨_, by simp, rfl⟩ | (exfalso; tauto)
  · intro amount bankAccount pin h
    simp only [CreateWithdrawal, huser]
    split_ifs
    all_goals first | exact ⟨_, by simp, rfl⟩ | (exfalso; tauto)

/-- C13.  The self-transfer test of `TransferTLC` and `ValidateTransfer`
compares the recipient string with the stored wallet string byte for byte.  The
demo user's own address written in lower case denotes the same 20 bytes, is
not rejected with "cannot transfer to yourself", and `TransferTLC` submits the
transfer to it and reports it confirmed; only the stored spelling is rejected. -/
theorem C13_self_transfer_in_other_case :
    EqualFold demoUserLower demoUser.WalletAddress = true ∧
    TransferTLC demoBackend 1 demoUser.WalletAddress "5" "hi" "123456" =
      (.err "cannot transfer to yourself", []) ∧
    (TransferTLC demoBackend 1 demoUserLower "5" "hi" "123456").1 =
      .ok { TxHash := demoTxHash, FromAddress := demoUser.WalletAddress,
            ToAddress := demoUserLower, Amount := "5", AmountWei := "5000000000000000000",
            Memo := "hi", Status := "confirmed", Timestamp := 1700000000 } ∧
    Effect.Transfer "key-of-enc-alice" demoUserLower (5 * 10 ^ 18) ∈
      (TransferTLC demoBackend 1 demoUserLower "5" "hi" "123456").2 ∧
    (ValidateTransfer demoBackend 1 demoUserLower "5").1 =
      .err "recipient address not found in system" := by
  refine ⟨?_, ?_, ?_, ?_, ?_⟩ <;> decide

/-- C14.  `TransferTLC` does not look the recipient up: its result is the same
whatever `userRepo.GetByWalletAddress` answers.  For a well-formed address that
no registered user holds, `ValidateTransfer` answers "recipient address not
found in system" while `TransferTLC` submits the transfer and reports it
confirmed. -/
theorem C14_recipient_not_looked_up :
    (∀ (b : Backend) (f : String → Except StoreError User) (userID : Int)
        (toAddress amount memo pin : String),
      TransferTLC { b with GetByWalletAddress := f } userID toAddress amount memo pin =
        TransferTLC b userID toAddress amount memo pin) ∧
    (ValidateTransfer demoBackend 1 strangerAddress "5").1 =
      .err "recipient address not found in system" ∧
    (TransferTLC demoBackend 1 strangerAddress "5" "hi" "123456").1 =
      .ok { TxHash := demoTxHash, FromAddress := demoUser.WalletAddress,
            ToAddress := strangerAddress, Amount := "5", AmountWei := "5000000000000000000",
            Memo := "hi", Status := "confirmed", Timestamp := 1700000000 } ∧
    Effect.Transfer "key-of-enc-alice" strangerAddress (5 * 10 ^ 18) ∈
      (TransferTLC demoBackend 1 strangerAddress "5" "hi" "123456").2 := by
  refine ⟨fun _ _ _ _ _ _ _ => rfl, ?_, ?_, ?_⟩ <;> decide

/-- Called directly, `RequestTopup` compares the number that `SetString` leaves
with 10,000 without looking at its `ok` flag: the amount "20000abc" is not a
decimal integer, yet the request is not rejected, 20000 * 10^18 is submitted and
the top-up is reported confirmed.  `CreateWithdrawal` rejects the same string
with "invalid amount format".  (The top-up handler never passes such a string
on.) -/
theorem RequestTopup_direct_call :
    SetStringOk "20000abc" = false ∧
    (RequestTopup demoBackend 1
        { Amount := "20000abc", PaymentMethod := "bank", Pin := "123456" }).1 =
      .ok { ID := 7, Amount := "20000abc", Currency := "TLC", PaymentMethod := "bank",
            PaymentDetails := [("method", "bank"), ("blockchain_only", "false"),
              ("synced_to_db", "true"), ("note", "Topup confirmed & recorded")],
            Status := "confirmed", TxHash := demoTxHash, CreatedAt := 1700000000 } ∧
    Effect.InstantTopup "key-of-enc-alice" (20000 * 10 ^ 18) "AUTO_TOPUP_bank_20000abc" ∈
      (RequestTopup demoBackend 1
        { Amount := "20000abc", PaymentMethod := "bank", Pin := "123456" }).2 ∧
    CreateWithdrawal demoBackend 1 "20000abc" "bca-1" "123456" =
      (.err "invalid amount format", []) ∧
    RequestTopup demoBackend 1 { Amount := "9999", PaymentMethod := "bank", Pin := "123456" } =
      (.err "minimum topup amount is 10,000", []) ∧
    CreateWithdrawal demoBackend 1 "999" "bca-1" "123456" =
      (.err "minimum withdrawal amount is 1,000 TLC", []) := by
  refine ⟨?_, ?_, ?_, ?_, ?_, ?_⟩ <;> decide

/-- C15.  For every run of `TransferTLC`: (1) a successful result has status
"confirmed", and then the effects contain a receipt poll for the returned hash
that the node answered with a receipt whose status is not failed, followed
immediately by the one insert, of a row with status "confirmed", the receipt's
block number and a confirmation time; (2) a run that does not succeed (revert,
timeout, refused submission, or any earlier failure) makes no insert; (3) a
receipt seen by a poll of the run decides the outcome: failed status gives the
error "transaction reverted on blockchain", any other status gives the
"confirmed" response for that hash. -/
theorem C15_row_only_after_success_receipt (b : Backend) (userID : Int)
    (toAddress amount memo pin : String) :
    (∀ resp, (TransferTLC b userID toAddress amount memo pin).1 = .ok resp →
      resp.Status = "confirmed" ∧
      ∃ cs receipt j tx pre post,
        b.contractService = some cs ∧
        cs.TransactionReceipt resp.TxHash j = .ok receipt ∧
        receipt.Status ≠ ReceiptStatusFailed ∧
        (TransferTLC b userID toAddress amount memo pin).2 =
          pre ++ Effect.TransactionReceipt resp.TxHash j :: Effect.Create tx :: post ∧
        (∀ e ∈ pre, e.isCreate = false) ∧ (∀ e ∈ post, e.isCreate = false) ∧
        tx.TxHash = resp.TxHash ∧ tx.Status = "confirmed" ∧
        tx.BlockNumber = some (toInt64 (receipt.BlockNumber % 2 ^ 64)) ∧
        tx.ConfirmedAt = some b.Now) ∧
    ((∀ resp, (TransferTLC b userID toAddress amount memo pin).1 ≠ .ok resp) →
      ∀ e ∈ (TransferTLC b userID toAddress amount memo pin).2, e.isCreate = false) ∧
    (∀ cs txHash j receipt, b.contractService = some cs →
      Effect.TransactionReceipt txHash j ∈
        (TransferTLC b userID toAddress amount memo pin).2 →
      cs.TransactionReceipt txHash j = .ok receipt →
      (receipt.Status = ReceiptStatusFailed →
        (TransferTLC b userID toAddress amount memo pin).1 =
          .err "transaction not confirmed or failed: transaction reverted on blockchain") ∧
      (receipt.Status ≠ ReceiptStatusFailed →
        ∃ resp, (TransferTLC b userID toAddress amount memo pin).1 = .ok resp ∧
          resp.Status = "confirmed" ∧ resp.TxHash = txHash)) := by
  have hpre3 : ∀ (w pk : String) (amt : Int) (enc : String),
      ∀ e ∈ [Effect.GetBalance w, Effect.DecryptPrivateKey enc, Effect.Transfer pk toAddress amt],
        e.isCreate = false ∧ e.isReceiptPoll = false := by
    intro w pk amt enc e he
    simp only [List.mem_cons, List.mem_singleton, List.mem_nil_iff, or_false] at he
    rcases he with he | he | he <;> subst he <;> exact ⟨rfl, rfl⟩
  have hlog : ∀ (created : Except String Int) (e : Effect),
      e ∈ ((match created with
          | .error m => [Effect.Log ("[ERROR] Failed to save transaction record: " ++ m)]
          | .ok _ => []) : List Effect) → e.isCreate = false ∧ e.isReceiptPoll = false := by
    intro created e he
    cases created with
    | error m => simp only [List.mem_singleton] at he; subst he; exact ⟨rfl, rfl⟩
    | ok v => simp at he
  rcases TransferTLC_cases b userID toAddress amount memo pin with
    ⟨msg, pre, hpre, hT⟩ | ⟨user, cs, pk, txHash, hcs, _, hP, hE, hO⟩
  · have hT' : TransferTLC b userID toAddress amount memo pin = (.err msg, pre) := hT b.Create
    rw [hT']
    refine ⟨fun resp h => Res.noConfusion h, fun _ e he => (hpre e he).1, ?_⟩
    intro cs txHash j receipt _ hm _
    have := (hpre _ hm).2
    simp [Effect.isReceiptPoll] at this
  · cases hw : (WaitForReceipt cs txHash 60).1 with
    | panic e =>
      have hT' : TransferTLC b userID toAddress amount memo pin = _ := hP b.Create e hw
      rw [hT']
      refine ⟨fun resp h => Res.noConfusion h, ?_, ?_⟩
      · intro _ x hx
        rcases List.mem_append.1 hx with hx | hx
        · exact (hpre3 _ _ _ _ x hx).1
        · obtain ⟨k, hk⟩ := WaitForReceipt_polls cs txHash 60 x hx
          subst hk; rfl
      · intro cs2 h2 j receipt hcs2 hm hj
        rw [hcs] at hcs2
        cases hcs2
        obtain ⟨hh, hm2⟩ := mem_submitted_trace _ _ txHash h2 j
          (fun x hx => (hpre3 _ _ _ _ x hx).2) (WaitForReceipt_polls cs txHash 60) hm
        subst hh
        have hf := WaitForReceipt_found cs h2 60 j receipt hm2 hj
        rw [hw] at hf
        split at hf <;> exact Res.noConfusion hf
    | err e =>
      have hT' : TransferTLC b userID toAddress amount memo pin = _ := hE b.Create e hw
      rw [hT']
      refine ⟨fun resp h => Res.noConfusion h, ?_, ?_⟩
      · intro _ x hx
        rcases List.mem_append.1 hx with hx | hx
        · exact (hpre3 _ _ _ _ x hx).1
        · obtain ⟨k, hk⟩ := WaitForReceipt_polls cs txHash 60 x hx
          subst hk; rfl
      · intro cs2 h2 j receipt hcs2 hm hj
        rw [hcs] at hcs2
        cases hcs2
        obtain ⟨hh, hm2⟩ := mem_submitted_trace _ _ txHash h2 j
          (fun x hx => (hpre3 _ _ _ _ x hx).2) (WaitForReceipt_polls cs txHash 60) hm
        subst hh
        have hf := WaitForReceipt_found cs h2 60 j receipt hm2 hj
        rw [hw] at hf
        refine ⟨fun hst => ?_, fun hst => ?_⟩
        · rw [if_pos hst] at hf
          cases hf
          rfl
        · rw [if_neg hst] at hf
          exact Res.noConfusion hf
    | ok receipt =>
      obtain ⟨tx, htx1, htx2, htx3, htx4, hT⟩ := hO receipt hw
      obtain ⟨pre, j, hw2, hj, hst, hprepolls⟩ := WaitForReceipt_ok cs txHash 60 receipt hw
      have hT' : TransferTLC b userID toAddress amount memo pin = _ := hT b.Create
      have hpost := hlog (b.Create tx)
      rw [hT']
      refine ⟨?_, fun hno => absurd rfl (hno _), ?_⟩
      · intro resp hresp
        simp only [Res.ok.injEq] at hresp
        subst hresp
        refine ⟨rfl, cs, receipt, j, tx,
          [Effect.GetBalance user.WalletAddress,
            Effect.DecryptPrivateKey user.PrivateKeyEncrypted,
            Effect.Transfer pk toAddress (amountWei (SetString amount))] ++ pre,
          _, hcs, hj, hst, ?_, ?_, fun x hx => (hpost x hx).1, htx1, htx2, htx3, htx4⟩
        · rw [hw2]
          simp only [List.append_assoc, List.singleton_append, List.cons_append,
            List.nil_append]
        · intro x hx
          rcases List.mem_append.1 hx with hx | hx
          · exact (hpre3 _ _ _ _ x hx).1
          · obtain ⟨k, hk⟩ := hprepolls x hx
            subst hk; rfl
      · intro cs2 h2 j2 receipt2 hcs2 hm hj2
        rw [hcs] at hcs2
        cases hcs2
        have hm' : Effect.TransactionReceipt h2 j2 ∈
            [Effect.GetBalance user.WalletAddress,
              Effect.DecryptPrivateKey user.PrivateKeyEncrypted,
              Effect.Transfer pk toAddress (amountWei (SetString amount))] ++
            (WaitForReceipt cs txHash 60).2 := by
          rcases List.mem_append.1 hm with hm | hm
          · exact hm
          · simp only [List.mem_cons] at hm
            rcases hm with hm | hm
            · exact Effect.noConfusion hm
            · have := (hpost _ hm).2
              simp [Effect.isReceiptPoll] at this
        obtain ⟨hh, hm2⟩ := mem_submitted_trace _ _ txHash h2 j2
          (fun x hx => (hpre3 _ _ _ _ x hx).2) (WaitForReceipt_polls cs txHash 60) hm'
        subst hh
        have hf := WaitForReceipt_found cs h2 60 j2 receipt2 hm2 hj2
        rw [hw] at hf
        refine ⟨fun hst2 => ?_, fun hst2 => ⟨_, rfl, rfl, rfl⟩⟩
        rw [if_pos hst2] at hf
        exact Res.noConfusion hf

/-- C17 (counterexample).  The same top-up request run against a store that
accepts the insert (and assigns id 7) and against a store that refuses it: the
two responses differ in their `ID` field (7 and 0). -/
theorem C17_counterexample :
    (RequestTopup demoBackend 1
        { Amount := "20000", PaymentMethod := "bank", Pin := "123456" }).1 =
      .ok { ID := 7, Amount := "20000", Currency := "TLC", PaymentMethod := "bank",
            PaymentDetails := [("method", "bank"), ("blockchain_only", "false"),
              ("synced_to_db", "true"), ("note", "Topup confirmed & recorded")],
            Status := "confirmed", TxHash := demoTxHash, CreatedAt := 1700000000 } ∧
    (RequestTopup refusingBackend 1
        { Amount := "20000", PaymentMethod := "bank", Pin := "123456" }).1 =
      .ok { ID := 0, Amount := "20000", Currency := "TLC", PaymentMethod := "bank",
            PaymentDetails := [("method", "bank"), ("blockchain_only", "false"),
              ("synced_to_db", "true"), ("note", "Topup confirmed & recorded")],
            Status := "confirmed", TxHash := demoTxHash, CreatedAt := 1700000000 } ∧
    (RequestTopup demoBackend 1
        { Amount := "20000", PaymentMethod := "bank", Pin := "123456" }).1 ≠
      (RequestTopup refusingBackend 1
        { Amount := "20000", PaymentMethod := "bank", Pin := "123456" }).1 := by
  refine ⟨?_, ?_, ?_⟩ <;> decide

/-- C17 (amended).  Two runs that differ only in how `txRepo.Create` answers
return the same result from `TransferTLC` and from `CreateWithdrawal`, and the
same result from `RequestTopup` apart from the `ID` field of the response,
which is the id the insert assigned, or zero when the insert failed. -/
theorem C17_mirror_write_best_effort (b : Backend) (userID : Int)
    (c₁ c₂ : Transaction → Except String Int) :
    (∀ toAddress amount memo pin : String,
      (TransferTLC { b with Create := c₁ } userID toAddress amount memo pin).1 =
        (TransferTLC { b with Create := c₂ } userID toAddress amount memo pin).1) ∧
    (∀ amount bankAccount pin : String,
      (CreateWithdrawal { b with Create := c₁ } userID amount bankAccount pin).1 =
        (CreateWithdrawal { b with Create := c₂ } userID amount bankAccount pin).1) ∧
    (∀ req : TopupRequest,
      (RequestTopup { b with Create := c₁ } userID req).1.map (fun r => { r with ID := 0 }) =
        (RequestTopup { b with Create := c₂ } userID req).1.map
          (fun r => { r with ID := 0 })) ∧
    (∀ (req : TopupRequest) (resp : TopupResponse),
      (RequestTopup { b with Create := c₁ } userID req).1 = .ok resp →
      ∃ tx, Effect.Create tx ∈ (RequestTopup { b with Create := c₁ } userID req).2 ∧
        ((∃ e, c₁ tx = .error e ∧ resp.ID = 0) ∨ c₁ tx = .ok resp.ID)) := by
  refine ⟨fun toAddress amount memo pin => ?_, fun amount bankAccount pin => ?_,
    fun req => ?_, fun req resp hresp => ?_⟩
  · rcases TransferTLC_cases b userID toAddress amount memo pin with
      ⟨msg, pre, _, hT⟩ | ⟨user, cs, pk, txHash, _, _, hP, hE, hO⟩
    · rw [hT c₁, hT c₂]
    · cases hw : (WaitForReceipt cs txHash 60).1 with
      | panic e => rw [hP c₁ e hw, hP c₂ e hw]
      | err e => rw [hE c₁ e hw, hE c₂ e hw]
      | ok receipt =>
        obtain ⟨tx, _, _, _, _, hT⟩ := hO receipt hw
        rw [hT c₁, hT c₂]
  · rcases CreateWithdrawal_cases b userID amount bankAccount pin with
      ⟨msg, pre, _, hT⟩ | ⟨user, cs, pk, txHash, tx, _, _, _, _, _, _, _, hT⟩
    · rw [hT c₁, hT c₂]
    · rw [hT c₁, hT c₂]
  · rcases RequestTopup_cases b userID req with
      ⟨msg, pre, _, hT⟩ | ⟨cs, pk, txHash, pre, tx, _, _, _, _, _, _, _, _, _, hT⟩
    · rw [hT c₁, hT c₂]
    · rw [hT c₁, hT c₂]
      rfl
  · rcases RequestTopup_cases b userID req with
      ⟨msg, pre, _, hT⟩ | ⟨cs, pk, txHash, pre, tx, _, _, _, _, _, _, _, _, _, hT⟩
    · rw [hT c₁] at hresp
      exact Res.noConfusion hresp
    · rw [hT c₁] at hresp ⊢
      simp only [Res.ok.injEq] at hresp
      subst hresp
      refine ⟨tx, by simp, ?_⟩
      cases hc : c₁ tx with
      | error e => exact Or.inl ⟨e, rfl, rfl⟩
      | ok id => exact Or.inr rfl

/-- C18 (counterexample).  The recipient check of `TransferTLC` accepts forty
hex characters without the `0x` prefix, and the transfer is submitted to that
string.  The explorer handlers pass on 42 (66) bytes that start with `0x` but
are not hexadecimal: the answer then depends on the node (an error of the node
becomes a 500 or a 404, a receipt the node returns is shown), while
`ValidateTransactionHash` rejects the same hash. -/
theorem C18_counterexample :
    IsHexAddress "1111111111111111111111111111111111111111" = true ∧
    Effect.Transfer "key-of-enc-alice" "1111111111111111111111111111111111111111"
        (5 * 10 ^ 18) ∈
      (TransferTLC demoBackend 1 "1111111111111111111111111111111111111111" "5" "hi"
        "123456").2 ∧
    BlockchainExplorerHandler.GetTransactionsByAddress (demoService demoLogs) notHexAddress
        "1" "10" =
      .Success "Address transactions retrieved"
        { Transactions := [], TotalCount := 0, Page := 1, Limit := 10 } ∧
    BlockchainExplorerHandler.GetTransactionsByAddress downService notHexAddress "1" "10" =
      .InternalServerError "Failed to get transactions" ∧
    ValidateTransactionHash notHexHash = false ∧
    BlockchainExplorerHandler.GetTransactionByHash downService notHexHash =
      .NotFound "Transaction not found" ∧
    BlockchainExplorerHandler.GetTransactionByHash
        (demoService [{ paymentLog 0 with TxHash := notHexHash }]) notHexHash =
      .Success "Transaction details retrieved"
        { paymentItem 0 with TxHash := notHexHash } := by
  refine ⟨?_, ?_, ?_, ?_, ?_, ?_, ?_⟩ <;> decide

/-- C18 (amended).  What is rejected before any chain call: by the explorer's
by-address handler, every address whose length is not 42 bytes or that does not
start with `0x`; by its by-hash handler, every hash whose length is not 66
bytes or that does not start with `0x` (both answer 400 whatever the node
would say); by `TransferTLC`, every recipient that is not forty hex characters
after an optional `0x` or `0X` (it returns an error with no effect at all). -/
theorem C18_shape_checks :
    (∀ address pageStr limitStr : String,
      (address.utf8ByteSize ≠ 42 ∨ address.data.take 2 ≠ ['0', 'x']) →
      ∃ msg, ∀ s : BlockchainExplorerService,
        BlockchainExplorerHandler.GetTransactionsByAddress s address pageStr limitStr =
          .BadRequest msg) ∧
    (∀ txHash : String,
      (txHash.utf8ByteSize ≠ 66 ∨ txHash.data.take 2 ≠ ['0', 'x']) →
      ∃ msg, ∀ s : BlockchainExplorerService,
        BlockchainExplorerHandler.GetTransactionByHash s txHash = .BadRequest msg) ∧
    (∀ (b : Backend) (userID : Int) (toAddress amount memo pin : String),
      IsHexAddress toAddress = false →
      ∃ msg, TransferTLC b userID toAddress amount memo pin = (.err msg, [])) := by
  refine ⟨?_, ?_, ?_⟩
  · intro address pageStr limitStr h
    by_cases h0 : address = ""
    · exact ⟨"Address parameter is required", fun s => by
        simp [BlockchainExplorerHandler.GetTransactionsByAddress, h0]⟩
    · exact ⟨"Invalid address format", fun s => by
        simp only [BlockchainExplorerHandler.GetTransactionsByAddress, h0, h, if_false,
          if_true]⟩
  · intro txHash h
    by_cases h0 : txHash = ""
    · exact ⟨"Transaction hash parameter is required", fun s => by
        simp [BlockchainExplorerHandler.GetTransactionByHash, h0]⟩
    · exact ⟨"Invalid transaction hash format", fun s => by
        simp only [BlockchainExplorerHandler.GetTransactionByHash, h0, h, if_false,
          if_true]⟩
  · intro b userID toAddress amount memo pin h
    cases hU : b.GetByID userID with
    | error e =>
      cases e with
      | recordNotFound => exact ⟨"user not found", by simp [TransferTLC, hU]⟩
      | other m => exact ⟨m, by simp [TransferTLC, hU]⟩
    | ok user =>
      by_cases h1 : user.Status = "active"
      swap
      · exact ⟨"account is not active", by simp [TransferTLC, hU, h1]⟩
      cases h2 : VerifyPin b pin user.PinHash with
      | false => exact ⟨"invalid PIN", by simp [TransferTLC, hU, h1, h2]⟩
      | true =>
        exact ⟨"invalid recipient address format", by simp [TransferTLC, hU, h1, h2, h]⟩

/-- C19.  For every pair of query strings `ValidatePagination` returns no
error, a page of at least 1 and a limit between 1 and 100; the page is 1 unless
the string is a number of at least 1 (then it is that number), the limit is 10
unless the string is a number between 1 and 100 (then it is that number).  With
these values `GetTopupHistory` does not panic on its division by `limit`, so
the handler never answers with a recovered panic. -/
theorem C19_pagination_bounds (page limit : String) :
    (ValidatePagination page limit).2.2 = none ∧
    1 ≤ (ValidatePagination page limit).1 ∧
    1 ≤ (ValidatePagination page limit).2.1 ∧ (ValidatePagination page limit).2.1 ≤ 100 ∧
    (ValidatePagination page limit).1 =
      (match Atoi page with
       | some p => if 1 ≤ p then p else 1
       | none => 1) ∧
    (ValidatePagination page limit).2.1 =
      (match Atoi limit with
       | some l => if 1 ≤ l ∧ l ≤ 100 then l else 10
       | none => 10) ∧
    (∀ (b : Backend) (userID : Int) (e : String),
      GetTopupHistory b userID (ValidatePagination page limit).1
        (ValidatePagination page limit).2.1 ≠ .panic e) ∧
    (∀ (b : Backend) (userID : Int) (e : String),
      TopupHandler.GetTopupHistory b userID page limit ≠ .Panic e) := by
  obtain ⟨h1, h2, h3, h4⟩ := ValidatePagination_bounds page limit
  have hne : (ValidatePagination page limit).2.1 ≠ 0 := by omega
  refine ⟨h1, h2, h3, h4, ?_, ?_, fun b userID e => GetTopupHistory_ne_panic b userID _ _ hne e,
    ?_⟩
  · simp only [ValidatePagination]
    by_cases hp : page = ""
    · subst hp
      simp [Atoi_empty]
    · simp only [ne_eq, hp, not_false_eq_true, if_true]
      cases Atoi page with
      | none => rfl
      | some p =>
        simp only
        by_cases hp1 : p < 1
        · simp [hp1, not_le.2 hp1]
        · simp [hp1, not_lt.1 hp1]
  · simp only [ValidatePagination]
    by_cases hl : limit = ""
    · subst hl
      simp [Atoi_empty]
    · simp only [ne_eq, hl, not_false_eq_true, if_true]
      cases Atoi limit with
      | none => rfl
      | some l =>
        simp only
        by_cases hl1 : l < 1 ∨ l > 100
        · have : ¬ (1 ≤ l ∧ l ≤ 100) := by omega
          simp [hl1, this]
        · have : 1 ≤ l ∧ l ≤ 100 := by omega
          simp [hl1, this]
  · intro b userID e
    have hno := GetTopupHistory_ne_panic b userID (ValidatePagination page limit).1
      (ValidatePagination page limit).2.1 hne
    unfold TopupHandler.GetTopupHistory
    have hshape : ValidatePagination page limit =
        ((ValidatePagination page limit).1, (ValidatePagination page limit).2.1, none) := by
      rw [← h1]
    rw [hshape]
    simp only
    cases hr : GetTopupHistory b userID (ValidatePagination page limit).1
        (ValidatePagination page limit).2.1 with
    | ok v => exact fun h => HandlerResponse.noConfusion h
    | err m => exact fun h => HandlerResponse.noConfusion h
    | panic m => exact absurd hr (hno m)

theorem C11_insufficient_on_chain_balance_witness :
    VerifyPin demoBackend "123456" demoUser.PinHash = true ∧
    IsHexAddress strangerAddress = true ∧
    (50000 * 10 ^ 18 : Int) < SetString "60000" * 10 ^ 18 ∧
    TransferTLC { demoBackend with balanceRow := { Balance := "60000", LockedBalance := "0" } }
        1 strangerAddress "60000" "hi" "123456" =
      (.err "insufficient on-chain balance", [Effect.GetBalance demoUser.WalletAddress]) :=
  ⟨by decide, by decide, by decide,
   (C11_insufficient_on_chain_balance demoBackend 1 strangerAddress "60000" "hi" "123456"
      demoUser demoContractService (50000 * 10 ^ 18) rfl rfl (by decide) (by decide)
      (by decide) (by decide) (by decide) rfl rfl rfl (by decide)
      { Balance := "60000", LockedBalance := "0" }).1⟩

theorem checks_before_chain_example :
    (∃ msg ∈ ["account is not active", "invalid PIN", "invalid recipient address format",
        "cannot transfer to yourself", "invalid amount format",
        "amount must be greater than 0"],
      TransferTLC demoBackend 1 strangerAddress "0" "hi" "123456" = (.err msg, [])) ∧
    (∃ msg ∈ ["account is not active", "invalid PIN", "minimum topup amount is 10,000"],
      RequestTopup demoBackend 1 { Amount := "20000", PaymentMethod := "bank", Pin := "000000" } =
        (.err msg, [])) ∧
    (∃ msg ∈ ["account is not active", "invalid PIN", "invalid amount format",
        "minimum withdrawal amount is 1,000 TLC"],
      CreateWithdrawal demoBackend 1 "12x" "bca-1" "123456" = (.err msg, [])) :=
  have h := checks_before_chain demoBackend 1 demoUser rfl
  ⟨h.1 strangerAddress "0" "hi" "123456"
      (Or.inr (Or.inr (Or.inr (Or.inr (Or.inr (by decide)))))),
   h.2.1 { Amount := "20000", PaymentMethod := "bank", Pin := "000000" }
      (Or.inr (Or.inl (by decide))),
   h.2.2 "12x" "bca-1" "123456" (Or.inr (Or.inr (Or.inl (by decide))))⟩

theorem C15_row_only_after_success_receipt_witness :
    (∃ cs receipt j tx pre post,
      demoBackend.contractService = some cs ∧
      cs.TransactionReceipt demoTxHash j = .ok receipt ∧
      receipt.Status ≠ ReceiptStatusFailed ∧
      (TransferTLC demoBackend 1 demoRecipient.WalletAddress "5" "hi" "123456").2 =
        pre ++ Effect.TransactionReceipt demoTxHash j :: Effect.Create tx :: post ∧
      (∀ e ∈ pre, e.isCreate = false) ∧ (∀ e ∈ post, e.isCreate = false) ∧
      tx.TxHash = demoTxHash ∧ tx.Status = "confirmed" ∧
      tx.BlockNumber = some (toInt64 (receipt.BlockNumber % 2 ^ 64)) ∧
      tx.ConfirmedAt = some demoBackend.Now) ∧
    (∀ e ∈ (TransferTLC revertingBackend 1 demoRecipient.WalletAddress "5" "hi" "123456").2,
      e.isCreate = false) :=
  have hok : (TransferTLC demoBackend 1 demoRecipient.WalletAddress "5" "hi" "123456").1 =
      .ok { TxHash := demoTxHash, FromAddress := demoUser.WalletAddress,
            ToAddress := demoRecipient.WalletAddress, Amount := "5",
            AmountWei := "5000000000000000000", Memo := "hi", Status := "confirmed",
            Timestamp := 1700000000 } := by decide
  have herr : (TransferTLC revertingBackend 1 demoRecipient.WalletAddress "5" "hi" "123456").1 =
      .err "transaction not confirmed or failed: transaction reverted on blockchain" := by
    decide
  ⟨((C15_row_only_after_success_receipt demoBackend 1 demoRecipient.WalletAddress "5" "hi"
      "123456").1 _ hok).2,
   (C15_row_only_after_success_receipt revertingBackend 1 demoRecipient.WalletAddress "5" "hi"
      "123456").2.1 (fun resp h => Res.noConfusion (herr.symm.trans h))⟩

theorem C17_mirror_write_best_effort_witness :
    (TransferTLC demoBackend 1 strangerAddress "5" "hi" "123456").1 =
      (TransferTLC refusingBackend 1 strangerAddress "5" "hi" "123456").1 ∧
    ∃ tx, Effect.Create tx ∈ (RequestTopup refusingBackend 1
        { Amount := "20000", PaymentMethod := "bank", Pin := "123456" }).2 ∧
      ((∃ e, refusingBackend.Create tx = .error e ∧ (0 : Int) = 0) ∨
        refusingBackend.Create tx = .ok 0) :=
  have hok : (RequestTopup refusingBackend 1
        { Amount := "20000", PaymentMethod := "bank", Pin := "123456" }).1 =
      .ok { ID := 0, Amount := "20000", Currency := "TLC", PaymentMethod := "bank",
            PaymentDetails := [("method", "bank"), ("blockchain_only", "false"),
              ("synced_to_db", "true"), ("note", "Topup confirmed & recorded")],
            Status := "confirmed", TxHash := demoTxHash, CreatedAt := 1700000000 } := by
    decide
  ⟨(C17_mirror_write_best_effort demoBackend 1 demoBackend.Create refusingBackend.Create).1
      strangerAddress "5" "hi" "123456",
   (C17_mirror_write_best_effort demoBackend 1 refusingBackend.Create
      demoBackend.Create).2.2.2 _ _ hok⟩

theorem C18_shape_checks_witness :
    (∃ msg, ∀ s : BlockchainExplorerService,
      BlockchainExplorerHandler.GetTransactionsByAddress s "0xabc" "1" "10" =
        .BadRequest msg) ∧
    (∃ msg, ∀ s : BlockchainExplorerService,
      BlockchainExplorerHandler.GetTransactionByHash s demoUserLower = .BadRequest msg) ∧
    (∃ msg, TransferTLC demoBackend 1 notHexAddress "5" "hi" "123456" = (.err msg, [])) :=
  ⟨C18_shape_checks.1 "0xabc" "1" "10" (Or.inl (by decide)),
   C18_shape_checks.2.1 demoUserLower (Or.inl (by decide)),
   C18_shape_checks.2.2 demoBackend 1 notHexAddress "5" "hi" "123456" (by decide)⟩

theorem C19_pagination_bounds_witness :
    ValidatePagination "abc" "0" = (1, 10, none) ∧
    ValidatePagination "3" "500" = (3, 10, none) ∧
    ValidatePagination "3" "100" = (3, 100, none) ∧
    TopupHandler.GetTopupHistory demoBackend 1 "abc" "0" ≠ .Panic "integer divide by zero" :=
  ⟨by decide, by decide, by decide,
   (C19_pagination_bounds "abc" "0").2.2.2.2.2.2.2 demoBackend 1 "integer divide by zero"⟩

/-! ## Normalisation of single groups -/

/-- C26.  `parseTransfer` returns an error for every log whose value is zero,
and so does `parseLogToTransaction` for every such log with the `Transfer`
signature; a group whose selected log is a zero-value `Transfer` leaves no item
under its hash in the materialized list, whose length is the `TotalCount` of
every page.  For a log with at least three topics and a non-zero value
`parseTransfer` returns a record whose type is "mint" when the origin is the
zero address, otherwise "burn" when the destination is, otherwise
"transfer". -/
theorem C26_zero_transfer_dropped (s : BlockchainExplorerService)
    (hperm : ∀ m, (s.mapRange m).Perm m)
    (hnc : isCustomEvent s.contractABI s.contractABI.Transfer = false) :
    (∀ l timestamp, SetBytes l.Data = 0 → ∃ e, parseTransfer s l timestamp = .err e) ∧
    (∀ l, l.Topics.head? = some s.contractABI.Transfer → SetBytes l.Data = 0 →
      ∃ e, parseLogToTransaction s l = .err e) ∧
    (∀ fromBlock toBlock page limit r logs entry l,
      s.FilterLogs (fromBlock.getD 0) toBlock = .ok logs →
      GetAllTransactions s fromBlock toBlock page limit = .ok r →
      entry ∈ groupLogs logs → selectLog s.contractABI entry.2 = .ok (some l) →
      l.Topics.head? = some s.contractABI.Transfer → SetBytes l.Data = 0 →
      ∃ all, materialize s logs = .ok all ∧ r.TotalCount = all.length ∧
        (∀ tx ∈ all, tx.TxHash ≠ entry.1) ∧ ∀ tx ∈ r.Transactions, tx.TxHash ≠ entry.1) ∧
    (∀ l timestamp, 3 ≤ l.Topics.length → SetBytes l.Data ≠ 0 →
      ∃ tx, parseTransfer s l timestamp = .ok tx ∧
        tx.FromAddress = topicAddress s l 1 ∧ tx.ToAddress = topicAddress s l 2 ∧
        tx.Type_ =
          (if topicAddress s l 1 = zeroAddress then "mint"
           else if topicAddress s l 2 = zeroAddress then "burn"
           else "transfer")) := by
  refine ⟨fun l ts h => parseTransfer_zero s l ts h,
    fun l hsig h => parseLogToTransaction_zero_transfer s l hsig hnc h, ?_,
    fun l ts h3 hnz => parseTransfer_nonzero s l ts h3 hnz⟩
  intro fromBlock toBlock page limit r logs entry l hlogs hr hentry hsel hsig hzero
  obtain ⟨logs1, all, hlogs1, hall, hpage⟩ :=
    GetAllTransactions_ok s fromBlock toBlock page limit r hr
  rw [hlogs] at hlogs1
  cases hlogs1
  obtain ⟨e, he⟩ := parseLogToTransaction_zero_transfer s l hsig hnc hzero
  have hdrop := materialize_dropped s hperm logs all hall entry hentry l hsel
    (fun tx htx => by rw [he] at htx; exact Res.noConfusion htx)
  refine ⟨all, hall, ?_, hdrop, ?_⟩
  · rw [(paginate_ok _ _ _ r hpage).1, (sortTransactions_perm all).length_eq]
  · intro tx htx
    have h1 : tx ∈ sortTransactions all := (paginate_sublist _ _ _ r hpage).subset htx
    exact hdrop tx ((sortTransactions_perm all).mem_iff.1 h1)

/-- C22 (counterexample).  The transaction `0xa1` emits a `TopupRequested` log
followed by a `TokensMinted` log.  The record of the transaction is decoded
from the `TopupRequested` log (status "pending"), not from the `TokensMinted`
log, which decodes to a different record (status "confirmed"); with the two
logs in the other order it is decoded from the `TokensMinted` log. -/
theorem C22_counterexample :
    materialize (demoService [demoTopup, demoMinted]) [demoTopup, demoMinted] =
      .ok [demoTopupItem] ∧
    GetAllTransactions (demoService [demoTopup, demoMinted]) none none 1 10 =
      .ok { Transactions := [demoTopupItem], TotalCount := 1, Page := 1, Limit := 10 } ∧
    parseLogToTransaction (demoService [demoTopup, demoMinted]) demoMinted =
      .ok demoMintedItem ∧
    demoTopupItem ≠ demoMintedItem ∧
    materialize (demoService [demoMinted, demoTopup]) [demoMinted, demoTopup] =
      .ok [demoMintedItem] := by
  refine ⟨?_, ?_, ?_, ?_, ?_⟩ <;> decide

/-- C22 (amended).  Among the logs of one transaction hash, taken in the order
in which the node returned them, the log that is decoded is the first one whose
signature is any of the five custom events, whatever its kind; only a group
without custom event is decoded from its first `Transfer` log. -/
theorem C22_first_custom_log_wins (s : BlockchainExplorerService)
    (hperm : ∀ m, (s.mapRange m).Perm m) :
    (∀ (pre post : List Log) (l : Log) (sig : String),
      (∀ p ∈ pre, ∃ sg, p.Topics.head? = some sg ∧ isCustomEvent s.contractABI sg = false) →
      l.Topics.head? = some sig → isCustomEvent s.contractABI sig = true →
      selectLog s.contractABI (pre ++ l :: post) = .ok (some l)) ∧
    (∀ logs all tx, materialize s logs = .ok all → tx ∈ all →
      ∃ pre l post,
        logs.filter (fun x => x.TxHash = tx.TxHash) = pre ++ l :: post ∧
        parseLogToTransaction s l = .ok tx ∧
        (((∃ sig, l.Topics.head? = some sig ∧ isCustomEvent s.contractABI sig = true) ∧
            ∀ p ∈ pre, ∃ sg, p.Topics.head? = some sg ∧
              isCustomEvent s.contractABI sg = false) ∨
          ((∀ p ∈ logs.filter (fun x => x.TxHash = tx.TxHash),
              ∃ sg, p.Topics.head? = some sg ∧ isCustomEvent s.contractABI sg = false) ∧
            l.Topics.head? = some s.contractABI.Transfer ∧
            ∀ p ∈ pre, p.Topics.head? ≠ some s.contractABI.Transfer))) := by
  refine ⟨fun pre post l sig hpre hl hc => selectLog_first _ pre post l sig hpre hl hc, ?_⟩
  intro logs all tx h htx
  obtain ⟨e, he, l, hsel, hparse⟩ := materialize_mem s logs all h tx htx
  obtain ⟨hf, _⟩ := mapRange_entry s hperm logs e he
  have hl : l ∈ e.2 := (selectLog_some _ _ _ hsel).1
  rw [hf] at hl
  have hk : l.TxHash = e.1 := by simpa using (List.mem_filter.1 hl).2
  have hkey : tx.TxHash = e.1 := by rw [(parseLogToTransaction_ok s l tx hparse).1, hk]
  obtain ⟨pre, post, hsplit, hcase⟩ := selectLog_split _ _ _ hsel
  rw [hf, ← hkey] at hsplit
  refine ⟨pre, l, post, hsplit, hparse, ?_⟩
  rw [hf, ← hkey] at hcase
  exact hcase

/-- C24.  When the receipt of a hash holds only logs of the contract, all with
that hash, `GetTransactionByHash` selects the log that `GetAllTransactions`
selects for the group of these logs, and it returns a record exactly when that
group materializes to this one record: both give the same record, or both give
none (an error from the lookup, an empty list from the scan), or both panic. -/
theorem C24_same_selection_by_hash (s : BlockchainExplorerService)
    (hperm : ∀ m, (s.mapRange m).Perm m) (txHash : String) (logs : List Log)
    (hreceipt : s.TransactionReceipt txHash = .ok logs)
    (haddr : ∀ l ∈ logs, l.Address = s.contractAddress)
    (hhash : ∀ l ∈ logs, l.TxHash = txHash) :
    (match findCustomEventOfContract s logs with
      | .ok none => findTransferEventOfContract s logs
      | found => found) = selectLog s.contractABI logs ∧
    (∀ tx, GetTransactionByHash s txHash = .ok tx ↔ materialize s logs = .ok [tx]) ∧
    ((∃ e, GetTransactionByHash s txHash = .err e) ↔ materialize s logs = .ok []) ∧
    (∀ e, GetTransactionByHash s txHash = .panic e ↔ materialize s logs = .panic e) := by
  refine ⟨selection_by_hash_eq s logs haddr, ?_⟩
  rw [GetTransactionByHash_eq s txHash logs hreceipt haddr,
    materialize_one_hash s hperm txHash logs hhash]
  cases hsel : selectLog s.contractABI logs with
  | err e => exact absurd hsel (selectLog_ne_err _ _ e)
  | panic e => simp
  | ok v =>
    cases v with
    | none => simp
    | some l =>
      simp only
      cases parseLogToTransaction s l with
      | ok tx => simp
      | err e => simp
      | panic e => simp

theorem C22_first_custom_log_wins_witness :
    selectLog (demoService [demoTopup, demoMinted]).contractABI
        ([demoTransfer] ++ demoTopup :: [demoMinted]) = .ok (some demoTopup) ∧
    ∃ pre l post,
      [demoTopup, demoMinted].filter (fun x => x.TxHash = demoTopupItem.TxHash) =
        pre ++ l :: post ∧
      parseLogToTransaction (demoService [demoTopup, demoMinted]) l = .ok demoTopupItem :=
  have h := C22_first_custom_log_wins (demoService [demoTopup, demoMinted])
    (fun m => List.reverse_perm m)
  have hm : materialize (demoService [demoTopup, demoMinted]) [demoTopup, demoMinted] =
      .ok [demoTopupItem] := by decide
  ⟨h.1 [demoTransfer] [demoMinted] demoTopup "0x04"
      (fun p hp => ⟨"0x06", by
        simp only [List.mem_singleton] at hp
        subst hp
        exact ⟨rfl, by decide⟩⟩) rfl (by decide),
   match h.2 [demoTopup, demoMinted] [demoTopupItem] demoTopupItem hm
      (List.mem_singleton_self _) with
   | ⟨pre, l, post, h1, h2, _⟩ => ⟨pre, l, post, h1, h2⟩⟩

theorem C24_same_selection_by_hash_witness :
    GetTransactionByHash (demoService [demoTopup, demoMinted]) "0xa1" = .ok demoTopupItem ∧
    materialize (demoService [demoTopup, demoMinted]) [demoTopup, demoMinted] =
      .ok [demoTopupItem] :=
  have hv : GetTransactionByHash (demoService [demoTopup, demoMinted]) "0xa1" =
      .ok demoTopupItem := by decide
  ⟨hv, ((C24_same_selection_by_hash (demoService [demoTopup, demoMinted])
      (fun m => List.reverse_perm m) "0xa1" [demoTopup, demoMinted] rfl
      (by decide) (by decide)).2.1 demoTopupItem).1 hv⟩

theorem C26_zero_transfer_dropped_witness :
    (∃ e, parseLogToTransaction (demoService [zeroTransfer, demoPayment]) zeroTransfer =
      .err e) ∧
    ∃ all, materialize (demoService [zeroTransfer, demoPayment]) [zeroTransfer, demoPayment] =
        .ok all ∧
      (1 : Int) = all.length ∧ (∀ tx ∈ all, tx.TxHash ≠ "0xe5") ∧
      ∀ tx ∈ [demoPaymentItem], tx.TxHash ≠ "0xe5" :=
  have h := C26_zero_transfer_dropped (demoService [zeroTransfer, demoPayment])
    (fun m => List.reverse_perm m) (by decide)
  have hv : GetAllTransactions (demoService [zeroTransfer, demoPayment]) none none 1 10 =
      .ok { Transactions := [demoPaymentItem], TotalCount := 1, Page := 1, Limit := 10 } := by
    decide
  ⟨h.2.1 zeroTransfer rfl (by decide),
   h.2.2.1 none none 1 10 _ [zeroTransfer, demoPayment] ("0xe5", [zeroTransfer]) zeroTransfer
     rfl hv (by decide) (by decide) rfl (by decide)⟩

/-- C23 (counterexample).  The node returns the two `Transfer` logs of the
transaction `0xd4`, one complete and one that carries its signature only.  In
the order [complete, short] the scan returns the decoded transfer and
`TotalCount = 1`; in the order [short, complete], a permutation of the same
logs, the short log is selected, does not decode, and the scan returns no item
and `TotalCount = 0`. -/
theorem C23_counterexample :
    [fullTransfer, shortTransfer].Perm [shortTransfer, fullTransfer] ∧
    GetAllTransactions (demoService [fullTransfer, shortTransfer]) none none 1 10 =
      .ok { Transactions := [fullTransferItem], TotalCount := 1, Page := 1, Limit := 10 } ∧
    GetAllTransactions (demoService [shortTransfer, fullTransfer]) none none 1 10 =
      .ok { Transactions := [], TotalCount := 0, Page := 1, Limit := 10 } := by
  refine ⟨List.Perm.swap _ _ _, ?_, ?_⟩ <;> decide

/-- C23 (amended).  `GetAllTransactions` returns the same result (the same
page with the same `TotalCount`, or the same panic) for every order in which
the `range` visits the groups and for every reordering of the logs that keeps
the order of the logs within each transaction hash. -/
theorem C23_order_within_hash (s : BlockchainExplorerService)
    (f₁ f₂ : List (String × List Log) → List (String × List Log))
    (hf₁ : ∀ m, (f₁ m).Perm m) (hf₂ : ∀ m, (f₂ m).Perm m) (logs₁ logs₂ : List Log)
    (hsame : ∀ k, logs₁.filter (fun l => l.TxHash = k) =
      logs₂.filter (fun l => l.TxHash = k)) :
    ∀ fromBlock toBlock page limit,
      GetAllTransactions { s with FilterLogs := fun _ _ => .ok logs₁, mapRange := f₁ }
          fromBlock toBlock page limit =
        GetAllTransactions { s with FilterLogs := fun _ _ => .ok logs₂, mapRange := f₂ }
          fromBlock toBlock page limit := by
  intro fromBlock toBlock page limit
  have hg := groupLogs_perm_of_filter_eq logs₁ logs₂ hsame
  refine GetAllTransactions_congr _ _ hf₁ hf₂ logs₁ logs₂ _ _ _ _ rfl rfl ?_ ?_
  · constructor
    · rintro ⟨e, he, m, hm⟩
      exact ⟨e, hg.mem_iff.1 he, m, hm⟩
    · rintro ⟨e, he, m, hm⟩
      exact ⟨e, hg.mem_iff.2 he, m, hm⟩
  · exact hg.filterMap _

/-- C27 (counterexample).  The `Transfer` log of transaction `0xd4` carries its
signature only and decodes to the error "invalid transfer event"; the scan over
this log and a payment returns the payment with a nil error, exactly what the
scan over the payment alone returns: the decode error is not surfaced. -/
theorem C27_counterexample :
    parseLogToTransaction (demoService [shortTransfer, demoPayment]) shortTransfer =
      .err "invalid transfer event" ∧
    GetAllTransactions (demoService [shortTransfer, demoPayment]) none none 1 10 =
      .ok { Transactions := [demoPaymentItem], TotalCount := 1, Page := 1, Limit := 10 } ∧
    GetAllTransactions (demoService [demoPayment]) none none 1 10 =
      .ok { Transactions := [demoPaymentItem], TotalCount := 1, Page := 1, Limit := 10 } := by
  refine ⟨?_, ?_, ?_⟩ <;> decide

/-- C27 (amended).  A group whose selected log fails to decode is dropped
silently.  The only error `GetAllTransactions` ever returns is the error of the
log query; and when the selected log of the group of hash `k` decodes to an
error, every call returns what it returns on the same logs without those of
hash `k`. -/
theorem C27_failed_group_dropped_silently (s : BlockchainExplorerService)
    (hperm : ∀ m, (s.mapRange m).Perm m) :
    (∀ fromBlock toBlock page limit e,
      GetAllTransactions s fromBlock toBlock page limit = .err e →
      ∃ e0, s.FilterLogs (fromBlock.getD 0) toBlock = .error e0 ∧
        e = "failed to filter logs: " ++ e0) ∧
    (∀ (f₂ : List (String × List Log) → List (String × List Log)) (logs : List Log)
        (k : String) (l : Log) (e0 : String),
      (∀ m, (f₂ m).Perm m) →
      selectLog s.contractABI (logs.filter (fun x => x.TxHash = k)) = .ok (some l) →
      parseLogToTransaction s l = .err e0 →
      ∀ fromBlock toBlock page limit,
        GetAllTransactions { s with FilterLogs := fun _ _ => .ok logs }
            fromBlock toBlock page limit =
          GetAllTransactions
            { s with FilterLogs := fun _ _ => .ok (logs.filter (fun x => x.TxHash ≠ k))
                     mapRange := f₂ }
            fromBlock toBlock page limit) := by
  constructor
  · intro fromBlock toBlock page limit e h
    cases hlogs : s.FilterLogs (fromBlock.getD 0) toBlock with
    | error e0 =>
      refine ⟨e0, rfl, ?_⟩
      simp only [GetAllTransactions, hlogs, Res.err.injEq] at h
      exact h.symm
    | ok logs =>
      exfalso
      rw [GetAllTransactions_of_logs s _ _ _ _ logs hlogs] at h
      rcases materialize_cases s hperm logs with ⟨_, hm⟩ | ⟨_, all, hm⟩
      · rw [hm] at h
        exact Res.noConfusion h
      · rw [hm] at h
        simp only at h
        unfold paginate at h
        simp only at h
        repeat' split at h
        all_goals exact Res.noConfusion h
  · intro f₂ logs k l e0 hf₂ hsel hparse fromBlock toBlock page limit
    have hg := groupLogs_remove_hash logs k
    have hgroup : ∀ e ∈ groupLogs logs, e.1 = k →
        selectLog s.contractABI e.2 = .ok (some l) := by
      intro e he hk
      rw [(groupLogs_entry logs e he).1, hk]
      exact hsel
    have hnopanic : ∀ e ∈ groupLogs logs, e.1 = k → ∀ m,
        processTx s { allTransactions := [], processedTx := [] } e ≠ .panic m := by
      intro e he hk m
      simp only [processTx, List.not_mem_nil, if_false, hgroup e he hk, hparse]
      exact fun h => Res.noConfusion h
    have hnone : ∀ e ∈ groupLogs logs, e.1 = k → decodedRecord s e.2 = none := by
      intro e he hk
      simp only [decodedRecord, hgroup e he hk, hparse]
    refine GetAllTransactions_congr { s with FilterLogs := fun _ _ => .ok logs }
      { s with FilterLogs := fun _ _ => .ok (logs.filter (fun x => x.TxHash ≠ k))
               mapRange := f₂ } hperm hf₂ logs _ _ _ _ _ rfl rfl ?_ ?_
    · constructor
      · rintro ⟨e, he, m, hm⟩
        refine ⟨e, hg.mem_iff.2 (List.mem_filter.2 ⟨he, ?_⟩), m, hm⟩
        simp only [ne_eq, decide_not, Bool.not_eq_true', decide_eq_false_iff_not]
        intro hk
        exact hnopanic e he hk m hm
      · rintro ⟨e, he, m, hm⟩
        exact ⟨e, (List.mem_filter.1 (hg.mem_iff.1 he)).1, m, hm⟩
    · refine List.Perm.trans ?_ (hg.filterMap _).symm
      have heq : (groupLogs logs).filterMap (fun e => decodedRecord s e.2) =
          ((groupLogs logs).filter (fun e => e.1 ≠ k)).filterMap
            (fun e => decodedRecord s e.2) := by
        have hgen : ∀ es : List (String × List Log), (∀ e ∈ es, e ∈ groupLogs logs) →
            es.filterMap (fun e => decodedRecord s e.2) =
              (es.filter (fun e => e.1 ≠ k)).filterMap (fun e => decodedRecord s e.2) := by
          intro es
          induction es with
          | nil => intro _; rfl
          | cons e rest ih =>
            intro hmem
            have ih1 := ih (fun x hx => hmem x (by simp [hx]))
            by_cases hk : e.1 = k
            · have hn := hnone e (hmem e (by simp)) hk
              simp only [List.filterMap_cons, hn, List.filter_cons, hk, ne_eq,
                not_true_eq_false, decide_False, Bool.false_eq_true, if_false]
              simpa [hk] using ih1
            · simp only [List.filter_cons, hk, ne_eq, not_false_eq_true, decide_True,
                if_true, List.filterMap_cons]
              rw [ih1]
        exact hgen _ (fun _ h => h)
      show List.Perm ((groupLogs logs).filterMap (fun e => decodedRecord s e.2))
        (((groupLogs logs).filter (fun e => e.1 ≠ k)).filterMap
          (fun e => decodedRecord s e.2))
      exact List.Perm.of_eq heq

theorem C23_order_within_hash_witness :
    GetAllTransactions
        { demoService [] with FilterLogs := fun _ _ => .ok [demoTopup, demoPayment, demoMinted]
                              mapRange := List.reverse } none none 1 10 =
      GetAllTransactions
        { demoService [] with FilterLogs := fun _ _ => .ok [demoPayment, demoTopup, demoMinted]
                              mapRange := id } none none 1 10 :=
  C23_order_within_hash (demoService []) List.reverse id (fun m => List.reverse_perm m)
    (fun m => List.Perm.refl m) [demoTopup, demoPayment, demoMinted]
    [demoPayment, demoTopup, demoMinted]
    (fun k => by
      by_cases h1 : "0xa1" = k
      · subst h1; decide
      · by_cases h2 : "0xb2" = k
        · subst h2; decide
        · simp [demoTopup, demoPayment, demoMinted, h1, h2])
    none none 1 10

theorem C27_failed_group_dropped_silently_witness :
    GetAllTransactions
        { demoService [] with FilterLogs := fun _ _ => .ok [shortTransfer, demoPayment] }
        none none 1 10 =
      GetAllTransactions
        { demoService [] with
          FilterLogs := fun _ _ =>
            .ok ([shortTransfer, demoPayment].filter (fun x => x.TxHash ≠ "0xd4"))
          mapRange := id } none none 1 10 :=
  (C27_failed_group_dropped_silently (demoService []) (fun m => List.reverse_perm m)).2
    id [shortTransfer, demoPayment] "0xd4" shortTransfer "invalid transfer event"
    (fun m => List.Perm.refl m) (by decide) (by decide) none none 1 10

/-- Called directly with arguments its caller never passes: the log line of a
poll that finds nothing slices `txHash[:10]`, so for the hash string "0xabc"
and a node that does not know the transaction the first poll panics; and the
timeout is multiplied into nanoseconds in a 64-bit integer, so for
`timeoutSeconds = -9223372037` the product wraps to a positive duration and the
deadline is 4611686018 ticks away. -/
theorem WaitForReceipt_direct_call :
    WaitForReceipt silentContractService "0xabc" 60 =
      (.panic "slice bounds out of range", [Effect.TransactionReceipt "0xabc" 0]) ∧
    timeoutDuration (-9223372037) = 9223372036709551616 ∧
    ticksBeforeDeadline (-9223372037) false = 4611686018 ∧
    (WaitForReceipt demoContractService demoTxHash (-9223372037)).1 =
      .ok { Status := 1, BlockNumber := 42 } ∧
    (WaitForReceipt demoContractService demoTxHash (-9223372037)).2.length = 3 := by
  refine ⟨?_, ?_, ?_, ?_, ?_⟩ <;> decide

/-- C29, evaluated where it fails.  Go computes `(page - 1) * limit` in 64-bit
`int`.  On the sorted list of two items and limit 32, page `2^59 + 1` has
`startIdx = 2^64`, which wraps to 0: the call returns the two items of page 1
again instead of the empty segment; with limit `2^62`, page 3 has a start
index that wraps to `-2^63`, and the slice expression panics. -/
theorem C29_pages_overflow :
    GetAllTransactions (demoService demoLogs) none none 1 32 =
      .ok { Transactions := [demoPaymentItem, demoTopupItem], TotalCount := 2, Page := 1,
            Limit := 32 } ∧
    GetAllTransactions (demoService demoLogs) none none 576460752303423489 32 =
      .ok { Transactions := [demoPaymentItem, demoTopupItem], TotalCount := 2,
            Page := 576460752303423489, Limit := 32 } ∧
    GetAllTransactions (demoService demoLogs) none none 3 4611686018427387904 =
      .panic "slice bounds out of range" := by
  refine ⟨?_, ?_, ?_⟩ <;> decide

/-- C21 (code divergence).  The statistics are not computed from the full list
of records: the service fetches the list with
`GetAllTransactions(nil, nil, 1, 999999)`, so the sums run over the first 999999
records of the sorted list only, while `TotalTransactions` counts them all.  On
a chain of two mints of one token each the answer is the one claimed.  On a
chain of 1,000,000 such mints all 1,000,000 records have type `mint` and amount
1, so the minted total is 1,000,000; the service answers `TotalMinted` 999999
and `CirculatingSupply` 999999 with `TotalTransactions` 1000000.  The handler
behind the statistics route runs its own loop, which counts the types `topup`
and `withdraw`, and answers `total_minted` 0 on the same chain. -/
theorem C21_stats_over_first_999999 :
    GetBlockchainStats (demoService (mintLogs 2)) =
      .ok { TotalMinted := "2", TotalBurned := "0", CirculatingSupply := "2",
            MaxSupply := "Unlimited", TotalTransactions := 2, TotalAddresses := 1,
            LatestBlock := 0 } ∧
    ∃ all r, materialize (demoService (mintLogs 1000000)) (mintLogs 1000000) = .ok all ∧
      all.length = 1000000 ∧ (∀ tx ∈ all, tx.Type_ = "mint" ∧ tx.Amount = "1") ∧
      amountsOfType "mint" all = 1000000 ∧
      GetBlockchainStats (demoService (mintLogs 1000000)) = .ok r ∧
      r.TotalMinted = "999999" ∧ r.CirculatingSupply = "999999" ∧
      r.TotalTransactions = 1000000 ∧
      BlockchainExplorerHandler.GetBlockchainStats (demoService (mintLogs 1000000)) =
        .Success "Blockchain statistics retrieved"
          { total_transactions := 1000000, transfers := 0, topups := 0, withdrawals := 0,
            mints := 0, burns := 0, total_minted := "0", total_burned := "0",
            circulating_supply := "0" } := by
  refine ⟨by decide, ?_⟩
  obtain ⟨all, r, h1, h2, h3, h4, h5, h6, h7, h8, h9⟩ :=
    GetBlockchainStats_mintLogs 1000000 (by decide)
  exact ⟨all, r, h1, h2, h3, by exact_mod_cast h4, h5, h6, h7, by exact_mod_cast h8,
    by exact_mod_cast h9⟩

/-- C12.  A transfer to the sender's own wallet is a request that fails
validation, yet `TransferTLC` only refuses the stored spelling of the address.
For the same address written in lower case, which the handler passes on as it
received it, the call returns no error: it reads the on-chain balance, decrypts
the signing key, submits the transfer, polls for the receipt and stores the
row.  The stored spelling, and a wrong PIN, are refused before any effect. -/
theorem C12_self_recipient_reaches_chain :
    EqualFold demoUserLower demoUser.WalletAddress = true ∧
    TransferTLC demoBackend 1 demoUserLower "5" "hi" "123456" =
      (.ok { TxHash := demoTxHash, FromAddress := demoUser.WalletAddress,
             ToAddress := demoUserLower, Amount := "5", AmountWei := "5000000000000000000",
             Memo := "hi", Status := "confirmed", Timestamp := 1700000000 },
       [Effect.GetBalance demoUser.WalletAddress,
        Effect.DecryptPrivateKey "enc-alice",
        Effect.Transfer "key-of-enc-alice" demoUserLower (5 * 10 ^ 18),
        Effect.TransactionReceipt demoTxHash 0,
        Effect.TransactionReceipt demoTxHash 1,
        Effect.TransactionReceipt demoTxHash 2,
        Effect.Create
          { ID := 0, TxHash := demoTxHash, FromAddress := demoUser.WalletAddress,
            ToAddress := demoUserLower, Amount := "5", TxType := "transfer",
            Status := "confirmed", BlockNumber := some 42, Metadata := [],
            CreatedAt := 1700000000, ConfirmedAt := some 1700000000 }]) ∧
    TransferTLC demoBackend 1 demoUser.WalletAddress "5" "hi" "123456" =
      (.err "cannot transfer to yourself", []) ∧
    TransferTLC demoBackend 1 demoUserLower "5" "hi" "000000" = (.err "invalid PIN", []) := by
  refine ⟨?_, ?_, ?_, ?_⟩ <;> decide

/-- C25.  Each of the five event decoders succeeds whenever the ABI decoder
unpacks the log data, and the `Transfer` decoder whenever the log has three
topics and a non-zero value; the record carries the decimal rendering of the
raw integer (the unpacked amount, or the big-endian value of the data of a
`Transfer` log) as `AmountWei` and of its quotient by 10^18 as `Amount`.  Every
record `parseLogToTransaction` returns for a log carries as `AmountWei` the raw
integer `n` read from that log under the event of its first topic and as
`Amount` the rendering of `n div 10^18`, so that, read back as numbers,
`Amount * 10^18 ≤ AmountWei < (Amount + 1) * 10^18`.  Every item of the list
`GetAllTransactions` materializes is such a record of one of the logs of the
query, with that log's transaction hash. -/
theorem C25_amount_truncated (s : BlockchainExplorerService)
    (hperm : ∀ m, (s.mapRange m).Perm m) :
    (∀ p ∈ [(parseTokensMinted s, "TokensMinted"), (parseTokensBurned s, "TokensBurned"),
        (parsePaymentProcessed s, "PaymentProcessed"), (parseTopupRequested s, "TopupRequested"),
        (parseWithdrawRequested s, "WithdrawRequested")],
      ∀ l timestamp ev, s.UnpackIntoInterface p.2 l.Data = .ok ev →
        ∃ tx, p.1 l timestamp = .ok tx ∧ tx.AmountWei = toString (ev.Amount : Int) ∧
          tx.Amount = toString ((ev.Amount : Int) / 10 ^ 18)) ∧
    (∀ l timestamp, 3 ≤ l.Topics.length → SetBytes l.Data ≠ 0 →
      ∃ tx, parseTransfer s l timestamp = .ok tx ∧ tx.AmountWei = toString (SetBytes l.Data) ∧
        tx.Amount = toString (SetBytes l.Data / 10 ^ 18)) ∧
    (∀ l tx, parseLogToTransaction s l = .ok tx →
      ∃ (sig : String) (rest : List String) (n : Nat), l.Topics = sig :: rest ∧
        ((∃ name ev,
            (sig, name) ∈ [(s.contractABI.TokensMinted, "TokensMinted"),
              (s.contractABI.TokensBurned, "TokensBurned"),
              (s.contractABI.PaymentProcessed, "PaymentProcessed"),
              (s.contractABI.TopupRequested, "TopupRequested"),
              (s.contractABI.WithdrawRequested, "WithdrawRequested")] ∧
            s.UnpackIntoInterface name l.Data = .ok ev ∧ ev.Amount = n) ∨
          (sig = s.contractABI.Transfer ∧ SetBytes l.Data = (n : Int))) ∧
        tx.AmountWei = toString (n : Int) ∧
        tx.Amount = toString ((n : Int) / 10 ^ 18) ∧
        SetString tx.Amount * 10 ^ 18 ≤ SetString tx.AmountWei ∧
        SetString tx.AmountWei < (SetString tx.Amount + 1) * 10 ^ 18) ∧
    (∀ logs all, materialize s logs = .ok all → ∀ tx ∈ all,
      ∃ l ∈ logs, l.TxHash = tx.TxHash ∧ parseLogToTransaction s l = .ok tx) := by
  refine ⟨fun p hp l timestamp ev hu => eventDecoders_total s p hp l timestamp ev hu,
    fun l timestamp ht hnz => parseTransfer_total s l timestamp ht hnz, ?_, ?_⟩
  · intro l tx h
    obtain ⟨sig, rest, n, ht, hn, hw, ha⟩ := parseLogToTransaction_raw s l tx h
    exact ⟨sig, rest, n, ht, hn, record_amounts tx n hw ha⟩
  · intro logs all h tx htx
    obtain ⟨e, he, l, hsel, hparse⟩ := materialize_mem s logs all h tx htx
    obtain ⟨hl, hk⟩ := mapRange_entry_mem s hperm logs e he l (selectLog_some _ _ _ hsel).1
    exact ⟨l, hl, (parseLogToTransaction_ok s l tx hparse).1.symm, hparse⟩

theorem C25_amount_truncated_witness :
    (∃ tx, parseTransfer (demoService []) (mintLog 7) 7 = .ok tx ∧
      tx.AmountWei = toString (SetBytes (mintLog 7).Data) ∧
      tx.Amount = toString (SetBytes (mintLog 7).Data / 10 ^ 18)) ∧
    ∃ l ∈ [demoTopup, demoPayment], l.TxHash = demoPaymentItem.TxHash ∧
      parseLogToTransaction (demoService []) l = .ok demoPaymentItem :=
  have h := C25_amount_truncated (demoService []) (fun m => List.reverse_perm m)
  ⟨h.2.1 (mintLog 7) 7 (by decide) (by decide),
   h.2.2.2 [demoTopup, demoPayment] [demoPaymentItem, demoTopupItem] (by decide) demoPaymentItem
     (by simp)⟩

/-- C28.  `WaitForReceipt` is a total function of the node's answers: the wait
always ends.  For a transaction hash of at least ten bytes (the caller passes
the 66 bytes of `tx.Hash().Hex()`) and a timeout that is not negative (the
caller passes 60), the number of ticks before the deadline, and so the number
of polls, is at most `ceil(timeoutSeconds / 2)`; the wait never panics; when the
first poll that finds a receipt is poll `k`, the wait ends after these `k + 1`
polls, with the revert error if the receipt has failed and with the receipt
otherwise; and when no poll before the deadline finds a receipt it ends with
the timeout error. -/
theorem C28_wait_terminates (cs : ContractService) (txHash : String) (timeoutSeconds : Int)
    (hlen : 10 ≤ txHash.utf8ByteSize) (htime : 0 ≤ timeoutSeconds) :
    (ticksBeforeDeadline timeoutSeconds cs.tieToTicker : Int) ≤ (timeoutSeconds + 1) / 2 ∧
    (WaitForReceipt cs txHash timeoutSeconds).2.length ≤
      ticksBeforeDeadline timeoutSeconds cs.tieToTicker ∧
    (∀ e, (WaitForReceipt cs txHash timeoutSeconds).1 ≠ .panic e) ∧
    (∀ k receipt, k < ticksBeforeDeadline timeoutSeconds cs.tieToTicker →
      (∀ j, j < k → ∃ e, cs.TransactionReceipt txHash j = .error e) →
      cs.TransactionReceipt txHash k = .ok receipt →
      WaitForReceipt cs txHash timeoutSeconds =
        (if receipt.Status = ReceiptStatusFailed then
          .err "transaction reverted on blockchain" else .ok receipt,
         (List.range (k + 1)).map (fun j => Effect.TransactionReceipt txHash j))) ∧
    ((∀ j, j < ticksBeforeDeadline timeoutSeconds cs.tieToTicker →
        ∃ e, cs.TransactionReceipt txHash j = .error e) →
      WaitForReceipt cs txHash timeoutSeconds =
        (.err "timeout waiting for transaction confirmation",
         (List.range (ticksBeforeDeadline timeoutSeconds cs.tieToTicker)).map
           (fun j => Effect.TransactionReceipt txHash j))) := by
  refine ⟨ticksBeforeDeadline_le timeoutSeconds cs.tieToTicker htime, ?_, ?_, ?_, ?_⟩
  · exact pollReceipt_length cs txHash _ 0
  · exact pollReceipt_ne_panic cs txHash hlen _ 0
  · intro k receipt hk hnone hfound
    obtain ⟨h1, h2⟩ := pollReceipt_first cs txHash hlen receipt k _ 0 hk
      (fun j _ hj => hnone j (by omega)) (by simpa using hfound)
    simp only [Nat.zero_add] at h2
    exact Prod.ext h1 h2
  · intro hnone
    obtain ⟨h1, h2⟩ := pollReceipt_timeout cs txHash hlen
      (ticksBeforeDeadline timeoutSeconds cs.tieToTicker) 0
      (fun j _ hj => hnone j (by omega))
    simp only [Nat.zero_add] at h2
    exact Prod.ext h1 h2

theorem C28_wait_terminates_witness :
    (ticksBeforeDeadline 60 demoContractService.tieToTicker : Int) ≤ (60 + 1) / 2 ∧
    (WaitForReceipt demoContractService demoTxHash 60).2.length ≤
      ticksBeforeDeadline 60 demoContractService.tieToTicker ∧
    WaitForReceipt demoContractService demoTxHash 60 =
      (.ok { Status := 1, BlockNumber := 42 },
       (List.range (2 + 1)).map (fun j => Effect.TransactionReceipt demoTxHash j)) :=
  have h := C28_wait_terminates demoContractService demoTxHash 60 (by decide) (by decide)
  ⟨h.1, h.2.1, h.2.2.2.1 2 { Status := 1, BlockNumber := 42 } (by decide)
    (fun j hj => ⟨"not found", by
      have : j = 0 ∨ j = 1 := by omega
      rcases this with rfl | rfl <;> rfl⟩) rfl⟩

/-- C30 (counterexample).  "0" is the canonical decimal string of 0, and the
big-integer multiplication by 10^18 renders 0 as "0"; `ConvertToWei` answers
the bytes of nineteen zeros, which is not a canonical decimal string. -/
theorem C30_counterexample :
    isCanonicalDecimal "0" = true ∧
    toString (amountWei (SetString "0")) = "0" ∧
    ConvertToWei (goBytes "0") = goBytes "0000000000000000000" ∧
    ConvertToWei (goBytes "0") ≠ goBytes (toString (amountWei (SetString "0"))) ∧
    isCanonicalDecimal "0000000000000000000" = false := by
  refine ⟨?_, ?_, ?_, ?_, ?_⟩ <;> decide

/-- C30 (amended).  For every canonical decimal string `s`: `ConvertFromWei`
answers the canonical decimal string of the big-integer quotient by 10^18;
`ConvertToWei` answers `s` followed by eighteen zeros, a decimal string that
`SetString` accepts and reads as the big-integer product by 10^18, and that is
the canonical string of that product whenever `s` is not "0"; and
`ConvertFromWei` of `ConvertToWei` gives `s` back. -/
theorem C30_string_converters (s : String) (h : isCanonicalDecimal s = true) :
    ConvertFromWei (goBytes s) = goBytes (toString (amountTLC (SetString s))) ∧
    ConvertToWei (goBytes s) = goBytes (s ++ "000000000000000000") ∧
    SetStringOk (s ++ "000000000000000000") = true ∧
    SetString (s ++ "000000000000000000") = amountWei (SetString s) ∧
    (s ≠ "0" → ConvertToWei (goBytes s) = goBytes (toString (amountWei (SetString s)))) ∧
    ConvertFromWei (ConvertToWei (goBytes s)) = goBytes s := by
  obtain ⟨h1, h2, _⟩ := (isCanonicalDecimal_iff s).1 h
  refine ⟨ConvertFromWei_canonical s h, ConvertToWei_goBytes s,
    (SetString_appended_zeros s h).1, (SetString_appended_zeros s h).2,
    ConvertToWei_canonical s h, ConvertFromWei_ConvertToWei _ ?_⟩
  rw [goBytes_digits s.data h2]
  intro h0
  exact h1 (List.map_eq_nil_iff.1 h0)

theorem C30_string_converters_witness :
    ConvertFromWei (goBytes "12000000000000000000") =
      goBytes (toString (amountTLC (SetString "12000000000000000000"))) ∧
    ConvertToWei (goBytes "12000000000000000000") =
      goBytes ("12000000000000000000" ++ "000000000000000000") ∧
    SetStringOk ("12000000000000000000" ++ "000000000000000000") = true ∧
    SetString ("12000000000000000000" ++ "000000000000000000") =
      amountWei (SetString "12000000000000000000") ∧
    ("12000000000000000000" ≠ "0" → ConvertToWei (goBytes "12000000000000000000") =
      goBytes (toString (amountWei (SetString "12000000000000000000")))) ∧
    ConvertFromWei (ConvertToWei (goBytes "12000000000000000000")) =
      goBytes "12000000000000000000" :=
  C30_string_converters "12000000000000000000" (by decide)

end TeluCoin
